import Mathlib

/-! Chat broker (`labs/lab02/backend/chatcore/chatcore.go`).

A shallow embedding of the broker: the inbound queue `input`, the registry
`users`, the cancellation signal `ctx.Done()`, the `done` signal, and the
subscriber channels the registry refers to.

Go channels are reference values, so the registry stores channel references
and the channel objects live in a heap (`chans`): two identities may be
registered with one and the same channel object.

The broker is embedded at two levels.  A `World` is the broker in the Go
runtime.  Every channel object is open or closed and may have receivers
blocked on it, and a non-blocking send does what the runtime does: on a closed
channel it panics, else a blocked receiver takes the message, else the buffer
takes it if it has room, else the `default` case drops it (a `nil` channel
behaves like an open channel of capacity 0 without receivers).  `Run` has no
guard against a second call, a `close` of the closed `done` panics, and a
panic, which nothing recovers, ends the program (`World.selectnbsend`,
`World.dispatch`, `World.runIter`, `World.step`).  What is stated about
delivery, about drops and about the lifecycle of `Run` is stated about worlds.

A `Broker` on its own (`trySend`, `dispatch`, `runIter`, `step`) stands for
the world in which the subscriber channels are open and no receiver is blocked
on one, and in which `Run` is called once, `phase` being the progress of that
call (`World.Matches`): there the steps and the executions of the broker are
those of the world (`World.dispatch_eq`, `World.step_matches`,
`World.exec_of_exec`, `World.exec_matches`).  What is stated about the
registry, the bound and the order of the queue, and about what a dispatch
never does to a channel, is stated about it.

A Go `select` with several ready cases picks one of them pseudo-randomly; the
choice is an explicit argument `pick` of the operations that contain a
`select` without `default`.

The registry map is an association list.  The iteration order of a Go map is
unspecified; `broadcast_perm` shows that the result of a broadcast over open
channels does not depend on the order of the entries.  Every method call and
every iteration of the loop of `Run` is one atomic step (`step`,
`World.step`), which is what the mutex and the single dispatcher give.

The calls that take `usersMutex` are also modelled statement by statement
(`gstep`, `sysStep`), with the mutex as the goroutine that holds it by `Lock`
and the goroutines that hold it by `RLock`, to follow their interleavings.

The user manager of `labs/lab02/backend/user/user.go` is embedded in the
namespace `UserPkg`.
-/

namespace Chatcore

/-- The `Message` struct of chatcore.go. -/
structure Message where
  Sender : String
  Recipient : String
  Content : String
  Broadcast : Bool
  Timestamp : Int
deriving DecidableEq, Repr

/-- A channel object `chan Message`: buffered messages (oldest first) and capacity. -/
structure Chan where
  buf : List Message
  cap : Nat
deriving DecidableEq, Repr

/-- A reference to a channel object. -/
abbrev ChanRef := Nat

/-- Progress of the single `Run` call of a broker. -/
inductive Phase where
  | Created
  | Running
  | Stopped
deriving DecidableEq, Repr

/-- The `Broker` struct together with the channel objects its registry refers to.
`ctxDone` says whether `ctx.Done()` is closed, `input` is the buffer of the
inbound channel, `users` the registry map as an association list, `done` says
whether the `done` channel is closed, `phase` where the `Run` call stands. -/
structure Broker where
  ctxDone : Bool
  input : List Message
  users : List (String × ChanRef)
  done : Bool
  phase : Phase
  chans : ChanRef → Chan

/-- Capacity of the inbound channel: `make(chan Message, 100)`. -/
def inputCap : Nat := 100

/-- The broker returned by `NewBroker(ctx)`: empty queue, empty registry, open `done`. -/
def NewBroker (ctxDone : Bool) (chans : ChanRef → Chan) : Broker :=
  { ctxDone := ctxDone, input := [], users := [], done := false,
    phase := Phase.Created, chans := chans }

/-- Map lookup `ch, ok := b.users[id]`. -/
def lookupUser (b : Broker) (id : String) : Option ChanRef :=
  b.users.lookup id

/-- The non-blocking send `select { case ch <- msg: default: }` on channel `c`,
open and with no receiver blocked on it (`World.selectnbsend` is the send on any
channel). -/
def trySend (h : ChanRef → Chan) (c : ChanRef) (msg : Message) : ChanRef → Chan :=
  if (h c).buf.length < (h c).cap then
    Function.update h c { buf := (h c).buf ++ [msg], cap := (h c).cap }
  else h

/-- The broadcast loop `for _, ch := range b.users { select { case ch <- msg: default: } }`. -/
def broadcast (h : ChanRef → Chan) (entries : List (String × ChanRef)) (msg : Message) :
    ChanRef → Chan :=
  entries.foldl (fun acc e => trySend acc e.2 msg) h

/-- The method `dispatch` over open channels with no receiver blocked on them
(`World.dispatch` is the method over any channels). -/
def dispatch (b : Broker) (msg : Message) : Broker :=
  if msg.Broadcast then
    { b with chans := broadcast b.chans b.users msg }
  else
    match lookupUser b msg.Recipient with
    | some ch => { b with chans := trySend b.chans ch msg }
    | none => b

/-- The method `RegisterUser`: `b.users[userID] = recv`, which replaces the entry
of `userID` if there is one. -/
def RegisterUser (b : Broker) (userID : String) (recv : ChanRef) : Broker :=
  { b with users := (userID, recv) :: b.users.filter (fun e => e.1 != userID) }

/-- The method `UnregisterUser`: `delete(b.users, userID)`. -/
def UnregisterUser (b : Broker) (userID : String) : Broker :=
  { b with users := b.users.filter (fun e => e.1 != userID) }

/-- The choice a `select` makes among its ready cases; `none` when no case is
ready, that is when the `select` blocks. -/
def selectReady {α : Type} (ready : List α) (pick : Nat) : Option α :=
  ready.get? (pick % ready.length)

/-- The two cases of the `select` in `SendMessage`. -/
inductive SendCase where
  | ctxDone
  | sendInput
deriving DecidableEq, Repr

/-- The cases of the `select` in `SendMessage` that can proceed. -/
def sendReady (b : Broker) : List SendCase :=
  (if b.ctxDone then [SendCase.ctxDone] else []) ++
  (if b.input.length < inputCap then [SendCase.sendInput] else [])

/-- The error value `SendMessage` returns. -/
def errBrokerClosed : String := "broker closed or context cancelled"

/-- The method `SendMessage`: `none` while the call is blocked, otherwise the
broker afterwards and the returned error (`none` for `nil`). -/
def SendMessage (b : Broker) (msg : Message) (pick : Nat) : Option (Broker × Option String) :=
  match selectReady (sendReady b) pick with
  | none => none
  | some SendCase.ctxDone => some (b, some errBrokerClosed)
  | some SendCase.sendInput => some ({ b with input := b.input ++ [msg] }, none)

/-- The two cases of the `select` in `Run`. -/
inductive RunCase where
  | ctxDone
  | recvInput
deriving DecidableEq, Repr

/-- The cases of the `select` in `Run` that can proceed. -/
def runReady (b : Broker) : List RunCase :=
  (if b.ctxDone then [RunCase.ctxDone] else []) ++
  (if b.input.isEmpty then [] else [RunCase.recvInput])

/-- One iteration of the `for { select { ... } }` loop of `Run`: `none` while the
`select` is blocked; on cancellation `done` is closed and `Run` returns. -/
def runIter (b : Broker) (pick : Nat) : Option Broker :=
  match selectReady (runReady b) pick with
  | none => none
  | some RunCase.ctxDone => some { b with done := true, phase := Phase.Stopped }
  | some RunCase.recvInput =>
    match b.input with
    | [] => none
    | msg :: rest => some (dispatch { b with input := rest } msg)

/-- The steps of a broker: the cancellation signal fires, `Run` is called, one
iteration of the loop of `Run`, and the calls of the exported methods. -/
inductive Action where
  | cancel
  | run
  | iter (pick : Nat)
  | send (msg : Message) (pick : Nat)
  | register (userID : String) (recv : ChanRef)
  | unregister (userID : String)
deriving DecidableEq, Repr

/-- The step function of a broker whose `Run` is called once: `none` when the
action cannot proceed in this state (`World.step` is the step function with
any number of calls of `Run`). -/
def step (b : Broker) : Action → Option Broker
  | Action.cancel => some { b with ctxDone := true }
  | Action.run => if b.phase = Phase.Created then some { b with phase := Phase.Running } else none
  | Action.iter pick => if b.phase = Phase.Running then runIter b pick else none
  | Action.send msg pick => (SendMessage b msg pick).map Prod.fst
  | Action.register userID recv => some (RegisterUser b userID recv)
  | Action.unregister userID => some (UnregisterUser b userID)

/-- Execution of a sequence of steps. -/
def exec (b : Broker) : List Action → Option Broker
  | [] => some b
  | a :: rest => (step b a).bind (fun b1 => exec b1 rest)

/-- Whether a step is a call of `RegisterUser`. -/
def Action.isRegister : Action → Bool
  | Action.register _ _ => true
  | _ => false

/-- Number of registry entries that refer to channel `c`: the number of sends a
broadcast attempts on `c`. -/
def copies (entries : List (String × ChanRef)) (c : ChanRef) : Nat :=
  entries.countP (fun e => decide (e.2 = c))

/-- The message a step accepts into the inbound queue: that of a `SendMessage`
that returns `nil`. -/
def acceptedBy (b : Broker) : Action → List Message
  | Action.send msg pick =>
    match SendMessage b msg pick with
    | some (_, none) => [msg]
    | _ => []
  | _ => []

/-- The message a step passes to `dispatch`: that of a loop iteration of `Run`
which takes the receive case. -/
def dispatchedBy (b : Broker) : Action → List Message
  | Action.iter pick =>
    if b.phase = Phase.Running then
      match selectReady (runReady b) pick, b.input with
      | some RunCase.recvInput, msg :: _ => [msg]
      | _, _ => []
    else []
  | _ => []

/-- The messages accepted into the queue along an execution, in order. -/
def accepted (b : Broker) : List Action → List Message
  | [] => []
  | a :: rest =>
    match step b a with
    | some b1 => acceptedBy b a ++ accepted b1 rest
    | none => []

/-- The messages dispatched along an execution, in order. -/
def dispatched (b : Broker) : List Action → List Message
  | [] => []
  | a :: rest =>
    match step b a with
    | some b1 => dispatchedBy b a ++ dispatched b1 rest
    | none => []

/-! ## Sample data -/

/-- The message that already fills bob's channel in the sample heap. -/
def fillerMsg : Message :=
  { Sender := "dave", Recipient := "bob", Content := "old", Broadcast := false, Timestamp := 0 }

/-- A broadcast message `M` sent by alice. -/
def msgM : Message :=
  { Sender := "alice", Recipient := "", Content := "hello all", Broadcast := true, Timestamp := 1 }

/-- A private message from bob to alice. -/
def privAlice : Message :=
  { Sender := "bob", Recipient := "alice", Content := "hi", Broadcast := false, Timestamp := 2 }

/-- A private message from alice to carol. -/
def privCarol : Message :=
  { Sender := "alice", Recipient := "carol", Content := "hi", Broadcast := false, Timestamp := 3 }

/-- Channel 0 is empty with capacity 1, channel 1 is full with capacity 1, every
other reference is a channel without buffer. -/
def sampleHeap : ChanRef → Chan := fun c =>
  if c = 0 then { buf := [], cap := 1 }
  else if c = 1 then { buf := [fillerMsg], cap := 1 }
  else { buf := [], cap := 0 }

/-- After `RegisterUser("alice", ch0)` and `RegisterUser("bob", ch1)` on a new broker. -/
def scenarioBroker : Broker :=
  RegisterUser (RegisterUser (NewBroker false sampleHeap) "alice" 0) "bob" 1

/-- After `RegisterUser("alice", ch0)` and `RegisterUser("bob", ch0)` on a new
broker: both identities are registered with the same channel object. -/
def sharedBroker : Broker :=
  RegisterUser (RegisterUser (NewBroker false sampleHeap) "alice" 0) "bob" 0

/-- The sample broker once `Run` has been called and `SendMessage(privAlice)` has
returned `nil`: the loop is running and the message waits in the queue. -/
def queuedBroker : Broker :=
  { scenarioBroker with phase := Phase.Running, input := [privAlice] }

/-- The broker `queuedBroker` after the cancellation signal has fired. -/
def cancelledBroker : Broker := { queuedBroker with ctxDone := true }

/-- The sample broker with the loop running, an empty queue and the cancellation
signal fired. -/
def cancelledIdle : Broker :=
  { scenarioBroker with phase := Phase.Running, ctxDone := true }

/-- The broker `cancelledBroker` after the loop has taken the cancellation case:
`Run` has returned and `privAlice` is left in the queue. -/
def stoppedBroker : Broker := { cancelledBroker with done := true, phase := Phase.Stopped }

/-- A new broker over channels of capacity 2, with alice registered at channel 0. -/
def roomyBroker : Broker :=
  RegisterUser (NewBroker false (fun _ => { buf := [], cap := 2 })) "alice" 0

/-- The sample broker with the loop running and two messages queued: one for
bob, whose channel is full, then one for alice. -/
def busyBroker : Broker :=
  { scenarioBroker with phase := Phase.Running, input := [fillerMsg, privAlice] }

/-- The sample broker with 100 messages waiting in the inbound queue. -/
def fullBroker : Broker :=
  { scenarioBroker with input := List.replicate 100 privAlice }

/-- The broker `roomyBroker` after `RegisterUser("bob", ch0)`: alice and bob are
registered with the same channel object, of capacity 2. -/
def roomyShared : Broker := RegisterUser roomyBroker "bob" 0

/-- The sample broker with the loop running, an empty queue and no cancellation. -/
def runningIdle : Broker := { scenarioBroker with phase := Phase.Running }

/-! ## The broker in the Go runtime -/

/-- The broker in the Go runtime it runs in.  Beyond the broker `b`, with the
buffers of the channel objects, a world records for every channel object
whether its owner has closed it (`closed`), how many receivers are blocked on it
(`recvq`) and, as an observation, the messages that sends have handed straight
to such receivers (`handed`); how many calls of `Run` are in their loop
(`loops`); and whether a goroutine has panicked, which ends the program, as
nothing recovers (`panicked`).  The field `phase` of `b` plays no part in a
world.  The steps of a world are those of the broker; what the owners of the
subscriber channels do between them is covered by stating what a step does in
every world. -/
structure World where
  b : Broker
  closed : ChanRef → Bool
  recvq : ChanRef → Nat
  handed : ChanRef → List Message
  loops : Nat
  panicked : Bool

/-- What the runtime does with a non-blocking send. -/
inductive SendOutcome where
  | panics
  | handsOff
  | buffers
  | drops
deriving DecidableEq, Repr

/-- The outcome of `select { case ch <- msg: default: }` on channel `c`, in the
order in which the runtime decides it: a send on a closed channel panics; else
a blocked receiver takes the message; else the buffer takes it if it has room;
else the `default` case is taken. -/
def World.sendOutcome (w : World) (c : ChanRef) : SendOutcome :=
  if w.closed c then SendOutcome.panics
  else if 0 < w.recvq c then SendOutcome.handsOff
  else if (w.b.chans c).buf.length < (w.b.chans c).cap then SendOutcome.buffers
  else SendOutcome.drops

/-- The non-blocking send `select { case ch <- msg: default: }` on channel `c`. -/
def World.selectnbsend (w : World) (c : ChanRef) (msg : Message) : World :=
  match w.sendOutcome c with
  | SendOutcome.panics => { w with panicked := true }
  | SendOutcome.handsOff =>
    { w with recvq := Function.update w.recvq c (w.recvq c - 1),
             handed := Function.update w.handed c (w.handed c ++ [msg]) }
  | SendOutcome.buffers =>
    { w with
      b := { w.b with
        chans := Function.update w.b.chans c
          { buf := (w.b.chans c).buf ++ [msg], cap := (w.b.chans c).cap } } }
  | SendOutcome.drops => w

/-- The broadcast loop `for _, ch := range b.users { select { ... } }` over the
entries in the order in which this run of the loop visits them; a panic ends
it. -/
def World.broadcast (w : World) : List (String × ChanRef) → Message → World
  | [], _ => w
  | e :: es, msg =>
    if (w.selectnbsend e.2 msg).panicked then w.selectnbsend e.2 msg
    else World.broadcast (w.selectnbsend e.2 msg) es msg

/-- The method `dispatch` in a world. -/
def World.dispatch (w : World) (msg : Message) : World :=
  if msg.Broadcast then w.broadcast w.b.users msg
  else
    match lookupUser w.b msg.Recipient with
    | some ch => w.selectnbsend ch msg
    | none => w

/-- One iteration of the loop of `Run` in a world: `none` while the `select` is
blocked.  In the cancellation case `close(b.done)` panics if `done` is closed
already; otherwise it closes `done` and this call of `Run` returns. -/
def World.runIter (w : World) (pick : Nat) : Option World :=
  match selectReady (runReady w.b) pick with
  | none => none
  | some RunCase.ctxDone =>
    if w.b.done then some { w with panicked := true }
    else some { w with b := { w.b with done := true }, loops := w.loops - 1 }
  | some RunCase.recvInput =>
    match w.b.input with
    | [] => none
    | msg :: rest => some (World.dispatch { w with b := { w.b with input := rest } } msg)

/-- The step function of a world: `none` when the action cannot proceed, as it
cannot once the program has panicked.  `Run` may be called at any time and any
number of times; an iteration needs a call of `Run` that is in its loop. -/
def World.step (w : World) : Action → Option World
  | Action.cancel =>
    if w.panicked then none else some { w with b := { w.b with ctxDone := true } }
  | Action.run => if w.panicked then none else some { w with loops := w.loops + 1 }
  | Action.iter pick => if w.panicked ∨ w.loops = 0 then none else w.runIter pick
  | Action.send msg pick =>
    if w.panicked then none
    else (SendMessage w.b msg pick).map (fun r => { w with b := r.1 })
  | Action.register userID recv =>
    if w.panicked then none else some { w with b := RegisterUser w.b userID recv }
  | Action.unregister userID =>
    if w.panicked then none else some { w with b := UnregisterUser w.b userID }

/-- Execution of a sequence of steps in a world. -/
def World.exec (w : World) : List Action → Option World
  | [] => some w
  | a :: rest => (w.step a).bind (fun w1 => World.exec w1 rest)

/-- A call of `Run` that is in its loop (it is counted in `loops`), run on its own
and driven by the choices `picks` of its `select`: the world in which the call
returns, or `none` when it does not return: blocked, still in the loop, or
ended by a panic. -/
def World.Run (w : World) : List Nat → Option World
  | [] => none
  | pick :: picks =>
    match selectReady (runReady w.b) pick with
    | none => none
    | some RunCase.ctxDone =>
      if w.b.done then none
      else some { w with b := { w.b with done := true }, loops := w.loops - 1 }
    | some RunCase.recvInput =>
      match w.b.input with
      | [] => none
      | msg :: rest =>
        if (World.dispatch { w with b := { w.b with input := rest } } msg).panicked then none
        else World.Run (World.dispatch { w with b := { w.b with input := rest } } msg) picks

/-- The world of a broker whose channels are all open and have no receiver
blocked on them, before any call of `Run`. -/
def World.ofBroker (b : Broker) : World :=
  { b := b, closed := fun _ => false, recvq := fun _ => 0, handed := fun _ => [],
    loops := 0, panicked := false }

/-- Whether a step closes `done`: a loop iteration that takes the cancellation
case while `done` is open. -/
def World.closesDone (w : World) : Action → Bool
  | Action.iter pick =>
    !w.panicked && decide (0 < w.loops) && !w.b.done &&
      decide (selectReady (runReady w.b) pick = some RunCase.ctxDone)
  | _ => false

/-- Number of times `done` is closed along an execution. -/
def World.doneCloses (w : World) : List Action → Nat
  | [] => 0
  | a :: rest =>
    match w.step a with
    | some w1 => (if w.closesDone a then 1 else 0) + World.doneCloses w1 rest
    | none => 0

/-- The alice/bob scenario in a world of open channels. -/
def scenarioWorld : World := World.ofBroker scenarioBroker

/-- The alice/bob scenario with alice's channel, which has room, closed by its
owner. -/
def closedAliceWorld : World := { scenarioWorld with closed := fun c => decide (c = 0) }

/-- The alice/bob scenario with a receiver blocked on alice's empty channel. -/
def waitingAliceWorld : World :=
  { scenarioWorld with recvq := fun c => if c = 0 then 1 else 0 }

/-- The alice/bob scenario with carol registered with the unbuffered channel 2, on
which a receiver is blocked. -/
def unbufferedWorld : World :=
  { World.ofBroker (RegisterUser scenarioBroker "carol" 2) with
    recvq := fun c => if c = 2 then 1 else 0 }

/-- The world of `sharedBroker`: alice and bob registered with one open channel. -/
def sharedWorld : World := World.ofBroker sharedBroker

/-- The world of `cancelledIdle` with one call of `Run` in its loop: the signal
has fired and the queue is empty. -/
def cancelledIdleWorld : World := { World.ofBroker cancelledIdle with loops := 1 }

/-- The world of `cancelledBroker` with one call of `Run` in its loop: the
signal has fired while `privAlice` waits in the queue. -/
def cancelledWorld : World := { World.ofBroker cancelledBroker with loops := 1 }

/-- The world of `stoppedBroker`: `Run` has returned, `done` is closed and
`privAlice` is left in the queue. -/
def stoppedWorld : World := World.ofBroker stoppedBroker

/-- The alice/bob scenario with the loop of one `Run` call running and two
messages queued, a private message to bob and one to alice; every channel is
open and no receiver is blocked. -/
def busyWorld : World := { World.ofBroker busyBroker with loops := 1 }

/-- The world `busyWorld` with bob's full channel closed by its owner. -/
def closedBobBusyWorld : World := { busyWorld with closed := fun c => decide (c = 1) }

/-- The broker `b`, with the progress `phase` of its one call of `Run`, stands for
the world `w`: the two agree on the signals, the queue, the registry and the
channel objects; in `w` every channel is open and has no receiver blocked on
it, and nothing has panicked; the loop of `Run` runs in `w` exactly when `b`
is `Running`; and `done` is closed exactly when `b` is `Stopped`. -/
structure World.Matches (w : World) (b : Broker) : Prop where
  ctxDone : w.b.ctxDone = b.ctxDone
  input : w.b.input = b.input
  users : w.b.users = b.users
  done : w.b.done = b.done
  chans : w.b.chans = b.chans
  isOpen : ∀ c : ChanRef, w.closed c = false
  noRecv : ∀ c : ChanRef, w.recvq c = 0
  loops : w.loops = if b.phase = Phase.Running then 1 else 0
  noPanic : w.panicked = false
  stopped : b.done = true ↔ b.phase = Phase.Stopped

end Chatcore

/-! ## User manager (`labs/lab02/backend/user/user.go`) -/

namespace UserPkg

/-- The `User` struct of user.go. -/
structure User where
  Name : String
  Email : String
  ID : String
deriving DecidableEq, Repr

/-- The class `\s` of Go regular expressions: tab, newline, form feed, carriage
return and space. -/
def isSpaceClass (c : Char) : Bool :=
  c == Char.ofNat 9 || c == Char.ofNat 10 || c == Char.ofNat 12 || c == Char.ofNat 13 || c == ' '

/-- The class `[^@\s]`. -/
def isPlain (c : Char) : Bool := c != '@' && !isSpaceClass c

/-- Whether some `.` of the text has at least one character before it and one
after it. -/
def hasInnerDot (cs : List Char) : Bool := (cs.drop 1).dropLast.contains '.'

/-- Whether the whole text matches `^[^@\s]+@[^@\s]+\.[^@\s]+$`: a non-empty run of
plain characters, an `@`, and a rest of plain characters with an inner `.`. -/
def matchEmail (cs : List Char) : Bool :=
  match cs.dropWhile isPlain with
  | '@' :: rest => !(cs.takeWhile isPlain).isEmpty && rest.all isPlain && hasInnerDot rest
  | _ => false

/-- The method `Validate`: the error it returns, `none` for `nil`. -/
def Validate (u : User) : Option String :=
  if u.ID = "" then some "user ID is required"
  else if u.Name = "" then some "user name is required"
  else if u.Email = "" then some "user email is required"
  else if !matchEmail u.Email.toList then some "invalid email format"
  else none

/-- The `UserManager` struct: `ctx` is `none` for a nil context and otherwise says
whether the context is cancelled; `users` is the map, as an association list. -/
structure UserManager where
  ctx : Option Bool
  users : List (String × User)

/-- The manager returned by `NewUserManager()`. -/
def NewUserManager : UserManager := { ctx := none, users := [] }

/-- The manager returned by `NewUserManagerWithContext(ctx)`. -/
def NewUserManagerWithContext (ctx : Option Bool) : UserManager := { ctx := ctx, users := [] }

/-- The method `AddUser`: the manager afterwards and the returned error. -/
def AddUser (m : UserManager) (u : User) : UserManager × Option String :=
  if m.ctx = some true then (m, some "context cancelled")
  else
    match Validate u with
    | some err => (m, some err)
    | none =>
      if (m.users.lookup u.ID).isSome then (m, some "user already exists")
      else ({ m with users := (u.ID, u) :: m.users.filter (fun e => e.1 != u.ID) }, none)

/-- The method `RemoveUser`. -/
def RemoveUser (m : UserManager) (id : String) : UserManager × Option String :=
  if (m.users.lookup id).isSome then
    ({ m with users := m.users.filter (fun e => e.1 != id) }, none)
  else (m, some "user not found")

/-- The method `GetUser`: the user and the error. -/
def GetUser (m : UserManager) (id : String) : User × Option String :=
  match m.users.lookup id with
  | some user => (user, none)
  | none => ({ Name := "", Email := "", ID := "" }, some "user not found")

/-- A valid user. -/
def ann : User := { Name := "Ann", Email := "ann@example.com", ID := "u1" }

/-- Another user with the identifier of `ann`. -/
def annTwin : User := { Name := "Twin", Email := "twin@example.org", ID := "u1" }

/-- A user whose email has no domain dot. -/
def badMail : User := { Name := "Bob", Email := "bob@example", ID := "u2" }

end UserPkg

namespace Chatcore

/-! ## Calls that interleave on `usersMutex` -/

/-- A call of a method that takes `usersMutex`. -/
inductive Call where
  | register (userID : String) (recv : ChanRef)
  | unregister (userID : String)
  | dispatch (msg : Message)
deriving DecidableEq, Repr

/-- Where a call stands: before it takes the lock; holding the lock with its body
not yet run; in the broadcast loop with `i` entries visited; with its body done
and the deferred unlock pending; returned. -/
inductive Pc where
  | start
  | locked
  | ranging (i : Nat)
  | unlocking
  | finished
deriving DecidableEq, Repr

/-- A goroutine running one call.  `snap` and `seen` are observations, not part
of the program: the registry at the moment the call took the read lock, and the
registry entries the call has read so far. -/
structure Goroutine where
  call : Call
  pc : Pc
  snap : List (String × ChanRef)
  seen : List (String × ChanRef)
deriving DecidableEq, Repr

/-- The broker with the state of `usersMutex`: the goroutine that holds it by
`Lock`, the goroutines that hold it by `RLock`.  `history` is an observation:
the goroutines whose map write has run, in the order of the writes. -/
structure Shared where
  b : Broker
  writer : Option Nat
  readers : List Nat
  history : List Nat

/-- The map write of a call: `b.users[userID] = recv` for `RegisterUser`,
`delete(b.users, userID)` for `UnregisterUser`; `dispatch` writes nothing. -/
def writeUsers (users : List (String × ChanRef)) : Call → List (String × ChanRef)
  | Call.register userID recv => (userID, recv) :: users.filter (fun e => e.1 != userID)
  | Call.unregister userID => users.filter (fun e => e.1 != userID)
  | Call.dispatch _ => users

/-- The statements of `RegisterUser` and `UnregisterUser`, one at a time, run by
goroutine `t`: `Lock()`, which needs the mutex free; the map write; the deferred
`Unlock()`. -/
def writeStep (t : Nat) (sh : Shared) (g : Goroutine) (body : Broker → Broker) :
    Option (Shared × Goroutine) :=
  match g.pc with
  | Pc.start =>
    if sh.writer = none ∧ sh.readers = [] then
      some ({ sh with writer := some t }, { g with pc := Pc.locked })
    else none
  | Pc.locked =>
    some ({ sh with b := body sh.b, history := sh.history ++ [t] }, { g with pc := Pc.unlocking })
  | Pc.unlocking => some ({ sh with writer := none }, { g with pc := Pc.finished })
  | _ => none

/-- What a private message reads from a registry: the entry of its recipient. -/
def lookedUp (users : List (String × ChanRef)) (msg : Message) : List (String × ChanRef) :=
  match users.lookup msg.Recipient with
  | some ch => [(msg.Recipient, ch)]
  | none => []

/-- The statements of `dispatch`, one at a time, run by goroutine `t`: `RLock()`,
which needs the mutex not held by a writer; the branch on `msg.Broadcast`; for a
private message the lookup and the non-blocking send; for a broadcast one entry
of the map and its non-blocking send per step; the deferred `RUnlock()`. -/
def readStep (t : Nat) (sh : Shared) (g : Goroutine) (msg : Message) :
    Option (Shared × Goroutine) :=
  match g.pc with
  | Pc.start =>
    if sh.writer = none then
      some ({ sh with readers := t :: sh.readers },
        { g with pc := Pc.locked, snap := sh.b.users })
    else none
  | Pc.locked =>
    if msg.Broadcast then some (sh, { g with pc := Pc.ranging 0 })
    else
      some ({ sh with b := dispatch sh.b msg },
        { g with pc := Pc.unlocking, seen := lookedUp sh.b.users msg })
  | Pc.ranging i =>
    match sh.b.users.get? i with
    | some e =>
      some ({ sh with b := { sh.b with chans := trySend sh.b.chans e.2 msg } },
        { g with pc := Pc.ranging (i + 1), seen := g.seen ++ [e] })
    | none => some (sh, { g with pc := Pc.unlocking })
  | Pc.unlocking =>
    some ({ sh with readers := sh.readers.erase t }, { g with pc := Pc.finished })
  | Pc.finished => none

/-- The next statement of goroutine `t`; `none` when it is blocked or has returned. -/
def gstep (t : Nat) (sh : Shared) (g : Goroutine) : Option (Shared × Goroutine) :=
  match g.call with
  | Call.register userID recv => writeStep t sh g (fun b => RegisterUser b userID recv)
  | Call.unregister userID => writeStep t sh g (fun b => UnregisterUser b userID)
  | Call.dispatch msg => readStep t sh g msg

/-- The broker, its mutex and the goroutines that run calls on it. -/
structure Sys where
  sh : Shared
  gs : Nat → Option Goroutine

/-- The scheduler lets goroutine `t` run its next statement. -/
def sysStep (s : Sys) (t : Nat) : Option Sys :=
  match s.gs t with
  | none => none
  | some g =>
    match gstep t s.sh g with
    | none => none
    | some (sh1, g1) => some { sh := sh1, gs := Function.update s.gs t (some g1) }

/-- The interleaving that a schedule, the sequence of goroutines that run, gives. -/
def sysRun (s : Sys) : List Nat → Option Sys
  | [] => some s
  | t :: rest => (sysStep s t).bind (fun s1 => sysRun s1 rest)

/-- The calls `calls` are started on broker `b`, the mutex being free. -/
def sysInit (b : Broker) (calls : List Call) : Sys :=
  { sh := { b := b, writer := none, readers := [], history := [] },
    gs := fun t => (calls.get? t).map
      (fun c => { call := c, pc := Pc.start, snap := [], seen := [] }) }

/-- Whether a call is one of `RegisterUser` or `UnregisterUser`. -/
def Call.isWrite : Call → Bool
  | Call.dispatch _ => false
  | _ => true

/-- Whether a call at this point is between taking and releasing the mutex. -/
def Pc.holds : Pc → Bool
  | Pc.locked => true
  | Pc.ranging _ => true
  | Pc.unlocking => true
  | _ => false

/-- Whether a goroutine holds the mutex by `Lock`. -/
def inWrite (g : Goroutine) : Bool := g.call.isWrite && g.pc.holds

/-- Whether a goroutine holds the mutex by `RLock`: a dispatch is going on. -/
def inRead (g : Goroutine) : Bool := !g.call.isWrite && g.pc.holds

/-- Whether the map write of a goroutine has run. -/
def written (g : Goroutine) : Bool :=
  g.call.isWrite && (decide (g.pc = Pc.unlocking) || decide (g.pc = Pc.finished))

/-- Whether a goroutine ran `RegisterUser` or `UnregisterUser` and has returned. -/
def completedWrite (g : Goroutine) : Bool := g.call.isWrite && decide (g.pc = Pc.finished)

/-- The registry that the calls of the goroutines `order`, run one after the
other in that order, make of `users`. -/
def replay (users : List (String × ChanRef)) (calls : List Call) (order : List Nat) :
    List (String × ChanRef) :=
  order.foldl (fun u t => match calls.get? t with
    | some c => writeUsers u c
    | none => u) users

/-- What a dispatch of `msg` reads from the registry `users`: every entry for a
broadcast, the entry of the recipient for a private message. -/
def observed (users : List (String × ChanRef)) (msg : Message) : List (String × ChanRef) :=
  if msg.Broadcast then users else lookedUp users msg

/-- The entries a dispatching goroutine has read are those of the registry it
found when it took the read lock: none before the body, the first `i` in the
broadcast loop, and what the message reads once the body is done. -/
def seenOk (g : Goroutine) : Prop :=
  match g.call, g.pc with
  | Call.dispatch _, Pc.start => g.seen = []
  | Call.dispatch _, Pc.locked => g.seen = []
  | Call.dispatch msg, Pc.ranging i => msg.Broadcast = true ∧ g.seen = g.snap.take i
  | Call.dispatch msg, Pc.unlocking => g.seen = observed g.snap msg
  | Call.dispatch msg, Pc.finished => g.seen = observed g.snap msg
  | _, _ => True

/-- The invariant of the interleavings of the calls `calls` started on a broker
with registry `users0`. -/
structure MutexInv (users0 : List (String × ChanRef)) (calls : List Call) (s : Sys) : Prop where
  callsFixed : ∀ t, (s.gs t).map Goroutine.call = calls.get? t
  wr : ∀ t, s.sh.writer = some t ↔ ∃ g, s.gs t = some g ∧ inWrite g = true
  rd : ∀ t, t ∈ s.sh.readers ↔ ∃ g, s.gs t = some g ∧ inRead g = true
  excl : s.sh.writer ≠ none → s.sh.readers = []
  rdNodup : s.sh.readers.Nodup
  histNodup : s.sh.history.Nodup
  hist : ∀ t, t ∈ s.sh.history ↔ ∃ g, s.gs t = some g ∧ written g = true
  lin : s.sh.b.users = replay users0 calls s.sh.history
  snapOk : ∀ t g, s.gs t = some g → inRead g = true → g.snap = s.sh.b.users
  seen : ∀ t g, s.gs t = some g → seenOk g

/-- A broadcast, a registration of carol and an unregistration of bob, started
concurrently. -/
def raceCalls : List Call :=
  [Call.dispatch msgM, Call.register "carol" 2, Call.unregister "bob"]

/-- The registration runs to its end; then the dispatch takes the read lock,
branches and visits one entry. -/
def raceSched : List Nat := [1, 1, 1, 0, 0, 0]

/-- The sample broker with the calls `raceCalls` after the schedule `raceSched`:
the broadcast is in its loop and the unregistration has not started. -/
def raceSys : Sys :=
  (sysRun (sysInit scenarioBroker raceCalls) raceSched).getD (sysInit scenarioBroker raceCalls)

/-- The dispatching goroutine in `raceSys`: in the loop, one entry visited. -/
def raceReader : Goroutine :=
  { call := Call.dispatch msgM, pc := Pc.ranging 1,
    snap := [("carol", 2), ("bob", 1), ("alice", 0)], seen := [("carol", 2)] }

/-! ## Auxiliary lemmas -/

theorem scenarioBroker_reachable :
    exec (NewBroker false sampleHeap) [Action.register "alice" 0, Action.register "bob" 1]
      = some scenarioBroker := rfl

theorem sharedBroker_reachable :
    exec (NewBroker false sampleHeap) [Action.register "alice" 0, Action.register "bob" 0]
      = some sharedBroker := rfl

theorem queuedBroker_reachable :
    exec scenarioBroker [Action.run, Action.send privAlice 0] = some queuedBroker := rfl

theorem cancelledBroker_reachable :
    exec queuedBroker [Action.cancel] = some cancelledBroker := rfl

theorem cancelledIdle_reachable :
    exec scenarioBroker [Action.run, Action.cancel] = some cancelledIdle := rfl

theorem stoppedBroker_reachable :
    exec cancelledBroker [Action.iter 0] = some stoppedBroker := rfl

theorem trySend_apply (h : ChanRef → Chan) (c c' : ChanRef) (msg : Message) :
    trySend h c msg c' =
      if c' = c ∧ (h c).buf.length < (h c).cap then ⟨(h c).buf ++ [msg], (h c).cap⟩ else h c' := by
  unfold trySend
  by_cases hlt : (h c).buf.length < (h c).cap
  · by_cases hc : c' = c
    · subst hc; simp [hlt]
    · simp [hlt, hc, Function.update_noteq hc]
  · simp [hlt]

theorem trySend_same_of_lt (h : ChanRef → Chan) (c : ChanRef) (msg : Message)
    (hlt : (h c).buf.length < (h c).cap) :
    trySend h c msg c = ⟨(h c).buf ++ [msg], (h c).cap⟩ := by
  rw [trySend_apply]; simp [hlt]

theorem trySend_of_not_lt (h : ChanRef → Chan) (c : ChanRef) (msg : Message)
    (hfull : ¬ (h c).buf.length < (h c).cap) : trySend h c msg = h := by
  unfold trySend; simp [hfull]

theorem trySend_of_ne (h : ChanRef → Chan) (c c' : ChanRef) (msg : Message) (hne : c' ≠ c) :
    trySend h c msg c' = h c' := by
  rw [trySend_apply]; simp [hne]

theorem broadcast_cons (h : ChanRef → Chan) (e : String × ChanRef) (es : List (String × ChanRef))
    (msg : Message) : broadcast h (e :: es) msg = broadcast (trySend h e.2 msg) es msg := rfl

/-- The effect of a broadcast on a channel: as many copies as the registry has
entries for it, as far as its free capacity goes.  The result depends on the
entries only through their number, so not on the iteration order of the map. -/
theorem broadcast_apply (entries : List (String × ChanRef)) (msg : Message) :
    ∀ (h : ChanRef → Chan) (c : ChanRef),
      broadcast h entries msg c =
        ⟨(h c).buf ++ List.replicate (min (copies entries c) ((h c).cap - (h c).buf.length)) msg,
          (h c).cap⟩ := by
  induction entries with
  | nil => intro h c; simp [broadcast, copies]
  | cons e es ih =>
    intro h c
    rw [broadcast_cons, ih]
    by_cases hc : e.2 = c
    · by_cases hlt : (h c).buf.length < (h c).cap
      · have hk : min (copies (e :: es) c) ((h c).cap - (h c).buf.length)
            = min (copies es c) ((h c).cap - ((h c).buf.length + 1)) + 1 := by
          simp only [copies, List.countP_cons, hc, decide_True, if_true]
          omega
        rw [hc, trySend_same_of_lt h c msg hlt, hk]
        simp [List.replicate_succ, List.append_assoc]
      · have h0 : (h c).cap - (h c).buf.length = 0 := by omega
        rw [hc, trySend_of_not_lt h c msg hlt, h0]
        simp
    · have hc' : c ≠ e.2 := fun h' => hc h'.symm
      rw [trySend_of_ne h e.2 c msg hc']
      simp [copies, List.countP_cons, hc]

theorem broadcast_perm (es es' : List (String × ChanRef)) (hp : es.Perm es')
    (h : ChanRef → Chan) (msg : Message) : broadcast h es msg = broadcast h es' msg := by
  funext c
  rw [broadcast_apply, broadcast_apply]
  simp only [copies, hp.countP_eq]

theorem lookup_filter_self (es : List (String × ChanRef)) (id : String) :
    (es.filter (fun e => e.1 != id)).lookup id = none := by
  induction es with
  | nil => rfl
  | cons e es ih =>
    obtain ⟨k, v⟩ := e
    by_cases hk : k = id
    · simp [List.filter_cons, hk, ih]
    · have : (id == k) = false := by simpa using fun h => hk h.symm
      simp [List.filter_cons, hk, List.lookup_cons, this, ih]

theorem lookup_filter_ne (es : List (String × ChanRef)) (id id' : String) (hne : id' ≠ id) :
    (es.filter (fun e => e.1 != id)).lookup id' = es.lookup id' := by
  induction es with
  | nil => rfl
  | cons e es ih =>
    obtain ⟨k, v⟩ := e
    by_cases hk : k = id
    · subst hk
      have : (id' == k) = false := by simpa using hne
      simp [List.filter_cons, List.lookup_cons, this, ih]
    · by_cases hk' : id' = k
      · simp [List.filter_cons, hk, List.lookup_cons, hk']
      · have : (id' == k) = false := by simpa using hk'
        simp [List.filter_cons, hk, List.lookup_cons, this, ih]

theorem filter_eq_self_of_lookup_none (es : List (String × ChanRef)) (id : String)
    (h : es.lookup id = none) : es.filter (fun e => e.1 != id) = es := by
  induction es with
  | nil => rfl
  | cons e es ih =>
    obtain ⟨k, v⟩ := e
    by_cases hk : id = k
    · simp [List.lookup_cons, hk] at h
    · have hb : (id == k) = false := by simpa using hk
      simp only [List.lookup_cons, hb] at h
      have hk2 : k ≠ id := fun h' => hk h'.symm
      simp [List.filter_cons, hk2, ih h]

theorem mem_of_lookup_eq_some (es : List (String × ChanRef)) (id : String) (c : ChanRef)
    (h : es.lookup id = some c) : (id, c) ∈ es := by
  induction es with
  | nil => simp at h
  | cons e es ih =>
    obtain ⟨k, v⟩ := e
    by_cases hk : id = k
    · simp [List.lookup_cons, hk] at h
      simp [hk, h]
    · have hb : (id == k) = false := by simpa using hk
      simp only [List.lookup_cons, hb] at h
      exact List.mem_cons_of_mem _ (ih h)

theorem copies_pos_of_lookup (es : List (String × ChanRef)) (id : String) (c : ChanRef)
    (h : es.lookup id = some c) : 1 ≤ copies es c := by
  have hm := mem_of_lookup_eq_some es id c h
  unfold copies
  exact List.countP_pos_iff.mpr ⟨(id, c), hm, by simp⟩

theorem dispatch_private (b : Broker) (msg : Message) (hp : msg.Broadcast = false) :
    dispatch b msg =
      match lookupUser b msg.Recipient with
      | some ch => { b with chans := trySend b.chans ch msg }
      | none => b := by
  simp [dispatch, hp]

theorem dispatch_broadcast (b : Broker) (msg : Message) (hb : msg.Broadcast = true) :
    dispatch b msg = { b with chans := broadcast b.chans b.users msg } := by
  simp [dispatch, hb]

theorem selectReady_nil {α : Type} (pick : Nat) : selectReady ([] : List α) pick = none := by
  simp [selectReady]

theorem selectReady_singleton {α : Type} (a : α) (pick : Nat) :
    selectReady [a] pick = some a := by
  simp [selectReady, Nat.mod_one]

theorem selectReady_pair {α : Type} (a a' : α) (pick : Nat) :
    selectReady [a, a'] pick = some a ∨ selectReady [a, a'] pick = some a' := by
  have h : pick % 2 = 0 ∨ pick % 2 = 1 := by omega
  rcases h with h | h <;> simp [selectReady, h]

theorem SendMessage_open (b : Broker) (msg : Message) (pick : Nat)
    (hctx : b.ctxDone = false) (hroom : b.input.length < inputCap) :
    SendMessage b msg pick = some ({ b with input := b.input ++ [msg] }, none) := by
  simp [SendMessage, sendReady, hctx, hroom, selectReady_singleton]

theorem SendMessage_cancelled_full (b : Broker) (msg : Message) (pick : Nat)
    (hctx : b.ctxDone = true) (hfull : ¬ b.input.length < inputCap) :
    SendMessage b msg pick = some (b, some errBrokerClosed) := by
  simp [SendMessage, sendReady, hctx, hfull, selectReady_singleton]

theorem SendMessage_cancelled_room (b : Broker) (msg : Message) (pick : Nat)
    (hctx : b.ctxDone = true) (hroom : b.input.length < inputCap) :
    SendMessage b msg pick = some (b, some errBrokerClosed) ∨
    SendMessage b msg pick = some ({ b with input := b.input ++ [msg] }, none) := by
  have hr : sendReady b = [SendCase.ctxDone, SendCase.sendInput] := by
    simp [sendReady, hctx, hroom]
  unfold SendMessage
  rw [hr]
  rcases selectReady_pair SendCase.ctxDone SendCase.sendInput pick with h | h
  · left; rw [h]
  · right; rw [h]

theorem SendMessage_blocked (b : Broker) (msg : Message) (pick : Nat)
    (hctx : b.ctxDone = false) (hfull : ¬ b.input.length < inputCap) :
    SendMessage b msg pick = none := by
  simp [SendMessage, sendReady, hctx, hfull, selectReady_nil]

/-- Every completed `SendMessage` either failed and left the broker as it was, or
returned `nil` and appended the message at the tail of the queue. -/
theorem SendMessage_cases (b : Broker) (msg : Message) (pick : Nat) (r : Broker × Option String)
    (h : SendMessage b msg pick = some r) :
    (b.ctxDone = true ∧ r = (b, some errBrokerClosed)) ∨
    (b.input.length < inputCap ∧ r = ({ b with input := b.input ++ [msg] }, none)) := by
  by_cases hroom : b.input.length < inputCap
  · rcases Bool.eq_false_or_eq_true b.ctxDone with hctx | hctx
    · rcases SendMessage_cancelled_room b msg pick hctx hroom with h' | h'
      · rw [h'] at h; left; exact ⟨hctx, (Option.some.inj h).symm⟩
      · rw [h'] at h; right; exact ⟨hroom, (Option.some.inj h).symm⟩
    · rw [SendMessage_open b msg pick hctx hroom] at h
      right; exact ⟨hroom, (Option.some.inj h).symm⟩
  · rcases Bool.eq_false_or_eq_true b.ctxDone with hctx | hctx
    · rw [SendMessage_cancelled_full b msg pick hctx hroom] at h
      left; exact ⟨hctx, (Option.some.inj h).symm⟩
    · rw [SendMessage_blocked b msg pick hctx hroom] at h; cases h

theorem dispatch_users (b : Broker) (msg : Message) : (dispatch b msg).users = b.users := by
  unfold dispatch; split
  · rfl
  · split <;> rfl

theorem dispatch_input (b : Broker) (msg : Message) : (dispatch b msg).input = b.input := by
  unfold dispatch; split
  · rfl
  · split <;> rfl

theorem dispatch_phase (b : Broker) (msg : Message) : (dispatch b msg).phase = b.phase := by
  unfold dispatch; split
  · rfl
  · split <;> rfl

theorem dispatch_ctxDone (b : Broker) (msg : Message) : (dispatch b msg).ctxDone = b.ctxDone := by
  unfold dispatch; split
  · rfl
  · split <;> rfl

theorem dispatch_done (b : Broker) (msg : Message) : (dispatch b msg).done = b.done := by
  unfold dispatch; split
  · rfl
  · split <;> rfl

/-- A step of a stopped broker leaves it stopped, touches no channel and removes
nothing from the queue. -/
theorem step_stopped (b b1 : Broker) (a : Action) (hs : b.phase = Phase.Stopped)
    (h : step b a = some b1) :
    b1.phase = Phase.Stopped ∧ b1.chans = b.chans ∧ b.input <+: b1.input := by
  cases a with
  | cancel =>
    simp only [step, Option.some.injEq] at h
    subst h; exact ⟨hs, rfl, List.prefix_refl _⟩
  | run => simp [step, hs] at h
  | iter pick => simp [step, hs] at h
  | send msg pick =>
    simp only [step, Option.map_eq_some'] at h
    obtain ⟨r, hr, hb1⟩ := h
    rcases SendMessage_cases b msg pick r hr with ⟨_, hr'⟩ | ⟨_, hr'⟩
    · subst hr'; subst hb1; exact ⟨hs, rfl, List.prefix_refl _⟩
    · subst hr'; subst hb1; exact ⟨hs, rfl, List.prefix_append _ _⟩
  | register userID recv =>
    simp only [step, Option.some.injEq] at h
    subst h; exact ⟨hs, rfl, List.prefix_refl _⟩
  | unregister userID =>
    simp only [step, Option.some.injEq] at h
    subst h; exact ⟨hs, rfl, List.prefix_refl _⟩

theorem exec_stopped (acts : List Action) :
    ∀ (b b' : Broker), b.phase = Phase.Stopped → exec b acts = some b' →
      b'.phase = Phase.Stopped ∧ b'.chans = b.chans ∧ b.input <+: b'.input := by
  induction acts with
  | nil =>
    intro b b' hs h
    simp only [exec, Option.some.injEq] at h
    subst h; exact ⟨hs, rfl, List.prefix_refl _⟩
  | cons a rest ih =>
    intro b b' hs h
    simp only [exec, Option.bind_eq_some] at h
    obtain ⟨b1, h1, h2⟩ := h
    obtain ⟨p1, c1, i1⟩ := step_stopped b b1 a hs h1
    obtain ⟨p2, c2, i2⟩ := ih b1 b' p1 h2
    exact ⟨p2, c2.trans c1, i1.trans i2⟩

theorem runIter_cancelled_idle (b : Broker) (pick : Nat) (hctx : b.ctxDone = true)
    (hq : b.input = []) :
    runIter b pick = some { b with done := true, phase := Phase.Stopped } := by
  simp [runIter, runReady, hctx, hq, selectReady_singleton]

theorem runIter_cancelled_zero (b : Broker) (hctx : b.ctxDone = true) :
    runIter b 0 = some { b with done := true, phase := Phase.Stopped } := by
  cases hq : b.input with
  | nil => simp [runIter, runReady, hctx, hq, selectReady]
  | cons m rest => simp [runIter, runReady, hctx, hq, selectReady]

/-- Every completed loop iteration either stopped the loop, with the signal
fired, or received the head of the queue and dispatched it. -/
theorem runIter_cases (b b1 : Broker) (pick : Nat) (h : runIter b pick = some b1) :
    (b.ctxDone = true ∧ b1 = { b with done := true, phase := Phase.Stopped }) ∨
    (∃ msg rest, b.input = msg :: rest ∧ b1 = dispatch { b with input := rest } msg) := by
  unfold runIter at h
  split at h
  · cases h
  · next hsel =>
    left
    refine ⟨?_, (Option.some.inj h).symm⟩
    rcases Bool.eq_false_or_eq_true b.ctxDone with hctx | hctx
    · exact hctx
    · exfalso
      cases hq : b.input with
      | nil => simp [runReady, hctx, hq, selectReady_nil] at hsel
      | cons m rest => simp [runReady, hctx, hq, selectReady_singleton] at hsel
  · split at h
    · cases h
    · next msg rest hq => right; exact ⟨msg, rest, hq, (Option.some.inj h).symm⟩

theorem copies_eq_zero (es : List (String × ChanRef)) (c : ChanRef)
    (h : ∀ e ∈ es, e.2 ≠ c) : copies es c = 0 := by
  unfold copies
  rw [List.countP_eq_zero]
  intro e he
  simpa using h e he

/-- A dispatch does not touch a channel no registry entry refers to. -/
theorem dispatch_chans_unreferenced (b : Broker) (msg : Message) (c : ChanRef)
    (h : ∀ e ∈ b.users, e.2 ≠ c) : (dispatch b msg).chans c = b.chans c := by
  rcases Bool.eq_false_or_eq_true msg.Broadcast with hb | hb
  · rw [dispatch_broadcast b msg hb]
    show broadcast b.chans b.users msg c = b.chans c
    rw [broadcast_apply, copies_eq_zero b.users c h]
    simp
  · rw [dispatch_private b msg hb]
    cases hl : lookupUser b msg.Recipient with
    | none => rfl
    | some ch =>
      have hm := mem_of_lookup_eq_some b.users msg.Recipient ch hl
      have hne : c ≠ ch := fun hc => h _ hm hc.symm
      exact trySend_of_ne _ _ _ _ hne

/-- A private message to an identity that is not registered changes nothing. -/
theorem dispatch_private_absent (b : Broker) (msg : Message) (hp : msg.Broadcast = false)
    (hl : lookupUser b msg.Recipient = none) : dispatch b msg = b := by
  rw [dispatch_private b msg hp, hl]

theorem lookupUser_unregister_self (b : Broker) (id : String) :
    lookupUser (UnregisterUser b id) id = none :=
  lookup_filter_self b.users id

theorem lookupUser_unregister_ne (b : Broker) (id id' : String) (hne : id' ≠ id) :
    lookupUser (UnregisterUser b id) id' = lookupUser b id' :=
  lookup_filter_ne b.users id id' hne

/-- A step other than `RegisterUser` registers nothing: an identity without entry
stays without entry, a channel without reference stays without reference and
keeps its content. -/
theorem step_no_register (b b1 : Broker) (a : Action) (id : String) (c : ChanRef)
    (ha : a.isRegister = false) (h : step b a = some b1) :
    (lookupUser b id = none → lookupUser b1 id = none) ∧
    ((∀ e ∈ b.users, e.2 ≠ c) → (∀ e ∈ b1.users, e.2 ≠ c) ∧ b1.chans c = b.chans c) := by
  cases a with
  | cancel =>
    simp only [step, Option.some.injEq] at h
    subst h; exact ⟨fun hl => hl, fun hu => ⟨hu, rfl⟩⟩
  | run =>
    simp only [step] at h
    split at h
    · simp only [Option.some.injEq] at h
      subst h; exact ⟨fun hl => hl, fun hu => ⟨hu, rfl⟩⟩
    · cases h
  | iter pick =>
    simp only [step] at h
    split at h
    · rcases runIter_cases b b1 pick h with ⟨_, hb1⟩ | ⟨msg, rest, _, hb1⟩
      · subst hb1; exact ⟨fun hl => hl, fun hu => ⟨hu, rfl⟩⟩
      · subst hb1
        refine ⟨fun hl => ?_, fun hu => ⟨?_, ?_⟩⟩
        · unfold lookupUser; rw [dispatch_users]; exact hl
        · rw [dispatch_users]; exact hu
        · exact dispatch_chans_unreferenced { b with input := rest } msg c hu
    · cases h
  | send msg pick =>
    simp only [step, Option.map_eq_some'] at h
    obtain ⟨r, hr, hb1⟩ := h
    rcases SendMessage_cases b msg pick r hr with ⟨_, hr'⟩ | ⟨_, hr'⟩
    · subst hr'; subst hb1; exact ⟨fun hl => hl, fun hu => ⟨hu, rfl⟩⟩
    · subst hr'; subst hb1; exact ⟨fun hl => hl, fun hu => ⟨hu, rfl⟩⟩
  | register userID recv => simp [Action.isRegister] at ha
  | unregister userID =>
    simp only [step, Option.some.injEq] at h
    subst h
    refine ⟨fun hl => ?_, fun hu => ⟨?_, rfl⟩⟩
    · by_cases hid : id = userID
      · rw [hid]; exact lookupUser_unregister_self b userID
      · rw [lookupUser_unregister_ne b userID id hid]; exact hl
    · intro e he
      exact hu e (List.mem_of_mem_filter he)

theorem exec_no_register (acts : List Action) (id : String) (c : ChanRef) :
    ∀ (b b' : Broker), (∀ a ∈ acts, a.isRegister = false) → exec b acts = some b' →
      (lookupUser b id = none → lookupUser b' id = none) ∧
      ((∀ e ∈ b.users, e.2 ≠ c) → (∀ e ∈ b'.users, e.2 ≠ c) ∧ b'.chans c = b.chans c) := by
  induction acts with
  | nil =>
    intro b b' _ h
    simp only [exec, Option.some.injEq] at h
    subst h; exact ⟨fun hl => hl, fun hu => ⟨hu, rfl⟩⟩
  | cons a rest ih =>
    intro b b' hno h
    simp only [exec, Option.bind_eq_some] at h
    obtain ⟨b1, h1, h2⟩ := h
    have hs := step_no_register b b1 a id c (hno a (List.mem_cons_self _ _)) h1
    have hr := ih b1 b' (fun a' ha' => hno a' (List.mem_cons_of_mem _ ha')) h2
    refine ⟨fun hl => hr.1 (hs.1 hl), fun hu => ?_⟩
    obtain ⟨hu1, hc1⟩ := hs.2 hu
    obtain ⟨hu2, hc2⟩ := hr.2 hu1
    exact ⟨hu2, hc2.trans hc1⟩

theorem filter_ne_filter_eq (es : List (String × ChanRef)) (id : String) :
    (es.filter (fun e => e.1 != id)).filter (fun e => e.1 == id) = [] := by
  rw [List.filter_filter, List.filter_eq_nil_iff]
  intro e _
  by_cases h : e.1 = id <;> simp [h]

theorem filter_ne_idem (es : List (String × ChanRef)) (id : String) :
    (es.filter (fun e => e.1 != id)).filter (fun e => e.1 != id) = es.filter (fun e => e.1 != id) := by
  rw [List.filter_filter]
  congr 1
  funext e
  simp

theorem RegisterUser_entries (b : Broker) (id : String) (c : ChanRef) :
    (RegisterUser b id c).users.filter (fun e => e.1 == id) = [(id, c)] := by
  simp [RegisterUser, List.filter_cons, filter_ne_filter_eq]

theorem lookupUser_register_self (b : Broker) (id : String) (c : ChanRef) :
    lookupUser (RegisterUser b id c) id = some c := by
  simp [lookupUser, RegisterUser, List.lookup_cons]

theorem lookupUser_register_ne (b : Broker) (id id' : String) (c : ChanRef) (hne : id' ≠ id) :
    lookupUser (RegisterUser b id c) id' = lookupUser b id' := by
  have hb : (id' == id) = false := by simpa using hne
  simp only [lookupUser, RegisterUser, List.lookup_cons, hb]
  exact lookup_filter_ne b.users id id' hne

theorem RegisterUser_twice (b : Broker) (id : String) (c1 c2 : ChanRef) :
    RegisterUser (RegisterUser b id c1) id c2 = RegisterUser b id c2 := by
  simp [RegisterUser, List.filter_cons, filter_ne_idem]

theorem runIter_open (b : Broker) (msg : Message) (rest : List Message) (pick : Nat)
    (hctx : b.ctxDone = false) (hq : b.input = msg :: rest) :
    runIter b pick = some (dispatch { b with input := rest } msg) := by
  simp [runIter, runReady, hctx, hq, selectReady_singleton]

theorem dispatch_private_full (b : Broker) (msg : Message) (ch : ChanRef)
    (hp : msg.Broadcast = false) (hreg : lookupUser b msg.Recipient = some ch)
    (hfull : ¬ (b.chans ch).buf.length < (b.chans ch).cap) : dispatch b msg = b := by
  rw [dispatch_private b msg hp, hreg]
  show { b with chans := trySend b.chans ch msg } = b
  rw [trySend_of_not_lt b.chans ch msg hfull]

/-- A dispatch appends to every channel some number of copies of the message and
nothing else. -/
theorem dispatch_chans_replicate (b : Broker) (msg : Message) (c : ChanRef) :
    ∃ k : Nat, (dispatch b msg).chans c = ⟨(b.chans c).buf ++ List.replicate k msg, (b.chans c).cap⟩ := by
  rcases Bool.eq_false_or_eq_true msg.Broadcast with hb | hb
  · rw [dispatch_broadcast b msg hb]
    exact ⟨_, broadcast_apply b.users msg b.chans c⟩
  · rw [dispatch_private b msg hb]
    cases hl : lookupUser b msg.Recipient with
    | none => exact ⟨0, by simp⟩
    | some ch =>
      show ∃ k : Nat, trySend b.chans ch msg c = _
      rw [trySend_apply]
      by_cases hc : c = ch ∧ (b.chans ch).buf.length < (b.chans ch).cap
      · refine ⟨1, ?_⟩
        rw [if_pos hc, hc.1]
        simp
      · exact ⟨0, by rw [if_neg hc]; simp⟩

theorem step_fifo (b b1 : Broker) (a : Action) (h : step b a = some b1) :
    b.input ++ acceptedBy b a = dispatchedBy b a ++ b1.input ∧
    ∀ c : ChanRef, ∃ ks : List Nat, ks.length = (dispatchedBy b a).length ∧
      (b1.chans c).buf
        = (b.chans c).buf ++ (List.zipWith List.replicate ks (dispatchedBy b a)).flatten := by
  cases a with
  | cancel =>
    simp only [step, Option.some.injEq] at h
    subst h
    exact ⟨by simp [acceptedBy, dispatchedBy], fun c => ⟨[], by simp [dispatchedBy]⟩⟩
  | run =>
    simp only [step] at h
    split at h
    · simp only [Option.some.injEq] at h
      subst h
      exact ⟨by simp [acceptedBy, dispatchedBy], fun c => ⟨[], by simp [dispatchedBy]⟩⟩
    · cases h
  | iter pick =>
    simp only [step] at h
    split at h
    · next hrun =>
      unfold runIter at h
      split at h
      · cases h
      · next hsel =>
        simp only [Option.some.injEq] at h
        subst h
        have hd : dispatchedBy b (Action.iter pick) = [] := by
          simp [dispatchedBy, hrun, hsel]
        rw [hd]
        exact ⟨by simp [acceptedBy], fun c => ⟨[], by simp⟩⟩
      · next hsel =>
        split at h
        · cases h
        · next msg rest hq =>
          simp only [Option.some.injEq] at h
          subst h
          have hd : dispatchedBy b (Action.iter pick) = [msg] := by
            simp [dispatchedBy, hrun, hsel, hq]
          rw [hd]
          refine ⟨by simp [acceptedBy, dispatch_input, hq], fun c => ?_⟩
          obtain ⟨k, hk⟩ := dispatch_chans_replicate { b with input := rest } msg c
          exact ⟨[k], rfl, by rw [hk]; simp⟩
    · cases h
  | send msg pick =>
    simp only [step, Option.map_eq_some'] at h
    obtain ⟨r, hr, hb1⟩ := h
    rcases SendMessage_cases b msg pick r hr with ⟨_, hr'⟩ | ⟨_, hr'⟩
    · subst hr'; subst hb1
      exact ⟨by simp [acceptedBy, dispatchedBy, hr], fun c => ⟨[], by simp [dispatchedBy]⟩⟩
    · subst hr'; subst hb1
      exact ⟨by simp [acceptedBy, dispatchedBy, hr], fun c => ⟨[], by simp [dispatchedBy]⟩⟩
  | register userID recv =>
    simp only [step, Option.some.injEq] at h
    subst h
    exact ⟨by simp [acceptedBy, dispatchedBy, RegisterUser],
      fun c => ⟨[], by simp [dispatchedBy, RegisterUser]⟩⟩
  | unregister userID =>
    simp only [step, Option.some.injEq] at h
    subst h
    exact ⟨by simp [acceptedBy, dispatchedBy, UnregisterUser],
      fun c => ⟨[], by simp [dispatchedBy, UnregisterUser]⟩⟩

theorem exec_fifo (acts : List Action) :
    ∀ (b b' : Broker), exec b acts = some b' →
      b.input ++ accepted b acts = dispatched b acts ++ b'.input ∧
      ∀ c : ChanRef, ∃ ks : List Nat, ks.length = (dispatched b acts).length ∧
        (b'.chans c).buf
          = (b.chans c).buf ++ (List.zipWith List.replicate ks (dispatched b acts)).flatten := by
  induction acts with
  | nil =>
    intro b b' h
    simp only [exec, Option.some.injEq] at h
    subst h
    exact ⟨by simp [accepted, dispatched], fun c => ⟨[], by simp [dispatched]⟩⟩
  | cons a rest ih =>
    intro b b' h
    simp only [exec, Option.bind_eq_some] at h
    obtain ⟨b1, h1, h2⟩ := h
    obtain ⟨q1, c1⟩ := step_fifo b b1 a h1
    obtain ⟨q2, c2⟩ := ih b1 b' h2
    have ha : accepted b (a :: rest) = acceptedBy b a ++ accepted b1 rest := by
      simp [accepted, h1]
    have hd : dispatched b (a :: rest) = dispatchedBy b a ++ dispatched b1 rest := by
      simp [dispatched, h1]
    rw [ha, hd]
    refine ⟨?_, fun c => ?_⟩
    · rw [← List.append_assoc, q1, List.append_assoc, q2, List.append_assoc]
    · obtain ⟨ks1, l1, e1⟩ := c1 c
      obtain ⟨ks2, l2, e2⟩ := c2 c
      refine ⟨ks1 ++ ks2, by simp [l1, l2], ?_⟩
      rw [List.zipWith_append _ _ _ _ _ l1, List.flatten_append, e2, e1, List.append_assoc]

theorem busyBroker_reachable :
    exec scenarioBroker [Action.run, Action.send fillerMsg 0, Action.send privAlice 0]
      = some busyBroker := rfl

theorem keys_filter_nodup (es : List (String × ChanRef)) (p : String × ChanRef → Bool)
    (h : (es.map Prod.fst).Nodup) : ((es.filter p).map Prod.fst).Nodup :=
  h.sublist ((List.filter_sublist es).map Prod.fst)

theorem key_not_mem_filter (es : List (String × ChanRef)) (id : String) :
    id ∉ (es.filter (fun e => e.1 != id)).map Prod.fst := by
  intro hm
  obtain ⟨e, he, hk⟩ := List.mem_map.mp hm
  have hf := (List.mem_filter.mp he).2
  simp [hk] at hf

/-- The registry of a broker is a map: no step introduces a second entry for an
identity. -/
theorem step_keys_nodup (b b1 : Broker) (a : Action) (h : step b a = some b1)
    (hn : (b.users.map Prod.fst).Nodup) : (b1.users.map Prod.fst).Nodup := by
  cases a with
  | cancel =>
    simp only [step, Option.some.injEq] at h
    subst h; exact hn
  | run =>
    simp only [step] at h
    split at h
    · simp only [Option.some.injEq] at h
      subst h; exact hn
    · cases h
  | iter pick =>
    simp only [step] at h
    split at h
    · rcases runIter_cases b b1 pick h with ⟨_, hb1⟩ | ⟨msg, rest, _, hb1⟩
      · subst hb1; exact hn
      · subst hb1; rw [dispatch_users]; exact hn
    · cases h
  | send msg pick =>
    simp only [step, Option.map_eq_some'] at h
    obtain ⟨r, hr, hb1⟩ := h
    rcases SendMessage_cases b msg pick r hr with ⟨_, hr'⟩ | ⟨_, hr'⟩
    · subst hr'; subst hb1; exact hn
    · subst hr'; subst hb1; exact hn
  | register userID recv =>
    simp only [step, Option.some.injEq] at h
    subst h
    show (((userID, recv) :: b.users.filter (fun e => e.1 != userID)).map Prod.fst).Nodup
    rw [List.map_cons, List.nodup_cons]
    exact ⟨key_not_mem_filter b.users userID, keys_filter_nodup b.users _ hn⟩
  | unregister userID =>
    simp only [step, Option.some.injEq] at h
    subst h
    exact keys_filter_nodup b.users _ hn

theorem exec_keys_nodup (acts : List Action) :
    ∀ (b b' : Broker), exec b acts = some b' → (b.users.map Prod.fst).Nodup →
      (b'.users.map Prod.fst).Nodup := by
  induction acts with
  | nil =>
    intro b b' h hn
    simp only [exec, Option.some.injEq] at h
    subst h; exact hn
  | cons a rest ih =>
    intro b b' h hn
    simp only [exec, Option.bind_eq_some] at h
    obtain ⟨b1, h1, h2⟩ := h
    exact ih b1 b' h2 (step_keys_nodup b b1 a h1 hn)

/-- Every broker reached from `NewBroker` has at most one entry per identity. -/
theorem reachable_keys_nodup (ctxDone : Bool) (chans : ChanRef → Chan) (acts : List Action)
    (b' : Broker) (h : exec (NewBroker ctxDone chans) acts = some b') :
    (b'.users.map Prod.fst).Nodup :=
  exec_keys_nodup acts _ b' h (by simp [NewBroker])

theorem step_stopped_dispatched (b : Broker) (a : Action) (hs : b.phase = Phase.Stopped) :
    dispatchedBy b a = [] := by
  cases a <;> simp [dispatchedBy, hs]

theorem exec_stopped_dispatched (acts : List Action) :
    ∀ (b : Broker), b.phase = Phase.Stopped → dispatched b acts = [] := by
  induction acts with
  | nil => intro b _; rfl
  | cons a rest ih =>
    intro b hs
    cases h1 : step b a with
    | none => simp [dispatched, h1]
    | some b1 =>
      have hp := (step_stopped b b1 a hs h1).1
      simp [dispatched, h1, step_stopped_dispatched b a hs, ih b1 hp]

set_option maxRecDepth 100000 in
theorem fullBroker_reachable :
    exec scenarioBroker (List.replicate 100 (Action.send privAlice 0)) = some fullBroker := rfl

set_option maxRecDepth 100000 in
theorem fullBroker_reachable_new :
    exec (NewBroker false sampleHeap)
      ([Action.register "alice" 0, Action.register "bob" 1] ++
        List.replicate 100 (Action.send privAlice 0)) = some fullBroker := rfl

/-- No step makes the queue longer than its capacity. -/
theorem step_input_bounded (b b1 : Broker) (a : Action) (h : step b a = some b1)
    (hb : b.input.length ≤ inputCap) : b1.input.length ≤ inputCap := by
  cases a with
  | cancel =>
    simp only [step, Option.some.injEq] at h
    subst h; exact hb
  | run =>
    simp only [step] at h
    split at h
    · simp only [Option.some.injEq] at h
      subst h; exact hb
    · cases h
  | iter pick =>
    simp only [step] at h
    split at h
    · rcases runIter_cases b b1 pick h with ⟨_, hb1⟩ | ⟨msg, rest, hq, hb1⟩
      · subst hb1; exact hb
      · subst hb1
        rw [dispatch_input]
        rw [hq] at hb
        simp only [List.length_cons] at hb
        show rest.length ≤ inputCap
        omega
    · cases h
  | send msg pick =>
    simp only [step, Option.map_eq_some'] at h
    obtain ⟨r, hr, hb1⟩ := h
    rcases SendMessage_cases b msg pick r hr with ⟨_, hr'⟩ | ⟨hroom, hr'⟩
    · subst hr'; subst hb1; exact hb
    · subst hr'; subst hb1
      show (b.input ++ [msg]).length ≤ inputCap
      simp only [List.length_append, List.length_singleton]
      omega
  | register userID recv =>
    simp only [step, Option.some.injEq] at h
    subst h; exact hb
  | unregister userID =>
    simp only [step, Option.some.injEq] at h
    subst h; exact hb

theorem exec_input_bounded (acts : List Action) :
    ∀ (b b' : Broker), exec b acts = some b' → b.input.length ≤ inputCap →
      b'.input.length ≤ inputCap := by
  induction acts with
  | nil =>
    intro b b' h hb
    simp only [exec, Option.some.injEq] at h
    subst h; exact hb
  | cons a rest ih =>
    intro b b' h hb
    simp only [exec, Option.bind_eq_some] at h
    obtain ⟨b1, h1, h2⟩ := h
    exact ih b1 b' h2 (step_input_bounded b b1 a h1 hb)

theorem roomyShared_reachable :
    exec (NewBroker false (fun _ => { buf := [], cap := 2 }))
      [Action.register "alice" 0, Action.register "bob" 0] = some roomyShared := rfl

/-- What a dispatch does to a channel: it appends some number of copies of the
message, no more than the registry has entries for the channel, no more than
the channel has room for, and no more than one for a private message. -/
theorem dispatch_chans_copies (b : Broker) (msg : Message) (c : ChanRef) :
    ∃ k : Nat, k ≤ copies b.users c ∧ k ≤ (b.chans c).cap - (b.chans c).buf.length ∧
      (msg.Broadcast = false → k ≤ 1) ∧
      (dispatch b msg).chans c = ⟨(b.chans c).buf ++ List.replicate k msg, (b.chans c).cap⟩ := by
  rcases Bool.eq_false_or_eq_true msg.Broadcast with hb | hb
  · rw [dispatch_broadcast b msg hb]
    exact ⟨_, Nat.min_le_left _ _, Nat.min_le_right _ _, fun h => (by rw [hb] at h; cases h),
      broadcast_apply b.users msg b.chans c⟩
  · rw [dispatch_private b msg hb]
    cases hl : lookupUser b msg.Recipient with
    | none => exact ⟨0, Nat.zero_le _, Nat.zero_le _, fun _ => Nat.zero_le _, by simp⟩
    | some ch =>
      show ∃ k : Nat, _ ∧ _ ∧ _ ∧ trySend b.chans ch msg c = _
      rw [trySend_apply]
      by_cases hc : c = ch ∧ (b.chans ch).buf.length < (b.chans ch).cap
      · refine ⟨1, ?_, ?_, fun _ => Nat.le_refl 1, ?_⟩
        · rw [hc.1]; exact copies_pos_of_lookup b.users msg.Recipient ch hl
        · rw [hc.1]; have := hc.2; omega
        · rw [if_pos hc, hc.1]; simp
      · exact ⟨0, Nat.zero_le _, Nat.zero_le _, fun _ => Nat.zero_le _,
          by rw [if_neg hc]; simp⟩

theorem selectReady_run_ctxDone (b : Broker) (pick : Nat)
    (h : selectReady (runReady b) pick = some RunCase.ctxDone) : b.ctxDone = true := by
  rcases Bool.eq_false_or_eq_true b.ctxDone with hctx | hctx
  · exact hctx
  · exfalso
    cases hq : b.input with
    | nil => simp [runReady, hctx, hq, selectReady_nil] at h
    | cons m rest => simp [runReady, hctx, hq, selectReady_singleton] at h

theorem runIter_blocked (b : Broker) (pick : Nat) (hctx : b.ctxDone = false)
    (hq : b.input = []) : runIter b pick = none := by
  simp [runIter, runReady, hctx, hq, selectReady_nil]

theorem runningIdle_reachable : exec scenarioBroker [Action.run] = some runningIdle := rfl

theorem iff_update (gs : Nat → Option Goroutine) (t : Nat) (g1 : Goroutine) (P : Goroutine → Bool)
    (S S' : Nat → Prop)
    (hold : ∀ t', S t' ↔ ∃ g, gs t' = some g ∧ P g = true)
    (hne : ∀ t', t' ≠ t → (S' t' ↔ S t')) (ht : S' t ↔ P g1 = true) :
    ∀ t', S' t' ↔ ∃ g, Function.update gs t (some g1) t' = some g ∧ P g = true := by
  intro t'
  by_cases h : t' = t
  · subst h
    simp [ht]
  · rw [hne t' h, hold t', Function.update_noteq h]

theorem forall_update (gs : Nat → Option Goroutine) (t : Nat) (g1 : Goroutine)
    (Q : Goroutine → Prop) (hold : ∀ t' g', t' ≠ t → gs t' = some g' → Q g') (hnew : Q g1) :
    ∀ t' g', Function.update gs t (some g1) t' = some g' → Q g' := by
  intro t' g' h
  by_cases ht : t' = t
  · subst ht
    rw [Function.update_same] at h
    cases h
    exact hnew
  · rw [Function.update_noteq ht] at h
    exact hold t' g' ht h

theorem calls_update (gs : Nat → Option Goroutine) (calls : List Call) (t : Nat)
    (g g1 : Goroutine) (hold : ∀ t', (gs t').map Goroutine.call = calls.get? t')
    (hg : gs t = some g) (hc : g1.call = g.call) :
    ∀ t', (Function.update gs t (some g1) t').map Goroutine.call = calls.get? t' := by
  intro t'
  by_cases ht : t' = t
  · subst ht
    rw [Function.update_same, ← hold t', hg]
    simp [hc]
  · rw [Function.update_noteq ht]
    exact hold t'

theorem sysInit_gs (b : Broker) (calls : List Call) (t : Nat) (g : Goroutine)
    (h : (sysInit b calls).gs t = some g) :
    ∃ c, g = { call := c, pc := Pc.start, snap := [], seen := [] } := by
  simp only [sysInit, Option.map_eq_some'] at h
  obtain ⟨c, _, hc⟩ := h
  exact ⟨c, hc.symm⟩

/-- The invariant holds when the calls are started. -/
theorem sysInit_inv (b : Broker) (calls : List Call) :
    MutexInv b.users calls (sysInit b calls) where
  callsFixed := by
    intro t
    simp only [sysInit, Option.map_map]
    cases calls.get? t <;> rfl
  wr := by
    intro t
    constructor
    · intro h; cases h
    · rintro ⟨g, hg, hw⟩
      obtain ⟨c, rfl⟩ := sysInit_gs b calls t g hg
      simp [inWrite, Pc.holds] at hw
  rd := by
    intro t
    constructor
    · intro h; cases h
    · rintro ⟨g, hg, hw⟩
      obtain ⟨c, rfl⟩ := sysInit_gs b calls t g hg
      simp [inRead, Pc.holds] at hw
  excl := by intro h; rfl
  rdNodup := List.nodup_nil
  histNodup := List.nodup_nil
  hist := by
    intro t
    constructor
    · intro h; cases h
    · rintro ⟨g, hg, hw⟩
      obtain ⟨c, rfl⟩ := sysInit_gs b calls t g hg
      simp [written] at hw
  lin := rfl
  snapOk := by
    intro t g hg hr
    obtain ⟨c, rfl⟩ := sysInit_gs b calls t g hg
    simp [inRead, Pc.holds] at hr
  seen := by
    intro t g hg
    obtain ⟨c, rfl⟩ := sysInit_gs b calls t g hg
    cases c <;> simp [seenOk]

/-- While a goroutine holds the mutex by `Lock`, none holds it by `RLock`. -/
theorem no_reader_of_writer (users0 : List (String × ChanRef)) (calls : List Call) (s : Sys)
    (hinv : MutexInv users0 calls s) (t : Nat) (g : Goroutine) (hg : s.gs t = some g)
    (hw : inWrite g = true) :
    s.sh.writer = some t ∧ s.sh.readers = [] ∧
      ∀ t' g', s.gs t' = some g' → inRead g' = false := by
  have hwr : s.sh.writer = some t := (hinv.wr t).mpr ⟨g, hg, hw⟩
  have hr : s.sh.readers = [] := hinv.excl (by rw [hwr]; simp)
  refine ⟨hwr, hr, ?_⟩
  intro t' g' hg'
  rcases Bool.eq_false_or_eq_true (inRead g') with h | h
  · have := (hinv.rd t').mpr ⟨g', hg', h⟩
    rw [hr] at this
    cases this
  · exact h

theorem replay_append (users : List (String × ChanRef)) (calls : List Call)
    (order : List Nat) (t : Nat) (c : Call) (hc : calls.get? t = some c) :
    replay users calls (order ++ [t]) = writeUsers (replay users calls order) c := by
  rw [List.get?_eq_getElem?] at hc
  simp [replay, List.foldl_append, hc]

theorem not_mem_history (users0 : List (String × ChanRef)) (calls : List Call) (s : Sys)
    (hinv : MutexInv users0 calls s) (t : Nat) (g : Goroutine) (hg : s.gs t = some g)
    (hw : written g = false) : t ∉ s.sh.history := by
  intro hm
  obtain ⟨g', hg', hw'⟩ := (hinv.hist t).mp hm
  rw [hg] at hg'
  cases hg'
  rw [hw] at hw'
  cases hw'

theorem not_mem_readers (users0 : List (String × ChanRef)) (calls : List Call) (s : Sys)
    (hinv : MutexInv users0 calls s) (t : Nat) (g : Goroutine) (hg : s.gs t = some g)
    (hr : inRead g = false) : t ∉ s.sh.readers := by
  intro hm
  obtain ⟨g', hg', hr'⟩ := (hinv.rd t).mp hm
  rw [hg] at hg'
  cases hg'
  rw [hr] at hr'
  cases hr'

theorem seenOk_write (g : Goroutine) (hw : g.call.isWrite = true) : seenOk g := by
  obtain ⟨call, pc, snap, seen⟩ := g
  cases call <;> simp [Call.isWrite] at hw <;> simp [seenOk]

/-- `Lock()` by a writer keeps the invariant. -/
theorem inv_wlock (users0 : List (String × ChanRef)) (calls : List Call) (s : Sys)
    (hinv : MutexInv users0 calls s) (t : Nat) (g : Goroutine) (hg : s.gs t = some g)
    (hw : g.call.isWrite = true) (hpc : g.pc = Pc.start)
    (hfree : s.sh.writer = none) (hnr : s.sh.readers = []) :
    MutexInv users0 calls
      { sh := { s.sh with writer := some t },
        gs := Function.update s.gs t (some { g with pc := Pc.locked }) } where
  callsFixed := calls_update s.gs calls t g _ hinv.callsFixed hg rfl
  wr := by
    apply iff_update s.gs t _ inWrite (fun t' => s.sh.writer = some t') _ hinv.wr
    · intro t' hne
      simp only [hfree]
      constructor
      · intro h; exact absurd (Option.some.inj h).symm hne
      · intro h; cases h
    · simp [inWrite, hw, Pc.holds]
  rd := by
    apply iff_update s.gs t _ inRead (fun t' => t' ∈ s.sh.readers) _ hinv.rd
    · intro t' _; exact Iff.rfl
    · simp [inRead, hw, hnr]
  excl := fun _ => hnr
  rdNodup := hinv.rdNodup
  histNodup := hinv.histNodup
  hist := by
    apply iff_update s.gs t _ written (fun t' => t' ∈ s.sh.history) _ hinv.hist
    · intro t' _; exact Iff.rfl
    · have := not_mem_history users0 calls s hinv t g hg (by simp [written, hpc])
      simp [written, this]
  lin := hinv.lin
  snapOk := by
    apply forall_update s.gs t _ (fun g' => inRead g' = true → g'.snap = s.sh.b.users)
    · intro t' g' _ hg'; exact hinv.snapOk t' g' hg'
    · simp [inRead, hw]
  seen := by
    apply forall_update s.gs t _ seenOk
    · intro t' g' _ hg'; exact hinv.seen t' g' hg'
    · exact seenOk_write _ hw

/-- The map write of a writer keeps the invariant. -/
theorem inv_wbody (users0 : List (String × ChanRef)) (calls : List Call) (s : Sys)
    (hinv : MutexInv users0 calls s) (t : Nat) (g : Goroutine) (hg : s.gs t = some g)
    (hw : g.call.isWrite = true) (hpc : g.pc = Pc.locked) (b1 : Broker)
    (hb1 : b1.users = writeUsers s.sh.b.users g.call) :
    MutexInv users0 calls
      { sh := { s.sh with b := b1, history := s.sh.history ++ [t] },
        gs := Function.update s.gs t (some { g with pc := Pc.unlocking }) } where
  callsFixed := calls_update s.gs calls t g _ hinv.callsFixed hg rfl
  wr := by
    apply iff_update s.gs t _ inWrite (fun t' => s.sh.writer = some t') _ hinv.wr
    · intro t' _; exact Iff.rfl
    · have := (no_reader_of_writer users0 calls s hinv t g hg (by simp [inWrite, hw, hpc, Pc.holds])).1
      simp [inWrite, hw, Pc.holds, this]
  rd := by
    apply iff_update s.gs t _ inRead (fun t' => t' ∈ s.sh.readers) _ hinv.rd
    · intro t' _; exact Iff.rfl
    · have := (no_reader_of_writer users0 calls s hinv t g hg (by simp [inWrite, hw, hpc, Pc.holds])).2.1
      simp [inRead, hw, this]
  excl := hinv.excl
  rdNodup := hinv.rdNodup
  histNodup := by
    have := not_mem_history users0 calls s hinv t g hg (by simp [written, hpc])
    exact List.Nodup.append hinv.histNodup (List.nodup_singleton t) (by simpa using this)
  hist := by
    apply iff_update s.gs t _ written (fun t' => t' ∈ s.sh.history) _ hinv.hist
    · intro t' hne; simp [hne]
    · simp [written, hw]
  lin := by
    have hc : calls.get? t = some g.call := by
      rw [← hinv.callsFixed t, hg]; rfl
    show b1.users = replay users0 calls (s.sh.history ++ [t])
    rw [replay_append users0 calls s.sh.history t g.call hc, hb1, hinv.lin]
  snapOk := by
    have hnr := (no_reader_of_writer users0 calls s hinv t g hg
      (by simp [inWrite, hw, hpc, Pc.holds])).2.2
    apply forall_update s.gs t _ (fun g' => inRead g' = true → g'.snap = b1.users)
    · intro t' g' _ hg' hr
      rw [hnr t' g' hg'] at hr
      cases hr
    · simp [inRead, hw]
  seen := by
    apply forall_update s.gs t _ seenOk
    · intro t' g' _ hg'; exact hinv.seen t' g' hg'
    · exact seenOk_write _ hw

/-- `Unlock()` by a writer keeps the invariant. -/
theorem inv_wunlock (users0 : List (String × ChanRef)) (calls : List Call) (s : Sys)
    (hinv : MutexInv users0 calls s) (t : Nat) (g : Goroutine) (hg : s.gs t = some g)
    (hw : g.call.isWrite = true) (hpc : g.pc = Pc.unlocking) :
    MutexInv users0 calls
      { sh := { s.sh with writer := none },
        gs := Function.update s.gs t (some { g with pc := Pc.finished }) } where
  callsFixed := calls_update s.gs calls t g _ hinv.callsFixed hg rfl
  wr := by
    have hwr := (no_reader_of_writer users0 calls s hinv t g hg
      (by simp [inWrite, hw, hpc, Pc.holds])).1
    apply iff_update s.gs t _ inWrite (fun t' => s.sh.writer = some t') _ hinv.wr
    · intro t' hne
      simp only [hwr]
      constructor
      · intro h; cases h
      · intro h; exact absurd (Option.some.inj h).symm hne
    · simp [inWrite, Pc.holds]
  rd := by
    apply iff_update s.gs t _ inRead (fun t' => t' ∈ s.sh.readers) _ hinv.rd
    · intro t' _; exact Iff.rfl
    · have := (no_reader_of_writer users0 calls s hinv t g hg (by simp [inWrite, hw, hpc, Pc.holds])).2.1
      simp [inRead, hw, this]
  excl := fun h => absurd rfl h
  rdNodup := hinv.rdNodup
  histNodup := hinv.histNodup
  hist := by
    apply iff_update s.gs t _ written (fun t' => t' ∈ s.sh.history) _ hinv.hist
    · intro t' _; exact Iff.rfl
    · have : t ∈ s.sh.history := (hinv.hist t).mpr ⟨g, hg, by simp [written, hw, hpc]⟩
      simp [written, hw, this]
  lin := hinv.lin
  snapOk := by
    apply forall_update s.gs t _ (fun g' => inRead g' = true → g'.snap = s.sh.b.users)
    · intro t' g' _ hg'; exact hinv.snapOk t' g' hg'
    · simp [inRead, hw]
  seen := by
    apply forall_update s.gs t _ seenOk
    · intro t' g' _ hg'; exact hinv.seen t' g' hg'
    · exact seenOk_write _ hw

theorem writer_ne_of_not_inWrite (users0 : List (String × ChanRef)) (calls : List Call)
    (s : Sys) (hinv : MutexInv users0 calls s) (t : Nat) (g : Goroutine)
    (hg : s.gs t = some g) (hw : inWrite g = false) : s.sh.writer ≠ some t := by
  intro h
  obtain ⟨g', hg', hw'⟩ := (hinv.wr t).mp h
  rw [hg] at hg'
  cases hg'
  rw [hw] at hw'
  cases hw'

/-- `RLock()` by a dispatch keeps the invariant. -/
theorem inv_rlock (users0 : List (String × ChanRef)) (calls : List Call) (s : Sys)
    (hinv : MutexInv users0 calls s) (t : Nat) (g : Goroutine) (hg : s.gs t = some g)
    (hw : g.call.isWrite = false) (hpc : g.pc = Pc.start) (hfree : s.sh.writer = none) :
    MutexInv users0 calls
      { sh := { s.sh with readers := t :: s.sh.readers },
        gs := Function.update s.gs t
          (some { g with pc := Pc.locked, snap := s.sh.b.users }) } where
  callsFixed := calls_update s.gs calls t g _ hinv.callsFixed hg rfl
  wr := by
    apply iff_update s.gs t _ inWrite (fun t' => s.sh.writer = some t') _ hinv.wr
    · intro t' _; exact Iff.rfl
    · simp [inWrite, hw, hfree]
  rd := by
    apply iff_update s.gs t _ inRead (fun t' => t' ∈ s.sh.readers) _ hinv.rd
    · intro t' hne; simp [hne]
    · simp [inRead, hw, Pc.holds]
  excl := fun h => absurd hfree h
  rdNodup := by
    have := not_mem_readers users0 calls s hinv t g hg (by simp [inRead, hpc, Pc.holds])
    exact List.nodup_cons.mpr ⟨this, hinv.rdNodup⟩
  histNodup := hinv.histNodup
  hist := by
    apply iff_update s.gs t _ written (fun t' => t' ∈ s.sh.history) _ hinv.hist
    · intro t' _; exact Iff.rfl
    · have := not_mem_history users0 calls s hinv t g hg (by simp [written, hw])
      simp [written, hw, this]
  lin := hinv.lin
  snapOk := by
    apply forall_update s.gs t _ (fun g' => inRead g' = true → g'.snap = s.sh.b.users)
    · intro t' g' _ hg'; exact hinv.snapOk t' g' hg'
    · intro _; rfl
  seen := by
    apply forall_update s.gs t _ seenOk
    · intro t' g' _ hg'; exact hinv.seen t' g' hg'
    · have hs := hinv.seen t g hg
      obtain ⟨call, pc, snap, seen⟩ := g
      simp only at hpc hw
      subst hpc
      cases call <;> simp [Call.isWrite] at hw
      simpa [seenOk] using hs

/-- A statement of the body of a dispatch, which does not write the registry,
keeps the invariant. -/
theorem inv_rbody (users0 : List (String × ChanRef)) (calls : List Call) (s : Sys)
    (hinv : MutexInv users0 calls s) (t : Nat) (g g1 : Goroutine) (hg : s.gs t = some g)
    (hw : g.call.isWrite = false) (hh : g.pc.holds = true)
    (hc1 : g1.call = g.call) (hh1 : g1.pc.holds = true) (hs1 : g1.snap = g.snap)
    (hseen : seenOk g1) (b1 : Broker) (hb1 : b1.users = s.sh.b.users) :
    MutexInv users0 calls
      { sh := { s.sh with b := b1 }, gs := Function.update s.gs t (some g1) } where
  callsFixed := calls_update s.gs calls t g _ hinv.callsFixed hg hc1
  wr := by
    apply iff_update s.gs t _ inWrite (fun t' => s.sh.writer = some t') _ hinv.wr
    · intro t' _; exact Iff.rfl
    · have := writer_ne_of_not_inWrite users0 calls s hinv t g hg (by simp [inWrite, hw])
      simp [inWrite, hc1, hw, this]
  rd := by
    apply iff_update s.gs t _ inRead (fun t' => t' ∈ s.sh.readers) _ hinv.rd
    · intro t' _; exact Iff.rfl
    · have : t ∈ s.sh.readers := (hinv.rd t).mpr ⟨g, hg, by simp [inRead, hw, hh]⟩
      simp [inRead, hc1, hw, hh1, this]
  excl := hinv.excl
  rdNodup := hinv.rdNodup
  histNodup := hinv.histNodup
  hist := by
    apply iff_update s.gs t _ written (fun t' => t' ∈ s.sh.history) _ hinv.hist
    · intro t' _; exact Iff.rfl
    · have := not_mem_history users0 calls s hinv t g hg (by simp [written, hw])
      simp [written, hc1, hw, this]
  lin := by
    show b1.users = _
    rw [hb1]; exact hinv.lin
  snapOk := by
    apply forall_update s.gs t _ (fun g' => inRead g' = true → g'.snap = b1.users)
    · intro t' g' _ hg' hr; rw [hb1]; exact hinv.snapOk t' g' hg' hr
    · intro _
      rw [hs1, hb1]
      exact hinv.snapOk t g hg (by simp [inRead, hw, hh])
  seen := by
    apply forall_update s.gs t _ seenOk
    · intro t' g' _ hg'; exact hinv.seen t' g' hg'
    · exact hseen

/-- `RUnlock()` by a dispatch keeps the invariant. -/
theorem inv_runlock (users0 : List (String × ChanRef)) (calls : List Call) (s : Sys)
    (hinv : MutexInv users0 calls s) (t : Nat) (g : Goroutine) (hg : s.gs t = some g)
    (hw : g.call.isWrite = false) (hpc : g.pc = Pc.unlocking) :
    MutexInv users0 calls
      { sh := { s.sh with readers := s.sh.readers.erase t },
        gs := Function.update s.gs t (some { g with pc := Pc.finished }) } where
  callsFixed := calls_update s.gs calls t g _ hinv.callsFixed hg rfl
  wr := by
    apply iff_update s.gs t _ inWrite (fun t' => s.sh.writer = some t') _ hinv.wr
    · intro t' _; exact Iff.rfl
    · have := writer_ne_of_not_inWrite users0 calls s hinv t g hg (by simp [inWrite, hw])
      simp [inWrite, hw, this]
  rd := by
    apply iff_update s.gs t _ inRead (fun t' => t' ∈ s.sh.readers) _ hinv.rd
    · intro t' hne
      exact List.mem_erase_of_ne hne
    · have := hinv.rdNodup.not_mem_erase (a := t)
      simp [inRead, Pc.holds, this]
  excl := by
    intro h
    have := hinv.excl h
    show s.sh.readers.erase t = []
    rw [this]; rfl
  rdNodup := hinv.rdNodup.erase t
  histNodup := hinv.histNodup
  hist := by
    apply iff_update s.gs t _ written (fun t' => t' ∈ s.sh.history) _ hinv.hist
    · intro t' _; exact Iff.rfl
    · have := not_mem_history users0 calls s hinv t g hg (by simp [written, hw])
      simp [written, hw, this]
  lin := hinv.lin
  snapOk := by
    apply forall_update s.gs t _ (fun g' => inRead g' = true → g'.snap = s.sh.b.users)
    · intro t' g' _ hg'; exact hinv.snapOk t' g' hg'
    · simp [inRead, Pc.holds]
  seen := by
    apply forall_update s.gs t _ seenOk
    · intro t' g' _ hg'; exact hinv.seen t' g' hg'
    · have hs := hinv.seen t g hg
      obtain ⟨call, pc, snap, seen⟩ := g
      simp only at hpc hw
      subst hpc
      cases call <;> simp [Call.isWrite] at hw
      simpa [seenOk] using hs

theorem take_succ_of_get? (l : List (String × ChanRef)) (i : Nat) (e : String × ChanRef)
    (h : l.get? i = some e) : l.take (i + 1) = l.take i ++ [e] := by
  rw [List.get?_eq_getElem?] at h
  rw [List.take_succ, h]
  rfl

theorem take_of_get?_none (l : List (String × ChanRef)) (i : Nat) (h : l.get? i = none) :
    l.take i = l := by
  rw [List.get?_eq_getElem?] at h
  exact List.take_of_length_le (List.getElem?_eq_none_iff.mp h)

/-- Every statement of every goroutine keeps the invariant. -/
theorem sysStep_inv (users0 : List (String × ChanRef)) (calls : List Call) (s s1 : Sys)
    (t : Nat) (hinv : MutexInv users0 calls s) (h : sysStep s t = some s1) :
    MutexInv users0 calls s1 := by
  unfold sysStep at h
  cases hg : s.gs t with
  | none => simp [hg] at h
  | some g =>
    simp only [hg] at h
    cases hs : gstep t s.sh g with
    | none => simp [hs] at h
    | some r =>
      obtain ⟨sh1, g1⟩ := r
      simp only [hs, Option.some.injEq] at h
      subst h
      have hseen := hinv.seen t g hg
      have hsnap := hinv.snapOk t g hg
      obtain ⟨call, pc, snap, seen⟩ := g
      cases call with
      | register userID recv =>
        cases pc with
        | start =>
          simp only [gstep, writeStep] at hs
          split at hs
          · next hfree =>
            simp only [Option.some.injEq, Prod.mk.injEq] at hs
            obtain ⟨rfl, rfl⟩ := hs
            exact inv_wlock users0 calls s hinv t _ hg rfl rfl hfree.1 hfree.2
          · cases hs
        | locked =>
          simp only [gstep, writeStep, Option.some.injEq, Prod.mk.injEq] at hs
          obtain ⟨rfl, rfl⟩ := hs
          exact inv_wbody users0 calls s hinv t _ hg rfl rfl _ rfl
        | ranging i => simp [gstep, writeStep] at hs
        | unlocking =>
          simp only [gstep, writeStep, Option.some.injEq, Prod.mk.injEq] at hs
          obtain ⟨rfl, rfl⟩ := hs
          exact inv_wunlock users0 calls s hinv t _ hg rfl rfl
        | finished => simp [gstep, writeStep] at hs
      | unregister userID =>
        cases pc with
        | start =>
          simp only [gstep, writeStep] at hs
          split at hs
          · next hfree =>
            simp only [Option.some.injEq, Prod.mk.injEq] at hs
            obtain ⟨rfl, rfl⟩ := hs
            exact inv_wlock users0 calls s hinv t _ hg rfl rfl hfree.1 hfree.2
          · cases hs
        | locked =>
          simp only [gstep, writeStep, Option.some.injEq, Prod.mk.injEq] at hs
          obtain ⟨rfl, rfl⟩ := hs
          exact inv_wbody users0 calls s hinv t _ hg rfl rfl _ rfl
        | ranging i => simp [gstep, writeStep] at hs
        | unlocking =>
          simp only [gstep, writeStep, Option.some.injEq, Prod.mk.injEq] at hs
          obtain ⟨rfl, rfl⟩ := hs
          exact inv_wunlock users0 calls s hinv t _ hg rfl rfl
        | finished => simp [gstep, writeStep] at hs
      | dispatch msg =>
        cases pc with
        | start =>
          simp only [gstep, readStep] at hs
          split at hs
          · next hfree =>
            simp only [Option.some.injEq, Prod.mk.injEq] at hs
            obtain ⟨rfl, rfl⟩ := hs
            exact inv_rlock users0 calls s hinv t _ hg rfl rfl hfree
          · cases hs
        | locked =>
          have hsn : snap = s.sh.b.users := hsnap rfl
          have hse : seen = [] := by simpa [seenOk] using hseen
          simp only [gstep, readStep] at hs
          split at hs
          · next hb =>
            simp only [Option.some.injEq, Prod.mk.injEq] at hs
            obtain ⟨rfl, rfl⟩ := hs
            exact inv_rbody users0 calls s hinv t _
              { call := Call.dispatch msg, pc := Pc.ranging 0, snap := snap, seen := seen }
              hg rfl rfl rfl rfl rfl (by simp [seenOk, hb, hse]) s.sh.b rfl
          · next hb =>
            simp only [Option.some.injEq, Prod.mk.injEq] at hs
            obtain ⟨rfl, rfl⟩ := hs
            exact inv_rbody users0 calls s hinv t _
              { call := Call.dispatch msg, pc := Pc.unlocking, snap := snap,
                seen := lookedUp s.sh.b.users msg }
              hg rfl rfl rfl rfl rfl (by simp [seenOk, observed, hb, hsn])
              (dispatch s.sh.b msg) (dispatch_users s.sh.b msg)
        | ranging i =>
          have hsn : snap = s.sh.b.users := hsnap rfl
          have hse : msg.Broadcast = true ∧ seen = snap.take i := by
            simpa [seenOk] using hseen
          simp only [gstep, readStep] at hs
          split at hs
          · next e he =>
            simp only [Option.some.injEq, Prod.mk.injEq] at hs
            obtain ⟨rfl, rfl⟩ := hs
            refine inv_rbody users0 calls s hinv t _
              { call := Call.dispatch msg, pc := Pc.ranging (i + 1), snap := snap,
                seen := seen ++ [e] }
              hg rfl rfl rfl rfl rfl ?_
              { s.sh.b with chans := trySend s.sh.b.chans e.2 msg } rfl
            refine ⟨hse.1, ?_⟩
            show seen ++ [e] = snap.take (i + 1)
            rw [hsn, take_succ_of_get? _ i e he, hse.2, hsn]
          · next he =>
            simp only [Option.some.injEq, Prod.mk.injEq] at hs
            obtain ⟨rfl, rfl⟩ := hs
            refine inv_rbody users0 calls s hinv t _
              { call := Call.dispatch msg, pc := Pc.unlocking, snap := snap, seen := seen }
              hg rfl rfl rfl rfl rfl ?_ s.sh.b rfl
            show seen = observed snap msg
            rw [hse.2, hsn, take_of_get?_none _ i he]
            simp [observed, hse.1]
        | unlocking =>
          simp only [gstep, readStep, Option.some.injEq, Prod.mk.injEq] at hs
          obtain ⟨rfl, rfl⟩ := hs
          exact inv_runlock users0 calls s hinv t _ hg rfl rfl
        | finished => simp [gstep, readStep] at hs

/-- Every interleaving keeps the invariant. -/
theorem sysRun_inv (users0 : List (String × ChanRef)) (calls : List Call) (sched : List Nat) :
    ∀ (s s1 : Sys), MutexInv users0 calls s → sysRun s sched = some s1 →
      MutexInv users0 calls s1 := by
  induction sched with
  | nil =>
    intro s s1 hinv h
    simp only [sysRun, Option.some.injEq] at h
    subst h; exact hinv
  | cons t rest ih =>
    intro s s1 hinv h
    simp only [sysRun, Option.bind_eq_some] at h
    obtain ⟨s', h1, h2⟩ := h
    exact ih s' s1 (sysStep_inv users0 calls s s' t hinv h1) h2

/-- Only the map write of a goroutine that holds the mutex by `Lock` changes the
registry. -/
theorem sysStep_users (s s1 : Sys) (t : Nat) (h : sysStep s t = some s1) :
    s1.sh.b.users = s.sh.b.users ∨ ∃ g, s.gs t = some g ∧ inWrite g = true := by
  unfold sysStep at h
  cases hg : s.gs t with
  | none => simp [hg] at h
  | some g =>
    simp only [hg] at h
    cases hs : gstep t s.sh g with
    | none => simp [hs] at h
    | some r =>
      obtain ⟨sh1, g1⟩ := r
      simp only [hs, Option.some.injEq] at h
      subst h
      obtain ⟨call, pc, snap, seen⟩ := g
      cases call with
      | register userID recv =>
        cases pc with
        | start =>
          simp only [gstep, writeStep] at hs
          split at hs
          · simp only [Option.some.injEq, Prod.mk.injEq] at hs
            obtain ⟨rfl, rfl⟩ := hs
            exact Or.inl rfl
          · cases hs
        | locked => exact Or.inr ⟨_, rfl, rfl⟩
        | ranging i => simp [gstep, writeStep] at hs
        | unlocking => exact Or.inr ⟨_, rfl, rfl⟩
        | finished => simp [gstep, writeStep] at hs
      | unregister userID =>
        cases pc with
        | start =>
          simp only [gstep, writeStep] at hs
          split at hs
          · simp only [Option.some.injEq, Prod.mk.injEq] at hs
            obtain ⟨rfl, rfl⟩ := hs
            exact Or.inl rfl
          · cases hs
        | locked => exact Or.inr ⟨_, rfl, rfl⟩
        | ranging i => simp [gstep, writeStep] at hs
        | unlocking => exact Or.inr ⟨_, rfl, rfl⟩
        | finished => simp [gstep, writeStep] at hs
      | dispatch msg =>
        left
        cases pc with
        | start =>
          simp only [gstep, readStep] at hs
          split at hs
          · simp only [Option.some.injEq, Prod.mk.injEq] at hs
            obtain ⟨rfl, rfl⟩ := hs
            rfl
          · cases hs
        | locked =>
          simp only [gstep, readStep] at hs
          split at hs
          · simp only [Option.some.injEq, Prod.mk.injEq] at hs
            obtain ⟨rfl, rfl⟩ := hs
            rfl
          · simp only [Option.some.injEq, Prod.mk.injEq] at hs
            obtain ⟨rfl, rfl⟩ := hs
            exact dispatch_users s.sh.b msg
        | ranging i =>
          simp only [gstep, readStep] at hs
          split at hs
          · simp only [Option.some.injEq, Prod.mk.injEq] at hs
            obtain ⟨rfl, rfl⟩ := hs
            rfl
          · simp only [Option.some.injEq, Prod.mk.injEq] at hs
            obtain ⟨rfl, rfl⟩ := hs
            rfl
        | unlocking =>
          simp only [gstep, readStep, Option.some.injEq, Prod.mk.injEq] at hs
          obtain ⟨rfl, rfl⟩ := hs
          rfl
        | finished => simp [gstep, readStep] at hs

/-- While a dispatch holds the read lock, the writes that have run are those of
the calls that have returned. -/
theorem written_completed_of_reader (users0 : List (String × ChanRef)) (calls : List Call)
    (s : Sys) (hinv : MutexInv users0 calls s) (t : Nat) (g : Goroutine)
    (hg : s.gs t = some g) (hr : inRead g = true) (t' : Nat) (g' : Goroutine)
    (hg' : s.gs t' = some g') : written g' = completedWrite g' := by
  rcases Bool.eq_false_or_eq_true (inWrite g') with hw | hw
  · have := (no_reader_of_writer users0 calls s hinv t' g' hg' hw).2.2 t g hg
    rw [hr] at this
    cases this
  · obtain ⟨call, pc, snap, seen⟩ := g'
    cases pc <;> simp [inWrite, written, completedWrite, Pc.holds] at hw ⊢
    exact hw

theorem raceSys_reachable :
    sysRun (sysInit scenarioBroker raceCalls) raceSched = some raceSys := rfl

/-! ## Lemmas on worlds -/

theorem World.selectnbsend_panics (w : World) (c : ChanRef) (msg : Message)
    (h : w.closed c = true) : w.selectnbsend c msg = { w with panicked := true } := by
  simp [World.selectnbsend, World.sendOutcome, h]

theorem World.selectnbsend_handsOff (w : World) (c : ChanRef) (msg : Message)
    (hc : w.closed c = false) (hr : 0 < w.recvq c) :
    w.selectnbsend c msg =
      { w with recvq := Function.update w.recvq c (w.recvq c - 1),
               handed := Function.update w.handed c (w.handed c ++ [msg]) } := by
  simp [World.selectnbsend, World.sendOutcome, hc, hr]

theorem World.selectnbsend_buffers (w : World) (c : ChanRef) (msg : Message)
    (hc : w.closed c = false) (hr : w.recvq c = 0)
    (hroom : (w.b.chans c).buf.length < (w.b.chans c).cap) :
    w.selectnbsend c msg =
      { w with
        b := { w.b with
          chans := Function.update w.b.chans c
            { buf := (w.b.chans c).buf ++ [msg], cap := (w.b.chans c).cap } } } := by
  simp [World.selectnbsend, World.sendOutcome, hc, hr, hroom]

theorem World.selectnbsend_drops (w : World) (c : ChanRef) (msg : Message)
    (hc : w.closed c = false) (hr : w.recvq c = 0)
    (hfull : ¬ (w.b.chans c).buf.length < (w.b.chans c).cap) :
    w.selectnbsend c msg = w := by
  simp [World.selectnbsend, World.sendOutcome, hc, hr, hfull]

/-- The four things a non-blocking send can do. -/
theorem World.selectnbsend_cases (w : World) (c : ChanRef) (msg : Message) :
    (w.closed c = true ∧ w.selectnbsend c msg = { w with panicked := true }) ∨
    (w.closed c = false ∧ 0 < w.recvq c ∧
      w.selectnbsend c msg =
        { w with recvq := Function.update w.recvq c (w.recvq c - 1),
                 handed := Function.update w.handed c (w.handed c ++ [msg]) }) ∨
    (w.closed c = false ∧ w.recvq c = 0 ∧ (w.b.chans c).buf.length < (w.b.chans c).cap ∧
      w.selectnbsend c msg =
        { w with
          b := { w.b with
            chans := Function.update w.b.chans c
              { buf := (w.b.chans c).buf ++ [msg], cap := (w.b.chans c).cap } } }) ∨
    (w.closed c = false ∧ w.recvq c = 0 ∧ ¬ (w.b.chans c).buf.length < (w.b.chans c).cap ∧
      w.selectnbsend c msg = w) := by
  rcases Bool.eq_false_or_eq_true (w.closed c) with hc | hc
  · exact Or.inl ⟨hc, w.selectnbsend_panics c msg hc⟩
  · right
    by_cases hr : 0 < w.recvq c
    · exact Or.inl ⟨hc, hr, w.selectnbsend_handsOff c msg hc hr⟩
    · right
      have hr0 : w.recvq c = 0 := by omega
      by_cases hroom : (w.b.chans c).buf.length < (w.b.chans c).cap
      · exact Or.inl ⟨hc, hr0, hroom, w.selectnbsend_buffers c msg hc hr0 hroom⟩
      · exact Or.inr ⟨hc, hr0, hroom, w.selectnbsend_drops c msg hc hr0 hroom⟩

/-- A non-blocking send touches nothing but the channel it sends on and the
panic flag. -/
theorem World.selectnbsend_frame (w : World) (c : ChanRef) (msg : Message) :
    (w.selectnbsend c msg).closed = w.closed ∧
    (w.selectnbsend c msg).b.users = w.b.users ∧
    (w.selectnbsend c msg).b.input = w.b.input ∧
    (w.selectnbsend c msg).b.ctxDone = w.b.ctxDone ∧
    (w.selectnbsend c msg).b.done = w.b.done ∧
    (w.selectnbsend c msg).loops = w.loops ∧
    (∀ c' : ChanRef, c' ≠ c →
      (w.selectnbsend c msg).b.chans c' = w.b.chans c' ∧
      (w.selectnbsend c msg).recvq c' = w.recvq c' ∧
      (w.selectnbsend c msg).handed c' = w.handed c') := by
  rcases w.selectnbsend_cases c msg with ⟨_, h⟩ | ⟨_, _, h⟩ | ⟨_, _, _, h⟩ | ⟨_, _, _, h⟩ <;>
    rw [h] <;>
    refine ⟨rfl, rfl, rfl, rfl, rfl, rfl, fun c' hne => ?_⟩ <;>
    simp [Function.update_noteq hne]

theorem World.selectnbsend_panicked (w : World) (c : ChanRef) (msg : Message) :
    (w.selectnbsend c msg).panicked = (w.panicked || w.closed c) := by
  rcases w.selectnbsend_cases c msg with ⟨hc, h⟩ | ⟨hc, _, h⟩ | ⟨hc, _, _, h⟩ | ⟨hc, _, _, h⟩ <;>
    rw [h] <;> simp [hc]

theorem World.broadcast_unfold (w : World) (e : String × ChanRef) (es : List (String × ChanRef))
    (msg : Message) :
    w.broadcast (e :: es) msg =
      if (w.selectnbsend e.2 msg).panicked then w.selectnbsend e.2 msg
      else World.broadcast (w.selectnbsend e.2 msg) es msg := rfl

theorem World.dispatch_of_private (w : World) (msg : Message) (hp : msg.Broadcast = false) :
    w.dispatch msg =
      match lookupUser w.b msg.Recipient with
      | some ch => w.selectnbsend ch msg
      | none => w := by
  simp [World.dispatch, hp]

theorem World.dispatch_of_broadcast (w : World) (msg : Message) (hb : msg.Broadcast = true) :
    w.dispatch msg = w.broadcast w.b.users msg := by
  simp [World.dispatch, hb]

theorem World.broadcast_frame (es : List (String × ChanRef)) (msg : Message) :
    ∀ w : World,
      (w.broadcast es msg).closed = w.closed ∧
      (w.broadcast es msg).b.users = w.b.users ∧
      (w.broadcast es msg).b.input = w.b.input ∧
      (w.broadcast es msg).b.ctxDone = w.b.ctxDone ∧
      (w.broadcast es msg).b.done = w.b.done ∧
      (w.broadcast es msg).loops = w.loops := by
  induction es with
  | nil => intro w; exact ⟨rfl, rfl, rfl, rfl, rfl, rfl⟩
  | cons e es ih =>
    intro w
    obtain ⟨fc, fu, fi, fx, fd, fl, _⟩ := w.selectnbsend_frame e.2 msg
    rw [World.broadcast_unfold]
    split
    · exact ⟨fc, fu, fi, fx, fd, fl⟩
    · obtain ⟨i1, i2, i3, i4, i5, i6⟩ := ih (w.selectnbsend e.2 msg)
      exact ⟨i1.trans fc, i2.trans fu, i3.trans fi, i4.trans fx, i5.trans fd, i6.trans fl⟩

/-- What `dispatch` leaves alone: which channels are closed, the registry, the
queue, the cancellation signal, `done` and the number of running loops. -/
theorem World.dispatch_frame (w : World) (msg : Message) :
    (w.dispatch msg).closed = w.closed ∧
    (w.dispatch msg).b.users = w.b.users ∧
    (w.dispatch msg).b.input = w.b.input ∧
    (w.dispatch msg).b.ctxDone = w.b.ctxDone ∧
    (w.dispatch msg).b.done = w.b.done ∧
    (w.dispatch msg).loops = w.loops := by
  unfold World.dispatch
  split
  · exact World.broadcast_frame w.b.users msg w
  · split
    · next ch _ =>
      obtain ⟨fc, fu, fi, fx, fd, fl, _⟩ := w.selectnbsend_frame ch msg
      exact ⟨fc, fu, fi, fx, fd, fl⟩
    · exact ⟨rfl, rfl, rfl, rfl, rfl, rfl⟩

/-- The outcomes of one iteration of the loop: the cancellation case with `done`
open closes `done` and leaves the loop; the cancellation case with `done`
closed already panics; the receive case dispatches the head of the queue. -/
theorem World.runIter_outcomes (w w1 : World) (pick : Nat) (h : w.runIter pick = some w1) :
    (selectReady (runReady w.b) pick = some RunCase.ctxDone ∧ w.b.ctxDone = true ∧
      w.b.done = false ∧
      w1 = { w with b := { w.b with done := true }, loops := w.loops - 1 }) ∨
    (selectReady (runReady w.b) pick = some RunCase.ctxDone ∧ w.b.ctxDone = true ∧
      w.b.done = true ∧ w1 = { w with panicked := true }) ∨
    (∃ msg rest, selectReady (runReady w.b) pick = some RunCase.recvInput ∧
      w.b.input = msg :: rest ∧
      w1 = World.dispatch { w with b := { w.b with input := rest } } msg) := by
  unfold World.runIter at h
  split at h
  · cases h
  · next hsel =>
    have hctx := selectReady_run_ctxDone w.b pick hsel
    rcases Bool.eq_false_or_eq_true w.b.done with hd | hd
    · right; left
      rw [if_pos hd] at h
      exact ⟨hsel, hctx, hd, (Option.some.inj h).symm⟩
    · left
      rw [hd] at h
      exact ⟨hsel, hctx, hd, (Option.some.inj h).symm⟩
  · next hsel =>
    right; right
    split at h
    · cases h
    · next msg rest hq => exact ⟨msg, rest, hsel, hq, (Option.some.inj h).symm⟩

/-- Every step of a world, by cases. -/
theorem World.step_cases (w w1 : World) (a : Action) (h : w.step a = some w1) :
    w.panicked = false ∧
    ((a = Action.cancel ∧ w1 = { w with b := { w.b with ctxDone := true } }) ∨
     (a = Action.run ∧ w1 = { w with loops := w.loops + 1 }) ∨
     (∃ pick, a = Action.iter pick ∧ 0 < w.loops ∧ w.runIter pick = some w1) ∨
     (∃ msg pick r, a = Action.send msg pick ∧ SendMessage w.b msg pick = some r ∧
        w1 = { w with b := r.1 }) ∨
     (∃ userID recv, a = Action.register userID recv ∧
        w1 = { w with b := RegisterUser w.b userID recv }) ∨
     (∃ userID, a = Action.unregister userID ∧
        w1 = { w with b := UnregisterUser w.b userID })) := by
  rcases Bool.eq_false_or_eq_true w.panicked with hp | hp
  · cases a <;> simp [World.step, hp] at h
  · refine ⟨hp, ?_⟩
    have hnp : ¬ w.panicked = true := by rw [hp]; exact Bool.false_ne_true
    cases a with
    | cancel =>
      have h' : some ({ w with b := { w.b with ctxDone := true } } : World) = some w1 := by
        rw [← h]; exact (if_neg hnp).symm
      exact Or.inl ⟨rfl, (Option.some.inj h').symm⟩
    | run =>
      have h' : some ({ w with loops := w.loops + 1 } : World) = some w1 := by
        rw [← h]; exact (if_neg hnp).symm
      exact Or.inr (Or.inl ⟨rfl, (Option.some.inj h').symm⟩)
    | iter pick =>
      by_cases hl : w.loops = 0
      · simp [World.step, hp, hl] at h
      · have hno : ¬ (w.panicked = true ∨ w.loops = 0) := fun h' => h'.elim hnp hl
        have h' : w.runIter pick = some w1 := by
          rw [← h]; exact (if_neg hno).symm
        exact Or.inr (Or.inr (Or.inl ⟨pick, rfl, by omega, h'⟩))
    | send msg pick =>
      have h' : (SendMessage w.b msg pick).map (fun r => ({ w with b := r.1 } : World))
          = some w1 := by
        rw [← h]; exact (if_neg hnp).symm
      obtain ⟨r, hs, hw⟩ := Option.map_eq_some'.mp h'
      exact Or.inr (Or.inr (Or.inr (Or.inl ⟨msg, pick, r, rfl, hs, hw.symm⟩)))
    | register userID recv =>
      have h' : some ({ w with b := RegisterUser w.b userID recv } : World) = some w1 := by
        rw [← h]; exact (if_neg hnp).symm
      exact Or.inr (Or.inr (Or.inr (Or.inr (Or.inl ⟨userID, recv, rfl,
        (Option.some.inj h').symm⟩))))
    | unregister userID =>
      have h' : some ({ w with b := UnregisterUser w.b userID } : World) = some w1 := by
        rw [← h]; exact (if_neg hnp).symm
      exact Or.inr (Or.inr (Or.inr (Or.inr (Or.inr ⟨userID, rfl,
        (Option.some.inj h').symm⟩))))

theorem SendMessage_frame (b : Broker) (msg : Message) (pick : Nat) (r : Broker × Option String)
    (h : SendMessage b msg pick = some r) :
    r.1.done = b.done ∧ r.1.ctxDone = b.ctxDone ∧ r.1.chans = b.chans ∧
    r.1.users = b.users := by
  rcases SendMessage_cases b msg pick r h with ⟨_, hr⟩ | ⟨_, hr⟩ <;> subst hr <;>
    exact ⟨rfl, rfl, rfl, rfl⟩

/-- A step either leaves `done` and keeps every running loop, or it is the
iteration of a running loop that takes the cancellation case, with the signal
fired, while `done` is open: it closes `done` and the loop is left. -/
theorem World.step_lifecycle (w w1 : World) (a : Action) (h : w.step a = some w1) :
    (w1.b.done = w.b.done ∧ w.loops ≤ w1.loops ∧ w.closesDone a = false ∧
      (w.b.ctxDone = true → w1.b.ctxDone = true)) ∨
    (∃ pick, a = Action.iter pick ∧ w.b.ctxDone = true ∧ w.b.done = false ∧ 0 < w.loops ∧
      selectReady (runReady w.b) pick = some RunCase.ctxDone ∧ w.closesDone a = true ∧
      w1 = { w with b := { w.b with done := true }, loops := w.loops - 1 }) := by
  obtain ⟨hp, hc⟩ := w.step_cases w1 a h
  rcases hc with ⟨ha, hw⟩ | ⟨ha, hw⟩ | ⟨pick, ha, hl, hi⟩ | ⟨msg, pick, r, ha, hs, hw⟩ |
    ⟨userID, recv, ha, hw⟩ | ⟨userID, ha, hw⟩
  · subst ha hw; exact Or.inl ⟨rfl, Nat.le_refl _, rfl, fun _ => rfl⟩
  · subst ha hw; exact Or.inl ⟨rfl, Nat.le_succ _, rfl, fun h' => h'⟩
  · subst ha
    rcases w.runIter_outcomes w1 pick hi with ⟨hsel, hctx, hd, hw⟩ | ⟨hsel, hctx, hd, hw⟩ |
      ⟨msg, rest, hsel, hq, hw⟩
    · right
      refine ⟨pick, rfl, hctx, hd, hl, hsel, ?_, hw⟩
      simp [World.closesDone, hp, hl, hd, hsel]
    · left
      subst hw
      refine ⟨rfl, Nat.le_refl _, ?_, fun h' => h'⟩
      simp [World.closesDone, hd]
    · left
      subst hw
      obtain ⟨_, _, _, fx, fd, fl⟩ :=
        World.dispatch_frame { w with b := { w.b with input := rest } } msg
      refine ⟨fd, by rw [fl], ?_, fun h' => by rw [fx]; exact h'⟩
      simp [World.closesDone, hsel]
  · subst ha hw
    obtain ⟨fd, fx, _, _⟩ := SendMessage_frame w.b msg pick r hs
    exact Or.inl ⟨fd, Nat.le_refl _, rfl, fun h' => by show r.1.ctxDone = true; rw [fx]; exact h'⟩
  · subst ha hw; exact Or.inl ⟨rfl, Nat.le_refl _, rfl, fun h' => h'⟩
  · subst ha hw; exact Or.inl ⟨rfl, Nat.le_refl _, rfl, fun h' => h'⟩

theorem World.step_done_mono (w w1 : World) (a : Action) (h : w.step a = some w1)
    (hd : w.b.done = true) : w1.b.done = true := by
  rcases w.step_lifecycle w1 a h with ⟨h1, _⟩ | ⟨_, _, _, hd', _⟩
  · rw [h1]; exact hd
  · rw [hd] at hd'; cases hd'

/-- Along an execution `done` is closed successfully at most once, and not at all
when it is closed at the start. -/
theorem World.doneCloses_bound (acts : List Action) :
    ∀ w : World, w.doneCloses acts ≤ if w.b.done then 0 else 1 := by
  induction acts with
  | nil => intro w; simp [World.doneCloses]
  | cons a rest ih =>
    intro w
    unfold World.doneCloses
    cases hs : w.step a with
    | none => simp
    | some w1 =>
      simp only
      have hi := ih w1
      rcases w.step_lifecycle w1 a hs with ⟨h1, _, hc, _⟩ | ⟨_, _, _, hd, _, _, hc, hw⟩
      · rw [h1] at hi
        rw [hc]
        simpa using hi
      · have hd1 : w1.b.done = true := by rw [hw]
        rw [hd1] at hi
        rw [hc, hd]
        simp at hi ⊢
        omega

theorem World.exec_done_mono (acts : List Action) :
    ∀ w w1 : World, w.exec acts = some w1 → w.b.done = true → w1.b.done = true := by
  induction acts with
  | nil => intro w w1 h hd; cases h; exact hd
  | cons a rest ih =>
    intro w w1 h hd
    unfold World.exec at h
    obtain ⟨w2, hs, he⟩ := Option.bind_eq_some.mp h
    exact ih w2 w1 he (w.step_done_mono w2 a hs hd)

/-- With no loop running and no further call of `Run`, an execution starts no
loop, changes no channel object and leaves `done` alone. -/
theorem World.exec_no_run (acts : List Action) :
    ∀ w w1 : World, Action.run ∉ acts → w.loops = 0 → w.exec acts = some w1 →
      w1.loops = 0 ∧ w1.b.done = w.b.done ∧ w1.b.chans = w.b.chans ∧
      w1.handed = w.handed ∧ w1.recvq = w.recvq := by
  induction acts with
  | nil =>
    intro w w1 _ hl h
    cases h
    exact ⟨hl, rfl, rfl, rfl, rfl⟩
  | cons a rest ih =>
    intro w w1 hnr hl h
    unfold World.exec at h
    obtain ⟨w2, hs, he⟩ := Option.bind_eq_some.mp h
    have hnr' : Action.run ∉ rest := fun hm => hnr (List.mem_cons_of_mem _ hm)
    have hna : a ≠ Action.run := fun ha => hnr (by rw [ha]; exact List.mem_cons_self _ _)
    obtain ⟨hp, hc⟩ := w.step_cases w2 a hs
    have key : w2.loops = 0 ∧ w2.b.done = w.b.done ∧ w2.b.chans = w.b.chans ∧
        w2.handed = w.handed ∧ w2.recvq = w.recvq := by
      rcases hc with ⟨ha, hw⟩ | ⟨ha, hw⟩ | ⟨pick, ha, hl', hi⟩ | ⟨msg, pick, r, ha, hs', hw⟩ |
        ⟨userID, recv, ha, hw⟩ | ⟨userID, ha, hw⟩
      · subst hw; exact ⟨hl, rfl, rfl, rfl, rfl⟩
      · exact absurd ha hna
      · omega
      · subst hw
        obtain ⟨fd, _, fc, _⟩ := SendMessage_frame w.b msg pick r hs'
        exact ⟨hl, fd, fc, rfl, rfl⟩
      · subst hw; exact ⟨hl, rfl, rfl, rfl, rfl⟩
      · subst hw; exact ⟨hl, rfl, rfl, rfl, rfl⟩
    obtain ⟨k1, k2, k3, k4, k5⟩ := key
    obtain ⟨i1, i2, i3, i4, i5⟩ := ih w2 w1 hnr' k1 he
    exact ⟨i1, i2.trans k2, i3.trans k3, i4.trans k4, i5.trans k5⟩

theorem runReady_cancelled_queued (b : Broker) (msg : Message) (rest : List Message)
    (hctx : b.ctxDone = true) (hq : b.input = msg :: rest) :
    runReady b = [RunCase.ctxDone, RunCase.recvInput] := by
  simp [runReady, hctx, hq]

theorem sendReady_cancelled_room (b : Broker) (hctx : b.ctxDone = true)
    (hroom : b.input.length < inputCap) :
    sendReady b = [SendCase.ctxDone, SendCase.sendInput] := by
  simp [sendReady, hctx, hroom]

theorem selectReady_pair_even {α : Type} (a a' : α) (pick : Nat) (h : pick % 2 = 0) :
    selectReady [a, a'] pick = some a := by
  simp [selectReady, h]

theorem selectReady_pair_odd {α : Type} (a a' : α) (pick : Nat) (h : pick % 2 = 1) :
    selectReady [a, a'] pick = some a' := by
  simp [selectReady, h]

/-- A call of `Run` returns only with the cancellation signal fired, and then it
has closed `done`, which was open until then. -/
theorem World.Run_returns (picks : List Nat) :
    ∀ w w1 : World, w.Run picks = some w1 →
      w.b.ctxDone = true ∧ w.b.done = false ∧ w1.b.ctxDone = true ∧ w1.b.done = true ∧
      w1.loops = w.loops - 1 := by
  induction picks with
  | nil => intro w w1 h; cases h
  | cons pick picks ih =>
    intro w w1 h
    unfold World.Run at h
    split at h
    · cases h
    · next hsel =>
      have hctx := selectReady_run_ctxDone w.b pick hsel
      rcases Bool.eq_false_or_eq_true w.b.done with hd | hd
      · rw [if_pos hd] at h; cases h
      · rw [hd] at h
        have hw := (Option.some.inj h).symm
        subst hw
        exact ⟨hctx, hd, hctx, rfl, rfl⟩
    · split at h
      · cases h
      · next msg rest hq =>
        split at h
        · cases h
        · next hp =>
          obtain ⟨_, _, _, fx, fd, fl⟩ :=
            World.dispatch_frame { w with b := { w.b with input := rest } } msg
          obtain ⟨i1, i2, i3, i4, i5⟩ := ih _ w1 h
          exact ⟨by rw [← i1, fx], by rw [← i2, fd], i3, i4, by rw [i5, fl]⟩

/-- A call of `Run` whose cancellation signal has not fired does not return,
however long it runs. -/
theorem World.Run_uncancelled (picks : List Nat) :
    ∀ w : World, w.b.ctxDone = false → w.Run picks = none := by
  induction picks with
  | nil => intro w _; rfl
  | cons pick picks ih =>
    intro w hctx
    cases hq : w.b.input with
    | nil => simp [World.Run, runReady, hctx, hq, selectReady_nil]
    | cons msg rest =>
      have hs : selectReady (runReady w.b) pick = some RunCase.recvInput := by
        simp [runReady, hctx, hq, selectReady_singleton]
      unfold World.Run
      rw [hs]
      simp only [hq]
      split
      · rfl
      · apply ih
        rw [(World.dispatch_frame { w with b := { w.b with input := rest } } msg).2.2.2.1]
        exact hctx

/-- A call of `Run` whose cancellation signal has fired returns when its `select`
takes the cancellation case while `done` is open. -/
theorem World.Run_cancelled (w : World) (pick : Nat) (picks : List Nat)
    (hsel : selectReady (runReady w.b) pick = some RunCase.ctxDone) (hd : w.b.done = false) :
    w.Run (pick :: picks)
      = some { w with b := { w.b with done := true }, loops := w.loops - 1 } := by
  unfold World.Run
  rw [hsel]
  simp [hd]

/-- On an open channel with no receiver blocked on it, the non-blocking send of a
world is `trySend` on the channel objects. -/
theorem World.selectnbsend_trySend (w : World) (c : ChanRef) (msg : Message)
    (hopen : w.closed c = false) (hnr : w.recvq c = 0) :
    w.selectnbsend c msg = { w with b := { w.b with chans := Chatcore.trySend w.b.chans c msg } } := by
  by_cases hroom : (w.b.chans c).buf.length < (w.b.chans c).cap
  · rw [w.selectnbsend_buffers c msg hopen hnr hroom]
    simp [Chatcore.trySend, hroom]
  · rw [w.selectnbsend_drops c msg hopen hnr hroom]
    simp [Chatcore.trySend, hroom]

/-- Over entries whose channels are open and have no receiver blocked on them, the
broadcast loop of a world is `broadcast` on the channel objects. -/
theorem World.broadcast_eq (es : List (String × ChanRef)) (msg : Message) :
    ∀ w : World, w.panicked = false →
      (∀ e ∈ es, w.closed e.2 = false ∧ w.recvq e.2 = 0) →
      w.broadcast es msg = { w with b := { w.b with chans := Chatcore.broadcast w.b.chans es msg } } := by
  induction es with
  | nil => intro w _ _; rfl
  | cons e es ih =>
    intro w hnp h
    obtain ⟨hopen, hnr⟩ := h e (List.mem_cons_self _ _)
    have hs := w.selectnbsend_trySend e.2 msg hopen hnr
    have hp1 : (w.selectnbsend e.2 msg).panicked = false := by rw [hs]; exact hnp
    rw [World.broadcast_unfold, hp1]
    simp only [Bool.false_eq_true, if_false]
    rw [ih (w.selectnbsend e.2 msg) hp1
      (fun e' he' => by rw [hs]; exact h e' (List.mem_cons_of_mem _ he')), hs]
    rfl

/-- In a world whose registered channels are open and have no receiver blocked on
them, `dispatch` is the `dispatch` of the broker on its channel objects: there
the broker of `dispatch`, `runIter` and `step` is the world. -/
theorem World.dispatch_eq (w : World) (msg : Message) (hnp : w.panicked = false)
    (h : ∀ e ∈ w.b.users, w.closed e.2 = false ∧ w.recvq e.2 = 0) :
    w.dispatch msg = { w with b := Chatcore.dispatch w.b msg } := by
  rcases Bool.eq_false_or_eq_true msg.Broadcast with hb | hb
  · rw [World.dispatch_of_broadcast w msg hb, World.broadcast_eq w.b.users msg w hnp h,
      Chatcore.dispatch_broadcast w.b msg hb]
  · rw [World.dispatch_of_private w msg hb, Chatcore.dispatch_private w.b msg hb]
    cases hl : lookupUser w.b msg.Recipient with
    | none => rfl
    | some ch =>
      obtain ⟨hopen, hnr⟩ := h (msg.Recipient, ch) (mem_of_lookup_eq_some _ _ _ hl)
      exact w.selectnbsend_trySend ch msg hopen hnr

theorem dispatch_chans_congr (b b1 : Broker) (msg : Message) (hu : b.users = b1.users)
    (hc : b.chans = b1.chans) : (dispatch b msg).chans = (dispatch b1 msg).chans := by
  unfold dispatch lookupUser
  rw [hu, hc]
  split
  · rfl
  · split
    · rfl
    · exact hc

/-- A step of a broker that stands for a world is the step of that world, as long
as `Run` is called only on the broker that is `Created`: either both cannot
proceed, or both proceed and the resulting broker stands for the resulting
world. -/
theorem World.step_matches (w : World) (b : Broker) (a : Action) (h : w.Matches b)
    (hr : a = Action.run → b.phase = Phase.Created) :
    (w.step a = none ∧ Chatcore.step b a = none) ∨
    (∃ w1 b1, w.step a = some w1 ∧ Chatcore.step b a = some b1 ∧ w1.Matches b1) := by
  have hnp : ¬ w.panicked = true := by rw [h.noPanic]; exact Bool.false_ne_true
  cases a with
  | cancel =>
    right
    refine ⟨{ w with b := { w.b with ctxDone := true } }, { b with ctxDone := true },
      if_neg hnp, rfl, ?_⟩
    exact ⟨rfl, h.input, h.users, h.done, h.chans, h.isOpen, h.noRecv, h.loops, h.noPanic,
      h.stopped⟩
  | run =>
    right
    have hc := hr rfl
    refine ⟨{ w with loops := w.loops + 1 }, { b with phase := Phase.Running },
      if_neg hnp, if_pos hc, ?_⟩
    have hl : w.loops = 0 := by rw [h.loops, hc]; rfl
    have hd : b.done = false := by
      rcases Bool.eq_false_or_eq_true b.done with hd | hd
      · have := h.stopped.mp hd
        rw [hc] at this; cases this
      · exact hd
    refine ⟨h.ctxDone, h.input, h.users, h.done, h.chans, h.isOpen, h.noRecv, ?_, h.noPanic, ?_⟩
    · show w.loops + 1 = _
      rw [hl]; rfl
    · show b.done = true ↔ Phase.Running = Phase.Stopped
      rw [hd]
      constructor <;> intro h' <;> cases h'
  | iter pick =>
    by_cases hp : b.phase = Phase.Running
    · have hl : w.loops = 1 := by rw [h.loops, if_pos hp]
      have hno : ¬ (w.panicked = true ∨ w.loops = 0) := by
        intro h'
        rcases h' with h' | h'
        · exact hnp h'
        · omega
      have hws : w.step (Action.iter pick) = w.runIter pick := if_neg hno
      have hbs : Chatcore.step b (Action.iter pick) = Chatcore.runIter b pick := if_pos hp
      have hrr : runReady w.b = runReady b := by
        unfold runReady
        rw [h.ctxDone, h.input]
      have hd : b.done = false := by
        rcases Bool.eq_false_or_eq_true b.done with hd | hd
        · have := h.stopped.mp hd
          rw [hp] at this; cases this
        · exact hd
      rw [hws, hbs]
      unfold World.runIter Chatcore.runIter
      rw [hrr]
      cases hsel : selectReady (runReady b) pick with
      | none => left; exact ⟨rfl, rfl⟩
      | some rc =>
        cases rc with
        | ctxDone =>
          right
          have hwd : w.b.done = false := by rw [h.done]; exact hd
          refine ⟨_, _, by simp only [hwd]; rfl, rfl, ?_⟩
          refine ⟨h.ctxDone, h.input, h.users, rfl, h.chans, h.isOpen, h.noRecv, ?_, h.noPanic,
            ?_⟩
          · show w.loops - 1 = _
            rw [hl]; rfl
          · exact ⟨fun _ => rfl, fun _ => rfl⟩
        | recvInput =>
          simp only
          rw [h.input]
          cases hq : b.input with
          | nil => left; exact ⟨rfl, rfl⟩
          | cons msg rest =>
            right
            simp only
            have he := World.dispatch_eq { w with b := { w.b with input := rest } } msg h.noPanic
              (fun e _ => ⟨h.isOpen e.2, h.noRecv e.2⟩)
            refine ⟨_, _, rfl, rfl, ?_⟩
            rw [he]
            refine ⟨?_, ?_, ?_, ?_, ?_, h.isOpen, h.noRecv, ?_, h.noPanic, ?_⟩
            · show (Chatcore.dispatch _ msg).ctxDone = (Chatcore.dispatch _ msg).ctxDone
              rw [dispatch_ctxDone, dispatch_ctxDone]; exact h.ctxDone
            · show (Chatcore.dispatch _ msg).input = (Chatcore.dispatch _ msg).input
              rw [dispatch_input, dispatch_input]
            · show (Chatcore.dispatch _ msg).users = (Chatcore.dispatch _ msg).users
              rw [dispatch_users, dispatch_users]; exact h.users
            · show (Chatcore.dispatch _ msg).done = (Chatcore.dispatch _ msg).done
              rw [dispatch_done, dispatch_done]; exact h.done
            · exact dispatch_chans_congr _ _ msg h.users h.chans
            · show w.loops = if (Chatcore.dispatch _ msg).phase = Phase.Running then 1 else 0
              rw [dispatch_phase]; exact h.loops
            · show (Chatcore.dispatch _ msg).done = true ↔
                (Chatcore.dispatch _ msg).phase = Phase.Stopped
              rw [dispatch_done, dispatch_phase]; exact h.stopped
    · left
      have hl : w.loops = 0 := by rw [h.loops, if_neg hp]
      exact ⟨if_pos (Or.inr hl), if_neg hp⟩
  | send msg pick =>
    have hws : w.step (Action.send msg pick)
        = (SendMessage w.b msg pick).map (fun r => ({ w with b := r.1 } : World)) := if_neg hnp
    have hbs : Chatcore.step b (Action.send msg pick) = (SendMessage b msg pick).map Prod.fst :=
      rfl
    have hsr : sendReady w.b = sendReady b := by
      unfold sendReady
      rw [h.ctxDone, h.input]
    rw [hws, hbs]
    unfold SendMessage
    rw [hsr]
    cases hsel : selectReady (sendReady b) pick with
    | none => left; exact ⟨rfl, rfl⟩
    | some sc =>
      right
      cases sc with
      | ctxDone => exact ⟨_, _, rfl, rfl, h⟩
      | sendInput =>
        refine ⟨_, _, rfl, rfl, ?_⟩
        refine ⟨h.ctxDone, ?_, h.users, h.done, h.chans, h.isOpen, h.noRecv, h.loops, h.noPanic,
          h.stopped⟩
        show w.b.input ++ [msg] = b.input ++ [msg]
        rw [h.input]
  | register userID recv =>
    right
    refine ⟨{ w with b := RegisterUser w.b userID recv }, RegisterUser b userID recv,
      if_neg hnp, rfl, ?_⟩
    refine ⟨h.ctxDone, h.input, ?_, h.done, h.chans, h.isOpen, h.noRecv, h.loops, h.noPanic,
      h.stopped⟩
    show (userID, recv) :: w.b.users.filter _ = (userID, recv) :: b.users.filter _
    rw [h.users]
  | unregister userID =>
    right
    refine ⟨{ w with b := UnregisterUser w.b userID }, UnregisterUser b userID,
      if_neg hnp, rfl, ?_⟩
    refine ⟨h.ctxDone, h.input, ?_, h.done, h.chans, h.isOpen, h.noRecv, h.loops, h.noPanic,
      h.stopped⟩
    show w.b.users.filter _ = b.users.filter _
    rw [h.users]

theorem step_created (b b1 : Broker) (a : Action) (h : step b a = some b1)
    (ha : a ≠ Action.run) (hc : b.phase = Phase.Created) : b1.phase = Phase.Created := by
  cases a with
  | cancel => cases h; exact hc
  | run => exact absurd rfl ha
  | iter pick => simp [step, hc] at h
  | send msg pick =>
    obtain ⟨r, hs, hr⟩ := Option.map_eq_some'.mp h
    rcases SendMessage_cases b msg pick r hs with ⟨_, hr'⟩ | ⟨_, hr'⟩ <;> subst hr' <;>
      subst hr <;> exact hc
  | register userID recv => cases h; exact hc
  | unregister userID => cases h; exact hc

/-- Every execution of a broker is an execution of the world it stands for. -/
theorem World.exec_of_exec (acts : List Action) :
    ∀ (w : World) (b b1 : Broker), w.Matches b → Chatcore.exec b acts = some b1 →
      ∃ w1, w.exec acts = some w1 ∧ w1.Matches b1 := by
  induction acts with
  | nil =>
    intro w b b1 h he
    cases he
    exact ⟨w, rfl, h⟩
  | cons a rest ih =>
    intro w b b1 h he
    unfold Chatcore.exec at he
    obtain ⟨b2, hs, he2⟩ := Option.bind_eq_some.mp he
    have hr : a = Action.run → b.phase = Phase.Created := by
      intro ha
      subst ha
      by_cases hc : b.phase = Phase.Created
      · exact hc
      · simp [Chatcore.step, hc] at hs
    rcases w.step_matches b a h hr with ⟨_, hn⟩ | ⟨w2, b3, hws, hbs, hm⟩
    · rw [hn] at hs; cases hs
    · rw [hbs] at hs
      have e : b3 = b2 := Option.some.inj hs
      rw [e] at hm
      obtain ⟨w1, hw1, hm1⟩ := ih w2 b2 b1 hm he2
      refine ⟨w1, ?_, hm1⟩
      unfold World.exec
      rw [hws]
      exact hw1

/-- Every execution of a world in which `Run` is called at most once, and only on
a broker that is `Created`, is an execution of the broker that stands for the
world. -/
theorem World.exec_matches (acts : List Action) :
    ∀ (w : World) (b : Broker) (w1 : World), w.Matches b →
      acts.count Action.run ≤ (if b.phase = Phase.Created then 1 else 0) →
      w.exec acts = some w1 → ∃ b1, Chatcore.exec b acts = some b1 ∧ w1.Matches b1 := by
  induction acts with
  | nil =>
    intro w b w1 h _ he
    cases he
    exact ⟨b, rfl, h⟩
  | cons a rest ih =>
    intro w b w1 h hcount he
    unfold World.exec at he
    obtain ⟨w2, hs, he2⟩ := Option.bind_eq_some.mp he
    have hr : a = Action.run → b.phase = Phase.Created := by
      intro ha
      subst ha
      by_cases hc : b.phase = Phase.Created
      · exact hc
      · rw [if_neg hc] at hcount
        simp at hcount
    rcases w.step_matches b a h hr with ⟨hn, _⟩ | ⟨w3, b2, hws, hbs, hm⟩
    · rw [hn] at hs; cases hs
    · rw [hws] at hs
      have e : w3 = w2 := Option.some.inj hs
      rw [e] at hm hws
      have hcount2 : rest.count Action.run ≤ (if b2.phase = Phase.Created then 1 else 0) := by
        by_cases ha : a = Action.run
        · subst ha
          have hc := hr rfl
          rw [if_pos hc, List.count_cons_self] at hcount
          omega
        · have hcr : (a :: rest).count Action.run = rest.count Action.run :=
            List.count_cons_of_ne (fun h' => ha h'.symm) rest
          rw [hcr] at hcount
          by_cases hc : b.phase = Phase.Created
          · rw [if_pos (step_created b b2 a hbs ha hc)]
            rw [if_pos hc] at hcount
            exact hcount
          · rw [if_neg hc] at hcount
            omega
      obtain ⟨b1, hb1, hm1⟩ := ih w2 b2 w1 hm hcount2 he2
      refine ⟨b1, ?_, hm1⟩
      unfold Chatcore.exec
      rw [hbs]
      exact hb1

/-- The world of a new broker with open channels is matched by the broker. -/
theorem World.ofBroker_matches (ctxDone : Bool) (chans : ChanRef → Chan) :
    (World.ofBroker (NewBroker ctxDone chans)).Matches (NewBroker ctxDone chans) := by
  refine ⟨rfl, rfl, rfl, rfl, rfl, fun _ => rfl, fun _ => rfl, rfl, rfl, ?_⟩
  constructor <;> intro h' <;> cases h'

/-- A private message to a registered, open channel that cannot take a send (no
receiver blocked, buffer full) leaves the world as it was. -/
theorem World.dispatch_private_drops (w : World) (msg : Message) (ch : ChanRef)
    (hp : msg.Broadcast = false) (hreg : lookupUser w.b msg.Recipient = some ch)
    (hopen : w.closed ch = false) (hnr : w.recvq ch = 0)
    (hfull : ¬ (w.b.chans ch).buf.length < (w.b.chans ch).cap) : w.dispatch msg = w := by
  rw [World.dispatch_of_private w msg hp, hreg]
  exact w.selectnbsend_drops ch msg hopen hnr hfull

theorem World.runIter_uncancelled (w : World) (msg : Message) (rest : List Message) (pick : Nat)
    (hctx : w.b.ctxDone = false) (hq : w.b.input = msg :: rest) :
    w.runIter pick = some (World.dispatch { w with b := { w.b with input := rest } } msg) := by
  simp [World.runIter, runReady, hctx, hq, selectReady_singleton]

/-! ## Properties of the broker -/

/-! ## Delivery of a private message (C1) -/

/-- C1, as stated, fails in two ways.  With the recipient's channel closed by its
owner the send panics although the channel has room, and nothing is delivered.
With another identity registered with the recipient's channel object, the
channel of that identity changes too. -/
theorem C1_counterexample_closed_or_shared :
    (privAlice.Broadcast = false ∧
      lookupUser closedAliceWorld.b privAlice.Recipient = some 0 ∧
      (closedAliceWorld.b.chans 0).buf.length < (closedAliceWorld.b.chans 0).cap ∧
      (closedAliceWorld.dispatch privAlice).panicked = true ∧
      (closedAliceWorld.dispatch privAlice).b.chans 0 = closedAliceWorld.b.chans 0 ∧
      (closedAliceWorld.dispatch privAlice).handed 0 = closedAliceWorld.handed 0) ∧
    (lookupUser sharedWorld.b privAlice.Recipient = some 0 ∧
      (sharedWorld.b.chans 0).buf.length < (sharedWorld.b.chans 0).cap ∧
      sharedWorld.closed 0 = false ∧
      "bob" ≠ privAlice.Recipient ∧ lookupUser sharedWorld.b "bob" = some 0 ∧
      (sharedWorld.dispatch privAlice).b.chans 0 ≠ sharedWorld.b.chans 0) := by
  decide

/-- C1 (amended): for a private message whose recipient is registered with channel
`ch`, what `dispatch` does is settled by `ch` alone.  If `ch` is closed, the send
panics and nothing else changes.  If `ch` is open and a receiver is blocked on
it, the message is handed to that receiver, once and unmodified.  If `ch` is
open, no receiver is blocked on it and its buffer has room, the message is
appended to its buffer, once and unmodified.  In both cases of delivery there
is no panic and every other channel object, the registry and the queue are
unchanged, so the channel of every other identity is unchanged unless it is
the recipient's own channel object. -/
theorem C1_private_delivered_once (w : World) (msg : Message) (ch : ChanRef)
    (hpriv : msg.Broadcast = false) (hreg : lookupUser w.b msg.Recipient = some ch) :
    (w.closed ch = true → w.dispatch msg = { w with panicked := true }) ∧
    (w.closed ch = false → 0 < w.recvq ch →
      (w.dispatch msg).handed ch = w.handed ch ++ [msg] ∧
      (w.dispatch msg).recvq ch = w.recvq ch - 1 ∧
      (w.dispatch msg).b.chans ch = w.b.chans ch) ∧
    (w.closed ch = false → w.recvq ch = 0 →
      (w.b.chans ch).buf.length < (w.b.chans ch).cap →
      (w.dispatch msg).b.chans ch = ⟨(w.b.chans ch).buf ++ [msg], (w.b.chans ch).cap⟩ ∧
      (w.dispatch msg).handed ch = w.handed ch ∧ (w.dispatch msg).recvq ch = 0) ∧
    (w.closed ch = false → (w.dispatch msg).panicked = w.panicked) ∧
    (∀ c : ChanRef, c ≠ ch →
      (w.dispatch msg).b.chans c = w.b.chans c ∧ (w.dispatch msg).handed c = w.handed c ∧
      (w.dispatch msg).recvq c = w.recvq c) ∧
    (∀ (id : String) (c : ChanRef), id ≠ msg.Recipient → lookupUser w.b id = some c → c ≠ ch →
      (w.dispatch msg).b.chans c = w.b.chans c ∧ (w.dispatch msg).handed c = w.handed c) ∧
    (w.dispatch msg).b.users = w.b.users ∧ (w.dispatch msg).b.input = w.b.input ∧
    (w.dispatch msg).closed = w.closed := by
  have hd : w.dispatch msg = w.selectnbsend ch msg := by
    rw [World.dispatch_of_private w msg hpriv, hreg]
  rw [hd]
  obtain ⟨fc, fu, fi, _, _, _, fo⟩ := w.selectnbsend_frame ch msg
  refine ⟨fun hc => w.selectnbsend_panics ch msg hc, ?_, ?_, ?_,
    fun c hne => ⟨(fo c hne).1, (fo c hne).2.2, (fo c hne).2.1⟩,
    fun _ c _ _ hne => ⟨(fo c hne).1, (fo c hne).2.2⟩, fu, fi, fc⟩
  · intro hc hr
    rw [w.selectnbsend_handsOff ch msg hc hr]
    simp
  · intro hc hr hroom
    rw [w.selectnbsend_buffers ch msg hc hr hroom]
    simp [hr]
  · intro hc
    rw [World.selectnbsend_panicked, hc]
    simp

/-- Witness of C1: in the alice/bob scenario of open channels bob's private
message is appended to alice's empty buffer and bob's full channel is
untouched; with a receiver blocked on alice's channel the message is handed to
it; with alice's channel closed the send panics. -/
theorem C1_witness_alice :
    (scenarioWorld.dispatch privAlice).b.chans 0 = ⟨[privAlice], 1⟩ ∧
    (scenarioWorld.dispatch privAlice).b.chans 1 = scenarioWorld.b.chans 1 ∧
    (scenarioWorld.dispatch privAlice).panicked = false ∧
    (waitingAliceWorld.dispatch privAlice).handed 0 = [privAlice] ∧
    closedAliceWorld.dispatch privAlice = { closedAliceWorld with panicked := true } := by
  have h := C1_private_delivered_once scenarioWorld privAlice 0 (by decide) (by decide)
  have hw := C1_private_delivered_once waitingAliceWorld privAlice 0 (by decide) (by decide)
  have hc := C1_private_delivered_once closedAliceWorld privAlice 0 (by decide) (by decide)
  exact ⟨(h.2.2.1 (by decide) (by decide) (by decide)).1, (h.2.2.2.2.1 1 (by decide)).1,
    h.2.2.2.1 (by decide), (hw.2.1 (by decide) (by decide)).1, hc.1 (by decide)⟩

/-! ## Broadcast (C2) -/

/-- C3 (defect of the code): with the cancellation signal fired and room in the
queue, both cases of the `select` of `SendMessage` are ready and either may be
taken.  When the cancellation case is taken the call fails with the
broker-closed error and queues nothing; when the send case is taken the call
returns `nil` and the message is at the tail of the queue; and a loop of `Run`
that is still running can then take its receive case and dispatch that
message. -/
theorem C3_send_after_cancel_either_case (w : World) (msg : Message) (pick : Nat)
    (hctx : w.b.ctxDone = true) (hroom : w.b.input.length < inputCap) :
    sendReady w.b = [SendCase.ctxDone, SendCase.sendInput] ∧
    (pick % 2 = 0 → SendMessage w.b msg pick = some (w.b, some errBrokerClosed)) ∧
    (pick % 2 = 1 →
      SendMessage w.b msg pick = some ({ w.b with input := w.b.input ++ [msg] }, none) ∧
      (w.panicked = false →
        w.step (Action.send msg pick)
          = some { w with b := { w.b with input := w.b.input ++ [msg] } }) ∧
      (w.panicked = false → 0 < w.loops → w.b.input = [] →
        w.exec [Action.send msg pick, Action.iter 1]
          = some (World.dispatch { w with b := { w.b with input := [] } } msg))) := by
  have hr := sendReady_cancelled_room w.b hctx hroom
  refine ⟨hr, ?_, ?_⟩
  · intro hp
    unfold SendMessage
    rw [hr, selectReady_pair_even _ _ pick hp]
  · intro hp
    have hs : SendMessage w.b msg pick
        = some ({ w.b with input := w.b.input ++ [msg] }, none) := by
      unfold SendMessage
      rw [hr, selectReady_pair_odd _ _ pick hp]
    have hstep : w.panicked = false →
        w.step (Action.send msg pick)
          = some { w with b := { w.b with input := w.b.input ++ [msg] } } := by
      intro hnp
      simp [World.step, hnp, hs]
    refine ⟨hs, hstep, ?_⟩
    intro hnp hl hq
    have hl' : ¬ w.loops = 0 := by omega
    unfold World.exec
    rw [hstep hnp]
    simp [World.exec, World.step, World.runIter, runReady, hctx, hq, hnp, hl', selectReady]

/-- The failing input of C3: in the alice/bob scenario with the loop running, the
queue empty and the cancellation signal fired, `SendMessage(privAlice)` whose
`select` takes the send case returns `nil`, and the next loop iteration, taking
the receive case, delivers the message to alice's channel. -/
theorem C3_witness_send_after_cancel :
    cancelledIdleWorld.b.ctxDone = true ∧
    (SendMessage cancelledIdleWorld.b privAlice 1).map (fun r => (r.2, r.1.input))
      = some (none, [privAlice]) ∧
    (SendMessage cancelledIdleWorld.b privAlice 0).map (fun r => (r.2, r.1.input))
      = some (some errBrokerClosed, []) ∧
    (cancelledIdleWorld.exec [Action.send privAlice 1, Action.iter 1]).map
        (fun w => (w.b.chans 0, w.panicked))
      = some (⟨[privAlice], 1⟩, false) := by
  have h := C3_send_after_cancel_either_case cancelledIdleWorld privAlice 1 (by decide)
    (by decide)
  have h0 := C3_send_after_cancel_either_case cancelledIdleWorld privAlice 0 (by decide)
    (by decide)
  refine ⟨by decide, ?_, ?_, ?_⟩
  · rw [(h.2.2 (by decide)).1]; rfl
  · rw [h0.2.1 (by decide)]; rfl
  · rw [(h.2.2 (by decide)).2.2 (by decide) (by decide) (by decide)]
    decide

/-! ## Delivery after cancellation (C4) -/

/-- C4 (defect of the code): with the cancellation signal fired and a message
waiting in the queue, both cases of the `select` of the loop of `Run` are ready
and either may be taken.  When the cancellation case is taken, with `done`
open, the loop closes `done` and is left; when the receive case is taken the
waiting message is dispatched, and a private message whose recipient is
registered with an open channel with room is appended to that channel. -/
theorem C4_delivery_after_cancel (w : World) (msg : Message) (rest : List Message) (pick : Nat)
    (hctx : w.b.ctxDone = true) (hq : w.b.input = msg :: rest) :
    runReady w.b = [RunCase.ctxDone, RunCase.recvInput] ∧
    (pick % 2 = 0 → w.b.done = false →
      w.runIter pick = some { w with b := { w.b with done := true }, loops := w.loops - 1 }) ∧
    (pick % 2 = 1 →
      w.runIter pick = some (World.dispatch { w with b := { w.b with input := rest } } msg) ∧
      (w.panicked = false → 0 < w.loops →
        w.step (Action.iter pick)
          = some (World.dispatch { w with b := { w.b with input := rest } } msg)) ∧
      (∀ ch : ChanRef, msg.Broadcast = false → lookupUser w.b msg.Recipient = some ch →
        w.closed ch = false → w.recvq ch = 0 →
        (w.b.chans ch).buf.length < (w.b.chans ch).cap →
        (World.dispatch { w with b := { w.b with input := rest } } msg).b.chans ch
          = ⟨(w.b.chans ch).buf ++ [msg], (w.b.chans ch).cap⟩)) := by
  have hr := runReady_cancelled_queued w.b msg rest hctx hq
  refine ⟨hr, ?_, ?_⟩
  · intro hp hd
    unfold World.runIter
    rw [hr, selectReady_pair_even _ _ pick hp]
    simp [hd]
  · intro hp
    have hi : w.runIter pick
        = some (World.dispatch { w with b := { w.b with input := rest } } msg) := by
      unfold World.runIter
      rw [hr, selectReady_pair_odd _ _ pick hp]
      simp [hq]
    refine ⟨hi, ?_, ?_⟩
    · intro hnp hl
      have hl' : ¬ w.loops = 0 := by omega
      simp [World.step, hnp, hl', hi]
    · intro ch hpriv hreg hopen hnr hroom
      have hd : World.dispatch { w with b := { w.b with input := rest } } msg
          = World.selectnbsend { w with b := { w.b with input := rest } } ch msg := by
        rw [World.dispatch_of_private _ msg hpriv]
        have hreg' : lookupUser ({ w with b := { w.b with input := rest } } : World).b
            msg.Recipient = some ch := hreg
        rw [hreg']
      have hb := World.selectnbsend_buffers ({ w with b := { w.b with input := rest } } : World)
        ch msg hopen hnr hroom
      rw [hd, hb]
      simp

/-- The failing input of C4: in the alice/bob scenario the cancellation signal has
fired while `privAlice` waits in the queue and the loop is running; the
iteration that takes the receive case delivers `privAlice` to alice's channel.
A second call of `Run` on the stopped broker delivers it as well. -/
theorem C4_witness_delivery_after_cancel :
    cancelledWorld.b.ctxDone = true ∧ cancelledWorld.b.input = [privAlice] ∧
    (cancelledWorld.b.chans 0).buf = [] ∧
    (cancelledWorld.exec [Action.iter 1]).map (fun w => (w.b.chans 0, w.panicked))
      = some (⟨[privAlice], 1⟩, false) ∧
    (stoppedWorld.exec [Action.run, Action.iter 1]).map (fun w => (w.b.chans 0, w.panicked))
      = some (⟨[privAlice], 1⟩, false) := by
  have h := C4_delivery_after_cancel cancelledWorld privAlice [] 1 (by decide) (by decide)
  refine ⟨by decide, by decide, by decide, ?_, by decide⟩
  have hs := (h.2.2 (by decide)).2.1 (by decide) (by decide)
  show ((cancelledWorld.step (Action.iter 1)).bind (fun w1 => World.exec w1 [])).map _ = _
  rw [hs]
  decide

/-! ## No delivery after UnregisterUser (C5) -/

/-- C5, as stated, fails when the channel is also registered under another
identity: after `RegisterUser("alice", ch)`, `RegisterUser("bob", ch)` and
`UnregisterUser("alice")` a broadcast is still delivered to `ch`. -/
theorem C5_counterexample_shared_channel :
    ¬ (∀ (b : Broker) (id : String) (c : ChanRef) (msg : Message),
        lookupUser b id = some c → (msg.Broadcast = true ∨ msg.Recipient = id) →
        (dispatch (UnregisterUser b id) msg).chans c = b.chans c) := by
  intro h
  have h1 := h sharedBroker "alice" 0 msgM (by decide) (Or.inl (by decide))
  revert h1
  decide

/-- C5 (amended): after `UnregisterUser(id)` and any further steps other than
`RegisterUser`, the identity `id` has no entry, so a private message with
`Recipient = id` changes nothing; and a channel `c` that was registered under no
identity other than `id` has kept its content and is left unchanged by the
dispatch of any message, broadcast or private. -/
theorem C5_no_delivery_after_unregister (b b' : Broker) (id : String) (c : ChanRef)
    (acts : List Action) (hno : ∀ a ∈ acts, a.isRegister = false)
    (he : exec (UnregisterUser b id) acts = some b') :
    lookupUser b' id = none ∧
    (∀ msg : Message, msg.Broadcast = false → msg.Recipient = id → dispatch b' msg = b') ∧
    ((∀ e ∈ b.users, e.2 = c → e.1 = id) →
      b'.chans c = b.chans c ∧ ∀ msg : Message, (dispatch b' msg).chans c = b.chans c) := by
  have hx := exec_no_register acts id c (UnregisterUser b id) b' hno he
  have hl : lookupUser b' id = none := hx.1 (lookupUser_unregister_self b id)
  refine ⟨hl, ?_, ?_⟩
  · intro msg hp hr
    exact dispatch_private_absent b' msg hp (by rw [hr]; exact hl)
  · intro honly
    have hu : ∀ e ∈ (UnregisterUser b id).users, e.2 ≠ c := by
      intro e he' hc
      have hmem : e ∈ b.users := List.mem_of_mem_filter he'
      have hkey : e.1 = id := honly e hmem hc
      have hf := (List.mem_filter.mp he').2
      simp [hkey] at hf
    obtain ⟨hu', hc'⟩ := hx.2 hu
    have hc'' : b'.chans c = b.chans c := hc'
    refine ⟨hc'', fun msg => ?_⟩
    rw [dispatch_chans_unreferenced b' msg c hu', hc'']

/-- Witness of C5: in the alice/bob scenario, after `UnregisterUser("alice")`
and a `SendMessage`, neither the broadcast `M` nor a private message to alice
reaches alice's former channel, which stays empty. -/
theorem C5_witness_alice_unregistered :
    lookupUser scenarioBroker "alice" = some 0 ∧
    (exec (UnregisterUser scenarioBroker "alice") [Action.send msgM 0]).map
      (fun b' => ((dispatch b' msgM).chans 0, (dispatch b' privAlice).chans 0))
      = some (⟨[], 1⟩, ⟨[], 1⟩) := by
  refine ⟨by decide, ?_⟩
  cases he : exec (UnregisterUser scenarioBroker "alice") [Action.send msgM 0] with
  | none =>
    have hsome : (exec (UnregisterUser scenarioBroker "alice")
      [Action.send msgM 0]).isSome = true := by decide
    rw [he] at hsome
    cases hsome
  | some b' =>
    have h := C5_no_delivery_after_unregister scenarioBroker b' "alice" 0
      [Action.send msgM 0] (by decide) he
    have h2 := (h.2.2 (by decide)).2
    simp only [Option.map_some', h2 msgM, h2 privAlice]
    decide

/-! ## RegisterUser (C6) -/

/-- C6: `RegisterUser(id, c)` always completes, has no error result, and yields a
registry in which `id` is associated with `c` whatever it was associated with
before; registering `id` twice leaves the same broker as the second registration
alone, with a single entry for `id`; the association of every other identity,
the queue and the channels are unchanged. -/
theorem C6_register_last_writer_wins (b : Broker) (id : String) (c c1 : ChanRef) :
    step b (Action.register id c) = some (RegisterUser b id c) ∧
    lookupUser (RegisterUser b id c) id = some c ∧
    (RegisterUser b id c).users.filter (fun e => e.1 == id) = [(id, c)] ∧
    lookupUser (RegisterUser (RegisterUser b id c1) id c) id = some c ∧
    RegisterUser (RegisterUser b id c1) id c = RegisterUser b id c ∧
    (∀ id' : String, id' ≠ id → lookupUser (RegisterUser b id c) id' = lookupUser b id') ∧
    (RegisterUser b id c).chans = b.chans ∧ (RegisterUser b id c).input = b.input := by
  exact ⟨rfl, lookupUser_register_self b id c, RegisterUser_entries b id c,
    lookupUser_register_self _ id c, RegisterUser_twice b id c1 c,
    fun id' hne => lookupUser_register_ne b id id' c hne, rfl, rfl⟩

/-- Witness of C6: re-registering alice with channel 1 in the alice/bob scenario
makes lookup of alice return channel 1 and leaves bob's association alone. -/
theorem C6_witness_reregister :
    lookupUser scenarioBroker "alice" = some 0 ∧
    lookupUser (RegisterUser scenarioBroker "alice" 1) "alice" = some 1 ∧
    lookupUser (RegisterUser scenarioBroker "alice" 1) "bob" = lookupUser scenarioBroker "bob" :=
  ⟨by decide, (C6_register_last_writer_wins scenarioBroker "alice" 1 0).2.1,
    (C6_register_last_writer_wins scenarioBroker "alice" 1 0).2.2.2.2.2.1 "bob" (by decide)⟩

/-! ## Private message to an unregistered recipient (C7) -/

/-- C7: a private message whose recipient is not registered is accepted by
`SendMessage` (before cancellation, with room in the queue) with result `nil`;
its later dispatch, in any state `bd` in which the recipient has no entry,
changes nothing: no channel, not the registry; and the loop iteration that
receives it just removes it from the queue. -/
theorem C7_private_to_unregistered (b bd : Broker) (msg : Message)
    (hpriv : msg.Broadcast = false) (habsent : lookupUser bd msg.Recipient = none) :
    (∀ pick : Nat, b.ctxDone = false → b.input.length < inputCap →
      SendMessage b msg pick = some ({ b with input := b.input ++ [msg] }, none)) ∧
    dispatch bd msg = bd ∧
    (∀ (rest : List Message) (pick : Nat), bd.ctxDone = false → bd.input = msg :: rest →
      runIter bd pick = some { bd with input := rest }) := by
  refine ⟨fun pick hctx hroom => SendMessage_open b msg pick hctx hroom,
    dispatch_private_absent bd msg hpriv habsent, ?_⟩
  intro rest pick hctx hq
  rw [runIter_open bd msg rest pick hctx hq]
  exact congrArg some (dispatch_private_absent { bd with input := rest } msg hpriv habsent)

/-- Witness of C7: carol was never registered in the alice/bob scenario; the
private message to carol is accepted and its dispatch changes nothing. -/
theorem C7_witness_carol :
    lookupUser scenarioBroker privCarol.Recipient = none ∧
    SendMessage scenarioBroker privCarol 0
      = some ({ scenarioBroker with input := scenarioBroker.input ++ [privCarol] }, none) ∧
    dispatch scenarioBroker privCarol = scenarioBroker :=
  ⟨by decide,
    (C7_private_to_unregistered scenarioBroker scenarioBroker privCarol (by decide)
      (by decide)).1 0 (by decide) (by decide),
    (C7_private_to_unregistered scenarioBroker scenarioBroker privCarol (by decide)
      (by decide)).2.1⟩

/-! ## Private message to a full channel (C8) -/

/-- C8, as stated, fails when the recipient's full channel has been closed by its
owner: the send panics, nothing is dropped silently, and the loop never goes
on to the next queued message. -/
theorem C8_counterexample_closed_full_channel :
    fillerMsg.Broadcast = false ∧
    lookupUser closedBobBusyWorld.b fillerMsg.Recipient = some 1 ∧
    ¬ (closedBobBusyWorld.b.chans 1).buf.length < (closedBobBusyWorld.b.chans 1).cap ∧
    closedBobBusyWorld.b.input = [fillerMsg, privAlice] ∧
    closedBobBusyWorld.b.ctxDone = false ∧ closedBobBusyWorld.loops = 1 ∧
    (closedBobBusyWorld.dispatch fillerMsg).panicked = true ∧
    (closedBobBusyWorld.exec [Action.iter 0]).map (fun w => (w.panicked, w.b.input))
      = some (true, [privAlice]) ∧
    (closedBobBusyWorld.exec [Action.iter 0, Action.iter 0]).isSome = false := by
  decide

/-- C8 (amended): a private message whose recipient is registered with an open
channel that cannot take a send (its buffer is full and no receiver is blocked
on it) is dropped: `dispatch` returns, with no blocked outcome and no panic, the
world it was given, so no channel changes; the loop iteration that receives
the message completes, leaving the rest of the queue, and the next iteration
receives and dispatches the next queued message.  With the channel closed,
`dispatch` panics instead; with the channel open and a receiver blocked on it,
as can be on a channel without buffer, the message is handed to the receiver. -/
theorem C8_private_to_full_dropped (w : World) (msg : Message) (ch : ChanRef)
    (hpriv : msg.Broadcast = false) (hreg : lookupUser w.b msg.Recipient = some ch)
    (hfull : ¬ (w.b.chans ch).buf.length < (w.b.chans ch).cap) :
    (w.closed ch = false → w.recvq ch = 0 →
      w.dispatch msg = w ∧
      (∀ c : ChanRef, (w.dispatch msg).b.chans c = w.b.chans c ∧
        (w.dispatch msg).handed c = w.handed c) ∧
      (∀ (rest : List Message) (pick : Nat), w.b.ctxDone = false → w.b.input = msg :: rest →
        w.runIter pick = some { w with b := { w.b with input := rest } } ∧
        (w.panicked = false → 0 < w.loops →
          w.step (Action.iter pick) = some { w with b := { w.b with input := rest } }) ∧
        ∀ (next : Message) (rest' : List Message) (pick' : Nat), rest = next :: rest' →
          World.runIter { w with b := { w.b with input := rest } } pick'
            = some (World.dispatch { w with b := { w.b with input := rest' } } next))) ∧
    (w.closed ch = true → w.dispatch msg = { w with panicked := true }) ∧
    (w.closed ch = false → 0 < w.recvq ch →
      (w.dispatch msg).handed ch = w.handed ch ++ [msg]) := by
  refine ⟨?_, ?_, ?_⟩
  · intro hopen hnr
    have hd := w.dispatch_private_drops msg ch hpriv hreg hopen hnr hfull
    refine ⟨hd, fun c => by rw [hd]; exact ⟨rfl, rfl⟩, ?_⟩
    intro rest pick hctx hq
    have hi : w.runIter pick = some { w with b := { w.b with input := rest } } := by
      rw [w.runIter_uncancelled msg rest pick hctx hq]
      exact congrArg some
        (World.dispatch_private_drops { w with b := { w.b with input := rest } } msg ch hpriv
          hreg hopen hnr hfull)
    refine ⟨hi, ?_, ?_⟩
    · intro hnp hl
      have hl' : ¬ w.loops = 0 := by omega
      simp [World.step, hnp, hl', hi]
    · intro next rest' pick' hr
      exact World.runIter_uncancelled { w with b := { w.b with input := rest } } next rest' pick'
        hctx hr
  · intro hc
    rw [World.dispatch_of_private w msg hpriv, hreg]
    exact w.selectnbsend_panics ch msg hc
  · intro hc hr
    have hd : w.dispatch msg = w.selectnbsend ch msg := by
      rw [World.dispatch_of_private w msg hpriv, hreg]
    rw [hd, w.selectnbsend_handsOff ch msg hc hr]
    simp

/-- Witness of C8: bob's channel is full and open in the alice/bob scenario, with
no receiver blocked on it; a private message to bob is dropped and bob's
channel keeps its one old message; the loop iteration that receives it leaves
the message for alice at the head of the queue; and carol's channel without
buffer, on which a receiver is blocked, takes a private message to carol. -/
theorem C8_witness_bob_full :
    lookupUser scenarioWorld.b fillerMsg.Recipient = some 1 ∧
    (scenarioWorld.b.chans 1).buf.length = (scenarioWorld.b.chans 1).cap ∧
    (scenarioWorld.dispatch fillerMsg).b.chans 1 = ⟨[fillerMsg], 1⟩ ∧
    busyWorld.step (Action.iter 0)
      = some { busyWorld with b := { busyWorld.b with input := [privAlice] } } ∧
    (unbufferedWorld.dispatch privCarol).handed 2 = [privCarol] := by
  refine ⟨by decide, by decide, ?_,
    (((C8_private_to_full_dropped busyWorld fillerMsg 1 (by decide) (by decide)
      (by decide)).1 (by decide) (by decide)).2.2 [privAlice] 0 (by decide) rfl).2.1
      (by decide) (by decide),
    (C8_private_to_full_dropped unbufferedWorld privCarol 2 (by decide) (by decide)
      (by decide)).2.2 (by decide) (by decide)⟩
  rw [(((C8_private_to_full_dropped scenarioWorld fillerMsg 1 (by decide) (by decide)
    (by decide)).1 (by decide) (by decide)).2.1 1).1]
  decide

/-! ## UnregisterUser (C9) -/

/-- C9: `UnregisterUser(id)` always completes and has no error result; when `id`
has no entry the broker afterwards equals the broker before; otherwise exactly
the entries of `id` are removed: `id` has no entry afterwards, the entries of
the other identities are those from before, and the queue and the channels are
unchanged. -/
theorem C9_unregister (b : Broker) (id : String) :
    step b (Action.unregister id) = some (UnregisterUser b id) ∧
    (lookupUser b id = none → UnregisterUser b id = b) ∧
    lookupUser (UnregisterUser b id) id = none ∧
    (∀ id' : String, id' ≠ id → lookupUser (UnregisterUser b id) id' = lookupUser b id') ∧
    (∀ e : String × ChanRef, e ∈ (UnregisterUser b id).users ↔ e ∈ b.users ∧ e.1 ≠ id) ∧
    (UnregisterUser b id).chans = b.chans ∧ (UnregisterUser b id).input = b.input := by
  refine ⟨rfl, ?_, lookupUser_unregister_self b id,
    fun id' hne => lookupUser_unregister_ne b id id' hne, ?_, rfl, rfl⟩
  · intro hl
    show { b with users := b.users.filter (fun e => e.1 != id) } = b
    rw [filter_eq_self_of_lookup_none b.users id hl]
  · intro e
    simp [UnregisterUser, List.mem_filter]

/-- Witness of C9: unregistering carol, who has no entry, leaves the alice/bob
broker as it is; unregistering bob removes bob and keeps alice. -/
theorem C9_witness_carol_bob :
    lookupUser scenarioBroker "carol" = none ∧
    UnregisterUser scenarioBroker "carol" = scenarioBroker ∧
    lookupUser (UnregisterUser scenarioBroker "bob") "alice" = some 0 := by
  refine ⟨by decide, (C9_unregister scenarioBroker "carol").2.1 (by decide), ?_⟩
  rw [(C9_unregister scenarioBroker "bob").2.2.2.1 "alice" (by decide)]
  decide

/-! ## Dispatch in arrival order (C10) -/

/-- C11: the inbound queue has capacity 100; every broker reached from
`NewBroker` holds at most 100 queued messages; a `SendMessage` that returns
`nil` found room and appended exactly its message at the tail of the queue; with
100 or more messages queued `SendMessage` never returns `nil`: it is blocked
while the cancellation signal has not fired and fails with the broker-closed
error, leaving the queue as it is, once it has; and nothing is dropped from the
queue: along every execution the queued and accepted messages are exactly the
dispatched ones followed by those still queued. -/
theorem C11_bounded_queue (b : Broker) (msg : Message) (pick : Nat) :
    inputCap = 100 ∧
    (∀ (ctxDone : Bool) (chans : ChanRef → Chan) (acts : List Action) (b' : Broker),
      exec (NewBroker ctxDone chans) acts = some b' → b'.input.length ≤ 100) ∧
    (∀ b1 : Broker, SendMessage b msg pick = some (b1, none) →
      b.input.length < 100 ∧ b1 = { b with input := b.input ++ [msg] }) ∧
    (100 ≤ b.input.length →
      (∀ b1 : Broker, SendMessage b msg pick ≠ some (b1, none)) ∧
      (b.ctxDone = false → SendMessage b msg pick = none) ∧
      (b.ctxDone = true → SendMessage b msg pick = some (b, some errBrokerClosed))) ∧
    (∀ (acts : List Action) (b' : Broker), exec b acts = some b' →
      b.input ++ accepted b acts = dispatched b acts ++ b'.input) := by
  refine ⟨rfl, ?_, ?_, ?_, fun acts b' he => (exec_fifo acts b b' he).1⟩
  · intro ctxDone chans acts b' he
    exact exec_input_bounded acts _ b' he (by simp [NewBroker])
  · intro b1 h
    rcases SendMessage_cases b msg pick _ h with ⟨_, hr⟩ | ⟨hroom, hr⟩
    · cases hr
    · exact ⟨hroom, (Prod.mk.inj hr).1⟩
  · intro hfull
    have hnot : ¬ b.input.length < inputCap := by
      show ¬ b.input.length < 100
      omega
    refine ⟨?_, fun hctx => SendMessage_blocked b msg pick hctx hnot,
      fun hctx => SendMessage_cancelled_full b msg pick hctx hnot⟩
    intro b1 h
    rcases SendMessage_cases b msg pick _ h with ⟨_, hr⟩ | ⟨hroom, _⟩
    · cases hr
    · exact hnot hroom

/-- Witness of C11: with 100 messages queued in the sample broker, which 100
accepted calls of `SendMessage` produce, a further `SendMessage` is blocked;
with an empty queue it is accepted. -/
theorem C11_witness_full_queue :
    100 ≤ fullBroker.input.length ∧ fullBroker.ctxDone = false ∧
    SendMessage fullBroker msgM 0 = none ∧
    scenarioBroker.input.length < 100 ∧
    fullBroker.input.length ≤ 100 := by
  have h := C11_bounded_queue fullBroker msgM 0
  exact ⟨by decide, by decide, (h.2.2.2.1 (by decide)).2.1 (by decide),
    ((C11_bounded_queue scenarioBroker msgM 0).2.2.1 _
      (SendMessage_open scenarioBroker msgM 0 (by decide) (by decide))).1,
    h.2.1 false sampleHeap _ fullBroker fullBroker_reachable_new⟩

/-! ## Dispatch only appends (C12) -/

/-- C12, as stated, fails when a channel is registered under two identities:
after `RegisterUser("alice", ch)` and `RegisterUser("bob", ch)` with `ch` of
capacity 2, one broadcast writes two copies of the message to `ch`. -/
theorem C12_counterexample_two_copies :
    ¬ (∀ (b : Broker) (msg : Message) (id : String) (c : ChanRef),
        lookupUser b id = some c →
        (dispatch b msg).chans c = b.chans c ∨
        (dispatch b msg).chans c = ⟨(b.chans c).buf ++ [msg], (b.chans c).cap⟩) := by
  intro h
  have h1 := h roomyShared msgM "alice" 0 (by decide)
  revert h1
  decide

/-- C12 (amended): a dispatch only appends to channels: the content of every
channel afterwards is its content before followed by copies of the dispatched
message and nothing else, its capacity is the same, and registry, queue and
signals are untouched; the number of copies is at most the number of registry
entries that refer to the channel object, and at most one for a private message,
so a subscriber whose channel is registered under one identity only gets, from
any dispatch, nothing or exactly one copy. -/
theorem C12_append_only (b : Broker) (msg : Message) (c : ChanRef) :
    (∃ k : Nat, k ≤ copies b.users c ∧ (msg.Broadcast = false → k ≤ 1) ∧
      (dispatch b msg).chans c = ⟨(b.chans c).buf ++ List.replicate k msg, (b.chans c).cap⟩) ∧
    (copies b.users c ≤ 1 ∨ msg.Broadcast = false →
      (dispatch b msg).chans c = b.chans c ∨
      (dispatch b msg).chans c = ⟨(b.chans c).buf ++ [msg], (b.chans c).cap⟩) ∧
    (dispatch b msg).users = b.users ∧ (dispatch b msg).input = b.input ∧
    (dispatch b msg).ctxDone = b.ctxDone ∧ (dispatch b msg).done = b.done := by
  obtain ⟨k, hk, _, hp, he⟩ := dispatch_chans_copies b msg c
  refine ⟨⟨k, hk, hp, he⟩, ?_, dispatch_users b msg, dispatch_input b msg,
    dispatch_ctxDone b msg, dispatch_done b msg⟩
  intro h1
  have hk1 : k ≤ 1 := by
    rcases h1 with h1 | h1
    · omega
    · exact hp h1
  rw [he]
  rcases Nat.le_one_iff_eq_zero_or_eq_one.mp hk1 with h0 | h0
  · left; rw [h0]; simp
  · right; rw [h0]; simp

/-- Witness of C12: in the alice/bob scenario each channel is registered once;
the broadcast `M` puts exactly one copy into alice's channel and leaves bob's
full channel as it is. -/
theorem C12_witness_alice_bob :
    copies scenarioBroker.users 0 ≤ 1 ∧
    ((dispatch scenarioBroker msgM).chans 0 = scenarioBroker.chans 0 ∨
      (dispatch scenarioBroker msgM).chans 0
        = ⟨(scenarioBroker.chans 0).buf ++ [msgM], (scenarioBroker.chans 0).cap⟩) ∧
    (dispatch scenarioBroker msgM).chans 0 = ⟨[msgM], 1⟩ :=
  ⟨by decide, (C12_append_only scenarioBroker msgM 0).2.1 (Or.inl (by decide)), by decide⟩

/-! ## Lifecycle of the Run loop (C13) -/

/-- C13, as stated, fails: `Run` has no guard against a second call.  On the
stopped broker of the alice/bob scenario, where the first call of `Run` has
closed `done` and returned and `privAlice` is left in the queue, a second call
of `Run` enters the loop again; its iteration that takes the receive case
delivers `privAlice` to alice's channel, and its iteration that takes the
cancellation case reaches `close(b.done)` a second time, which panics. -/
theorem C13_counterexample_second_run :
    stoppedWorld.b.done = true ∧ stoppedWorld.loops = 0 ∧ stoppedWorld.b.ctxDone = true ∧
    (stoppedWorld.exec [Action.run]).map (fun w => (w.loops, w.panicked)) = some (1, false) ∧
    (stoppedWorld.exec [Action.run, Action.iter 1]).map
        (fun w => (w.b.chans 0, w.loops, w.panicked))
      = some (⟨[privAlice], 1⟩, 1, false) ∧
    (stoppedWorld.exec [Action.run, Action.iter 0]).map (fun w => w.panicked) = some true ∧
    (stoppedWorld.exec [Action.run, Action.iter 1, Action.iter 0]).map (fun w => w.panicked)
      = some true := by
  decide

/-- C13 (amended): a step closes `done`, and a call of `Run` leaves its loop, only
as the iteration of a running loop that takes the cancellation case of the
`select`, with the cancellation signal fired.  While the signal has not fired
no step closes `done` or ends a loop: on an empty queue the iteration waits,
and an iteration that dispatches, delivered or dropped, stays in the loop.
Once closed, `done` stays closed, and along every execution it is closed
successfully at most once.  The stopped broker stays stopped as long as `Run`
is not called again: in an execution without a further call of `Run`, starting
with no loop running, no loop runs, `done` is left alone and no channel
changes.  A further call of `Run` enters the loop again, and its iteration that
takes the cancellation case panics at the second `close(b.done)`, after which
the program takes no step.  A call of `Run`, run on its own, returns only with
the signal fired and `done` closed by it, does not return while the signal
has not fired, and returns when it takes the cancellation case with `done`
open. -/
theorem C13_lifecycle (w : World) :
    (∀ (a : Action) (w1 : World), w.step a = some w1 →
      (w.b.done = false ∧ w1.b.done = true) ∨ w1.loops < w.loops →
      ∃ pick, a = Action.iter pick ∧ w.b.ctxDone = true ∧ w.b.done = false ∧ 0 < w.loops ∧
        selectReady (runReady w.b) pick = some RunCase.ctxDone ∧ w.closesDone a = true ∧
        w1 = { w with b := { w.b with done := true }, loops := w.loops - 1 }) ∧
    (∀ (a : Action) (w1 : World), w.step a = some w1 → w.b.ctxDone = false →
      w1.b.done = w.b.done ∧ w.loops ≤ w1.loops) ∧
    (∀ pick : Nat, w.b.ctxDone = false → w.b.input = [] → w.runIter pick = none) ∧
    (∀ (acts : List Action) (w1 : World), w.b.done = true → w.exec acts = some w1 →
      w1.b.done = true ∧ w.doneCloses acts = 0) ∧
    (∀ acts : List Action, w.doneCloses acts ≤ 1) ∧
    (∀ (acts : List Action) (w1 : World), Action.run ∉ acts → w.loops = 0 →
      w.exec acts = some w1 →
      w1.loops = 0 ∧ w1.b.done = w.b.done ∧ w1.b.chans = w.b.chans ∧ w1.handed = w.handed) ∧
    (w.panicked = false → w.step Action.run = some { w with loops := w.loops + 1 }) ∧
    (∀ pick : Nat, w.panicked = false → 0 < w.loops → w.b.done = true →
      selectReady (runReady w.b) pick = some RunCase.ctxDone →
      w.step (Action.iter pick) = some { w with panicked := true }) ∧
    (∀ a : Action, w.panicked = true → w.step a = none) ∧
    (∀ (picks : List Nat) (w1 : World), w.Run picks = some w1 →
      w.b.ctxDone = true ∧ w.b.done = false ∧ w1.b.done = true ∧ w1.loops = w.loops - 1) ∧
    (∀ picks : List Nat, w.b.ctxDone = false → w.Run picks = none) ∧
    (∀ (pick : Nat) (picks : List Nat),
      selectReady (runReady w.b) pick = some RunCase.ctxDone → w.b.done = false →
      w.Run (pick :: picks)
        = some { w with b := { w.b with done := true }, loops := w.loops - 1 }) := by
  refine ⟨?_, ?_, ?_, ?_, ?_, ?_, ?_, ?_, ?_, ?_, ?_, ?_⟩
  · intro a w1 h hch
    rcases w.step_lifecycle w1 a h with ⟨h1, h2, _, _⟩ | hx
    · rcases hch with ⟨hd, hd1⟩ | hl
      · rw [h1, hd] at hd1; cases hd1
      · omega
    · exact hx
  · intro a w1 h hctx
    rcases w.step_lifecycle w1 a h with ⟨h1, h2, _, _⟩ | ⟨_, _, hctx', _⟩
    · exact ⟨h1, h2⟩
    · rw [hctx] at hctx'; cases hctx'
  · intro pick hctx hq
    simp [World.runIter, runReady, hctx, hq, selectReady_nil]
  · intro acts w1 hd he
    refine ⟨World.exec_done_mono acts w w1 he hd, ?_⟩
    have hb := World.doneCloses_bound acts w
    rw [if_pos hd] at hb
    omega
  · intro acts
    have hb := World.doneCloses_bound acts w
    split at hb <;> omega
  · intro acts w1 hnr hl he
    obtain ⟨i1, i2, i3, i4, _⟩ := World.exec_no_run acts w w1 hnr hl he
    exact ⟨i1, i2, i3, i4⟩
  · intro hnp
    simp [World.step, hnp]
  · intro pick hnp hl hd hsel
    have hl' : ¬ w.loops = 0 := by omega
    simp [World.step, World.runIter, hnp, hl', hsel, hd]
  · intro a hp
    cases a <;> simp [World.step, hp]
  · intro picks w1 h
    obtain ⟨h1, h2, _, h4, h5⟩ := World.Run_returns picks w w1 h
    exact ⟨h1, h2, h4, h5⟩
  · intro picks hctx
    exact World.Run_uncancelled picks w hctx
  · intro pick picks hsel hd
    exact w.Run_cancelled pick picks hsel hd

/-- Witness of C13: in the alice/bob scenario the running loop waits on an empty
queue without cancellation; once cancelled, the iteration that takes the
cancellation case closes `done` and leaves the loop, and so `Run` returns;
from the stopped broker, without a further call of `Run`, no iteration can
proceed and a later `SendMessage` closes nothing; after a further call of
`Run` the cancellation case panics. -/
theorem C13_witness_lifecycle :
    World.runIter { World.ofBroker runningIdle with loops := 1 } 0 = none ∧
    (cancelledWorld.b.ctxDone = true ∧ cancelledWorld.closesDone (Action.iter 0) = true) ∧
    cancelledWorld.Run [0]
      = some { cancelledWorld with
          b := { cancelledWorld.b with done := true }, loops := cancelledWorld.loops - 1 } ∧
    stoppedWorld.step (Action.iter 0) = none ∧
    stoppedWorld.doneCloses [Action.send msgM 1] = 0 ∧
    World.step { stoppedWorld with loops := 1 } (Action.iter 0)
      = some { stoppedWorld with loops := 1, panicked := true } := by
  have h1 := (C13_lifecycle cancelledWorld).1 (Action.iter 0)
    { cancelledWorld with b := { cancelledWorld.b with done := true }, loops := 0 } rfl
    (Or.inl ⟨by decide, by decide⟩)
  obtain ⟨pick, _, h1c, _⟩ := h1
  have h3 := (C13_lifecycle stoppedWorld).2.2.2.1 [Action.send msgM 1] _ (by decide) rfl
  have h4 := (C13_lifecycle ({ stoppedWorld with loops := 1 } : World)).2.2.2.2.2.2.2.1 0
    (by decide) (by decide) (by decide) (by decide)
  have h5 := (C13_lifecycle cancelledWorld).2.2.2.2.2.2.2.2.2.2.2 0 [] (by decide) (by decide)
  exact ⟨(C13_lifecycle _).2.2.1 0 (by decide) (by decide), ⟨h1c, by decide⟩, h5,
    rfl, h3.2, h4⟩

/-! ## Registry under concurrent calls (C14) -/

/-- C14: in every interleaving of the statements of concurrent `RegisterUser`,
`UnregisterUser` and `dispatch` calls, a goroutine that holds the mutex by
`Lock` excludes every reader and every other writer; the registry is the result
of the map writes that have run, each once, in the order in which they ran; and
while a dispatch holds the read lock, from `RLock` through lookup or broadcast
loop to `RUnlock`: the writes that have run are exactly those of the register
and unregister calls that have returned, the registry equals the one the
dispatch found when it took the lock, no statement of any goroutine changes it,
and the entries the dispatch has read are entries of that one registry, in its
order. -/
theorem C14_registry_consistent (b : Broker) (calls : List Call) (sched : List Nat) (s : Sys)
    (h : sysRun (sysInit b calls) sched = some s) :
    (∀ (t t' : Nat) (g g' : Goroutine), s.gs t = some g → s.gs t' = some g' →
      inWrite g = true → inRead g' = false ∧ (inWrite g' = true → t' = t)) ∧
    (s.sh.history.Nodup ∧
      (∀ t : Nat, t ∈ s.sh.history ↔ ∃ g, s.gs t = some g ∧ written g = true) ∧
      s.sh.b.users = replay b.users calls s.sh.history) ∧
    (∀ (t : Nat) (g : Goroutine), s.gs t = some g → inRead g = true →
      (∀ t' : Nat, t' ∈ s.sh.history ↔ ∃ g', s.gs t' = some g' ∧ completedWrite g' = true) ∧
      g.snap = s.sh.b.users ∧ g.snap = replay b.users calls s.sh.history ∧
      (∀ (t' : Nat) (s1 : Sys), sysStep s t' = some s1 → s1.sh.b.users = s.sh.b.users)) ∧
    (∀ (t : Nat) (g : Goroutine), s.gs t = some g → seenOk g) := by
  have hinv := sysRun_inv b.users calls sched _ s (sysInit_inv b calls) h
  refine ⟨?_, ⟨hinv.histNodup, hinv.hist, hinv.lin⟩, ?_, hinv.seen⟩
  · intro t t' g g' hg hg' hw
    obtain ⟨hwr, _, hnr⟩ := no_reader_of_writer b.users calls s hinv t g hg hw
    refine ⟨hnr t' g' hg', fun hw' => ?_⟩
    have hwr' := (no_reader_of_writer b.users calls s hinv t' g' hg' hw').1
    rw [hwr] at hwr'
    exact (Option.some.inj hwr').symm
  · intro t g hg hr
    have hsnap := hinv.snapOk t g hg hr
    refine ⟨?_, hsnap, by rw [hsnap]; exact hinv.lin, ?_⟩
    · intro t'
      rw [hinv.hist t']
      constructor
      · rintro ⟨g', hg', hw'⟩
        exact ⟨g', hg', by
          rw [← written_completed_of_reader b.users calls s hinv t g hg hr t' g' hg']; exact hw'⟩
      · rintro ⟨g', hg', hw'⟩
        exact ⟨g', hg', by
          rw [written_completed_of_reader b.users calls s hinv t g hg hr t' g' hg']; exact hw'⟩
    · intro t' s1 hs
      rcases sysStep_users s s1 t' hs with hu | ⟨g', hg', hw'⟩
      · exact hu
      · have := (no_reader_of_writer b.users calls s hinv t' g' hg' hw').2.2 t g hg
        rw [hr] at this
        cases this

/-- Witness of C14: carol has been registered and the broadcast is in its loop
under the read lock; the unregistration of bob cannot take the lock; the
dispatch sees the registry with carol, the result of the one completed call,
and has read its first entry. -/
theorem C14_witness_race :
    sysRun (sysInit scenarioBroker raceCalls) raceSched = some raceSys ∧
    raceSys.gs 0 = some raceReader ∧ inRead raceReader = true ∧
    raceSys.sh.history = [1] ∧
    (sysStep raceSys 2).isSome = false ∧
    raceSys.sh.b.users = [("carol", 2), ("bob", 1), ("alice", 0)] ∧
    raceReader.snap = replay scenarioBroker.users raceCalls raceSys.sh.history := by
  have hg : raceSys.gs 0 = some raceReader := by decide
  have h := C14_registry_consistent scenarioBroker raceCalls raceSched raceSys rfl
  have h0 := h.2.2.1 0 raceReader hg (by decide)
  exact ⟨rfl, hg, by decide, by decide, by decide, h0.2.1.symm, h0.2.2.1⟩

end Chatcore

namespace UserPkg

/-! ## Auxiliary lemmas on the user manager -/

theorem hasInnerDot_iff (cs : List Char) :
    hasInnerDot cs = true ↔ ∃ B C : List Char, B ≠ [] ∧ C ≠ [] ∧ cs = B ++ '.' :: C := by
  constructor
  · intro h
    cases cs with
    | nil => simp [hasInnerDot] at h
    | cons r0 t =>
      simp only [hasInnerDot, List.drop_succ_cons, List.drop_zero] at h
      have hm : '.' ∈ t.dropLast := by simpa using h
      have htne : t ≠ [] := by
        intro h0; rw [h0] at hm; simp at hm
      obtain ⟨X, Y, hXY⟩ := List.append_of_mem hm
      obtain ⟨l, hl⟩ : ∃ l, t = t.dropLast ++ [l] :=
        ⟨t.getLast htne, (List.dropLast_append_getLast htne).symm⟩
      refine ⟨r0 :: X, Y ++ [l], by simp, by simp, ?_⟩
      rw [hXY] at hl
      rw [hl]
      simp
  · rintro ⟨B, C, hB, hC, rfl⟩
    cases B with
    | nil => exact absurd rfl hB
    | cons b0 B' =>
      simp only [hasInnerDot, List.cons_append, List.drop_succ_cons, List.drop_zero]
      have hne : ('.' :: C) ≠ [] := by simp
      rw [List.dropLast_append_of_ne_nil _ hne]
      have : ('.' :: C).dropLast = '.' :: C.dropLast := by
        cases C with
        | nil => exact absurd rfl hC
        | cons c0 C' => rfl
      rw [this]
      simp

theorem isPlain_at : isPlain '@' = false := by decide

theorem isPlain_dot : isPlain '.' = true := by decide

theorem dropWhile_plain_append (A rest : List Char) (hA : ∀ c ∈ A, isPlain c = true) :
    (A ++ '@' :: rest).dropWhile isPlain = '@' :: rest := by
  induction A with
  | nil => simp [List.dropWhile_cons, isPlain_at]
  | cons a A ih =>
    have ha : isPlain a = true := hA a (List.mem_cons_self _ _)
    simp only [List.cons_append, List.dropWhile_cons, ha, if_true]
    exact ih (fun c hc => hA c (List.mem_cons_of_mem _ hc))

theorem takeWhile_plain_append (A rest : List Char) (hA : ∀ c ∈ A, isPlain c = true) :
    (A ++ '@' :: rest).takeWhile isPlain = A := by
  induction A with
  | nil => simp [List.takeWhile_cons, isPlain_at]
  | cons a A ih =>
    have ha : isPlain a = true := hA a (List.mem_cons_self _ _)
    simp only [List.cons_append, List.takeWhile_cons, ha, if_true]
    rw [ih (fun c hc => hA c (List.mem_cons_of_mem _ hc))]

/-- The matcher decides the language of `^[^@\s]+@[^@\s]+\.[^@\s]+$`: three
non-empty runs of plain characters, separated by an `@` and a `.`. -/
theorem matchEmail_iff (cs : List Char) :
    matchEmail cs = true ↔
      ∃ A B C : List Char, A ≠ [] ∧ B ≠ [] ∧ C ≠ [] ∧ (∀ c ∈ A, isPlain c = true) ∧
        (∀ c ∈ B, isPlain c = true) ∧ (∀ c ∈ C, isPlain c = true) ∧
        cs = A ++ '@' :: (B ++ '.' :: C) := by
  constructor
  · intro h
    unfold matchEmail at h
    split at h
    · next rest hd =>
      simp only [Bool.and_eq_true, Bool.not_eq_true', List.all_eq_true] at h
      obtain ⟨⟨hA, hall⟩, hdot⟩ := h
      obtain ⟨B, C, hB, hC, hrest⟩ := (hasInnerDot_iff rest).mp hdot
      refine ⟨cs.takeWhile isPlain, B, C, ?_, hB, hC, ?_, ?_, ?_, ?_⟩
      · intro h0; rw [h0] at hA; simp at hA
      · intro c hc; exact List.mem_takeWhile_imp hc
      · intro c hc; exact hall c (by rw [hrest]; simp [hc])
      · intro c hc; exact hall c (by rw [hrest]; simp [hc])
      · rw [← hrest, ← hd, List.takeWhile_append_dropWhile]
    · cases h
  · rintro ⟨A, B, C, hA, hB, hC, pA, pB, pC, rfl⟩
    unfold matchEmail
    rw [dropWhile_plain_append A _ pA, takeWhile_plain_append A _ pA]
    simp only [Bool.and_eq_true, Bool.not_eq_true', List.all_eq_true]
    refine ⟨⟨by cases A <;> simp_all, ?_⟩, (hasInnerDot_iff _).mpr ⟨B, C, hB, hC, rfl⟩⟩
    intro c hc
    rcases List.mem_append.mp hc with h1 | h1
    · exact pB c h1
    · rcases List.mem_cons.mp h1 with h2 | h2
      · rw [h2]; exact isPlain_dot
      · exact pC c h2

theorem users_lookup_filter_ne {β : Type} (es : List (String × β)) (id id' : String)
    (hne : id' ≠ id) : (es.filter (fun e => e.1 != id)).lookup id' = es.lookup id' := by
  induction es with
  | nil => rfl
  | cons e es ih =>
    obtain ⟨k, v⟩ := e
    by_cases hk : k = id
    · subst hk
      have : (id' == k) = false := by simpa using hne
      simp [List.filter_cons, List.lookup_cons, this, ih]
    · by_cases hk' : id' = k
      · simp [List.filter_cons, hk, List.lookup_cons, hk']
      · have : (id' == k) = false := by simpa using hk'
        simp [List.filter_cons, hk, List.lookup_cons, this, ih]

theorem users_filter_eq_self {β : Type} (es : List (String × β)) (id : String)
    (h : es.lookup id = none) : es.filter (fun e => e.1 != id) = es := by
  induction es with
  | nil => rfl
  | cons e es ih =>
    obtain ⟨k, v⟩ := e
    by_cases hk : id = k
    · simp [List.lookup_cons, hk] at h
    · have hb : (id == k) = false := by simpa using hk
      simp only [List.lookup_cons, hb] at h
      have hk2 : k ≠ id := fun h' => hk h'.symm
      simp [List.filter_cons, hk2, ih h]

/-- The three ways `AddUser` fails, and the one way it succeeds. -/
theorem AddUser_cases (m : UserManager) (u : User) :
    (m.ctx = some true ∧ AddUser m u = (m, some "context cancelled")) ∨
    (m.ctx ≠ some true ∧ ∃ err, Validate u = some err ∧ AddUser m u = (m, some err)) ∨
    (m.ctx ≠ some true ∧ Validate u = none ∧ (m.users.lookup u.ID).isSome = true ∧
      AddUser m u = (m, some "user already exists")) ∨
    (m.ctx ≠ some true ∧ Validate u = none ∧ m.users.lookup u.ID = none ∧
      AddUser m u = ({ m with users := (u.ID, u) :: m.users }, none)) := by
  by_cases hc : m.ctx = some true
  · left; exact ⟨hc, by simp [AddUser, hc]⟩
  · right
    cases hv : Validate u with
    | some err => left; exact ⟨hc, err, rfl, by simp [AddUser, hc, hv]⟩
    | none =>
      right
      cases hl : m.users.lookup u.ID with
      | some old => left; exact ⟨hc, rfl, rfl, by simp [AddUser, hc, hv, hl]⟩
      | none =>
        right
        refine ⟨hc, rfl, rfl, ?_⟩
        simp [AddUser, hc, hv, hl, users_filter_eq_self m.users u.ID hl]

theorem GetUser_add_self (m : UserManager) (u : User) :
    GetUser { m with users := (u.ID, u) :: m.users } u.ID = (u, none) := by
  simp [GetUser, List.lookup_cons]

theorem GetUser_add_ne (m : UserManager) (u : User) (id : String) (hne : id ≠ u.ID) :
    GetUser { m with users := (u.ID, u) :: m.users } id = GetUser m id := by
  have hb : (id == u.ID) = false := by simpa using hne
  simp [GetUser, List.lookup_cons, hb]

/-! ## AddUser never overwrites (C15) -/

/-- C15: `AddUser` fails exactly when the context is cancelled, the user fails
`Validate`, or the map already has an entry for `u.ID`; when it fails the
manager, and with it the map, is unchanged, so `GetUser(u.ID)` returns what it
returned before; when it returns `nil` the map had no entry for `u.ID`, the new
map is the old one with the entry for `u` added, `GetUser(u.ID)` returns exactly
`u` without error, and `GetUser` of every other identifier returns what it
returned before. -/
theorem C15_AddUser_atomic (m : UserManager) (u : User) :
    ((AddUser m u).2 ≠ none ↔
      (m.ctx = some true ∨ Validate u ≠ none ∨ (m.users.lookup u.ID).isSome = true)) ∧
    ((AddUser m u).2 ≠ none →
      (AddUser m u).1 = m ∧ GetUser (AddUser m u).1 u.ID = GetUser m u.ID) ∧
    ((AddUser m u).2 = none →
      m.users.lookup u.ID = none ∧
      (AddUser m u).1 = { m with users := (u.ID, u) :: m.users } ∧
      GetUser (AddUser m u).1 u.ID = (u, none) ∧
      ∀ id : String, id ≠ u.ID → GetUser (AddUser m u).1 id = GetUser m id) := by
  rcases AddUser_cases m u with ⟨hc, h⟩ | ⟨hc, err, hv, h⟩ | ⟨hc, hv, hl, h⟩ | ⟨hc, hv, hl, h⟩
  · rw [h]
    exact ⟨⟨fun _ => Or.inl hc, fun _ => by simp⟩, fun _ => ⟨rfl, rfl⟩, fun h' => by cases h'⟩
  · rw [h]
    exact ⟨⟨fun _ => Or.inr (Or.inl (by rw [hv]; simp)), fun _ => by simp⟩,
      fun _ => ⟨rfl, rfl⟩, fun h' => by cases h'⟩
  · rw [h]
    exact ⟨⟨fun _ => Or.inr (Or.inr hl), fun _ => by simp⟩, fun _ => ⟨rfl, rfl⟩,
      fun h' => by cases h'⟩
  · rw [h]
    refine ⟨⟨fun h' => absurd rfl h', ?_⟩, fun h' => absurd rfl h', fun _ =>
      ⟨hl, rfl, GetUser_add_self m u, fun id hne => GetUser_add_ne m u id hne⟩⟩
    intro h'
    rcases h' with h' | h' | h'
    · exact absurd h' hc
    · exact absurd hv h'
    · rw [hl] at h'; cases h'

/-- Witness of C15: `ann` is added to a new manager; adding another user with her
identifier then fails and `GetUser` still returns `ann`; a user with a malformed
email and a cancelled context fail as well, leaving the manager as it is. -/
theorem C15_witness_ann :
    (AddUser NewUserManager ann).2 = none ∧
    GetUser (AddUser NewUserManager ann).1 ann.ID = (ann, none) ∧
    (AddUser (AddUser NewUserManager ann).1 annTwin).2 = some "user already exists" ∧
    GetUser (AddUser (AddUser NewUserManager ann).1 annTwin).1 annTwin.ID = (ann, none) ∧
    (AddUser NewUserManager badMail).2 = some "invalid email format" ∧
    (AddUser NewUserManager badMail).1 = NewUserManager ∧
    (AddUser (NewUserManagerWithContext (some true)) ann).2 = some "context cancelled" ∧
    (AddUser (NewUserManagerWithContext (some true)) ann).1
      = NewUserManagerWithContext (some true) := by
  have h1 := (C15_AddUser_atomic NewUserManager ann).2.2 (by decide)
  have h2 := (C15_AddUser_atomic (AddUser NewUserManager ann).1 annTwin).2.1 (by decide)
  have h3 := (C15_AddUser_atomic NewUserManager badMail).2.1 (by decide)
  have h4 := (C15_AddUser_atomic (NewUserManagerWithContext (some true)) ann).2.1 (by decide)
  refine ⟨by decide, h1.2.2.1, by decide, ?_, by decide, h3.1, by decide, h4.1⟩
  rw [h2.2]
  exact h1.2.2.1

end UserPkg
